import Mathlib

/-!
Chunked aggregation queries of the population and fire-data analyzers.

A shallow embedding of the loader and query code of `PopulationData`
(world-bank: the `std::thread` variant, and the parallel paths of the pthread
variant, named `pthread...`) and `FireDataAnalyzer` (fire-data-2020), and the
properties of it that the specification states.

Modelling conventions.

* `std::string` is a list of characters (`Str`); a file is the list of its lines.
* `long long` and `int` values are integers. A `long long` sum or difference
  is reduced to 64 bits in two's complement (`toLongLong`), which is what the
  compiled `+=` and `-` leave in the variable when the exact result does not
  fit.
* A finite `double` is the rational number it denotes. The growth rates are
  computed as IEEE 754 binary64 arithmetic computes them, every conversion,
  division and multiplication rounding to the nearest `double`, ties to even
  (`roundToDouble`). The fire-data values are read by `std::stod`, which is a
  parameter of that loader, and their average is an exact quotient.
* `std::unordered_map` is the list of its entries in the (fixed) order in
  which iterating the unmodified map enumerates them; `find` is a lookup.
* A worker thread is a function from its index to its local result; the
  order in which workers take the results mutex, and the order in which the
  iterations of an OpenMP loop run, is an explicit list of indices.
* An access outside a vector, a division by zero, or an exception that nothing
  catches makes the modelled function return `none`.
-/

/-- The type `std::string`: a sequence of characters. -/
abbrev Str := List Char

/-- The loop `for (size_t i = start; n-- > 0; ++i) acc = body(acc, v[i])`,
failing when `v[i]` lies outside the vector. -/
def loopFrom {α σ : Type} (v : List α) (body : σ → α → σ) : Nat → Nat → σ → Option σ
  | _, 0, acc => some acc
  | i, n + 1, acc =>
    match v[i]? with
    | some x => loopFrom v body (i + 1) n (body acc x)
    | none => none

/-- The loop `for (size_t i = start; i < end; ++i) acc = body(acc, v[i])`. -/
def forRange {α σ : Type} (v : List α) (start stop : Nat) (body : σ → α → σ) (init : σ) :
    Option σ :=
  loopFrom v body start (stop - start) init

/-- Runs the workers named in `ts` one after the other and collects their
results; fails when one of them fails. -/
def joinWorkers {β : Type} (worker : Nat → Option β) : List Nat → Option (List β)
  | [] => some []
  | t :: ts =>
    match worker t, joinWorkers worker ts with
    | some x, some xs => some (x :: xs)
    | _, _ => none

/-- The shared result vector after every worker named in `order` has appended
its local list under the results mutex; `order` lists the workers
`0 .. numThreads - 1`, each once, in the order in which they took the mutex. -/
def mergeLocal {β : Type} (worker : Nat → Option (List β)) (order : List Nat) :
    Option (List β) :=
  match joinWorkers worker order with
  | some locals => some locals.flatten
  | none => none

/-- The call `std::sort(first, last, comp)`. The C++ standard leaves the
relative order of equivalent elements open; the model is the insertion sort
that libstdc++ runs on short ranges, which keeps equivalent elements in their
input order. -/
def stdSort {α : Type} (comp : α → α → Bool) (l : List α) : List α :=
  l.insertionSort (fun a b => comp b a = false)

/-- The comparator `[](const auto& a, const auto& b) { return a.second > b.second; }`. -/
def bySecondDesc {α κ : Type} [LinearOrder κ] (a b : α × κ) : Bool := decide (a.2 > b.2)

/-- The conversion `static_cast<size_t>(n)` of an `int` (64-bit `size_t`). -/
def toSizeT (n : Int) : Nat := (n % 2 ^ 64).toNat

/-- The conversion `static_cast<int>(n)` of a `size_t` (32-bit `int`). -/
def toInt32 (n : Nat) : Int :=
  if n % 2 ^ 32 < 2 ^ 31 then ((n % 2 ^ 32 : Nat) : Int) else ((n % 2 ^ 32 : Nat) : Int) - 2 ^ 32

/-- The `long long` that a sum or difference with the exact value `n` leaves in
its 64-bit variable: `n` itself when it lies in `[-2^63, 2^63)`, and else `n`
reduced modulo `2^64` into that range (the C++ standard leaves a signed sum
that does not fit undefined; the two's-complement `add` and `sub` that the
compiler emits wrap around). -/
def toLongLong (n : Int) : Int := (n + 2 ^ 63) % 2 ^ 64 - 2 ^ 63

/-- The integer nearest to `x`; the even one of the two nearest when `x` lies
halfway between them. -/
def roundHalfEven (x : ℚ) : Int :=
  if x - ⌊x⌋ < 1 / 2 then ⌊x⌋
  else if x - ⌊x⌋ > 1 / 2 then ⌊x⌋ + 1
  else if ⌊x⌋ % 2 = 0 then ⌊x⌋ else ⌊x⌋ + 1

/-- The `double` nearest to `x` (IEEE 754 binary64, round to nearest, ties to
even): a multiple of `2^(e - 52)`, where `e` is the binary exponent of `x` and
at least `-1022`. Magnitudes that round to `2^1024` or beyond, where binary64
has an infinity, are not formed from operands of 64 bits and the factor 100. -/
def roundToDouble (x : ℚ) : ℚ :=
  if x = 0 then 0
  else (roundHalfEven (x / 2 ^ (max (Int.log 2 |x|) (-1022) - 52)) : ℚ)
    * 2 ^ (max (Int.log 2 |x|) (-1022) - 52)

/-- The C function `isspace` in the "C" locale: the space and the characters 9 to 13
(tab, newline, vertical tab, form feed, carriage return). -/
def isSpace (c : Char) : Bool := c = ' ' ∨ (9 ≤ c.toNat ∧ c.toNat ≤ 13)

/-- The value of a string of decimal digits. -/
def digitsValue (digits : Str) : Nat :=
  digits.foldl (fun acc c => 10 * acc + (c.toNat - 48)) 0

/-- The number that `strtol`/`strtoll` (base 10) reads at the start of `str`:
leading white space, an optional sign, then decimal digits; what follows the
digits is ignored. `none` when there is no digit to read. -/
def parseInteger (str : Str) : Option Int :=
  let s := str.dropWhile isSpace
  let negative := s.head? = some '-'
  let s := if s.head? = some '-' ∨ s.head? = some '+' then s.drop 1 else s
  let digits := s.takeWhile Char.isDigit
  if digits = [] then none
  else some (if negative then -(digitsValue digits : Int) else (digitsValue digits : Int))

/-- The call `std::stoi(str)`; `none` when it throws (`std::invalid_argument` for
no digits, `std::out_of_range` outside the range of `int`). -/
def stoi (str : Str) : Option Int :=
  match parseInteger str with
  | some v => if -2 ^ 31 ≤ v ∧ v < 2 ^ 31 then some v else none
  | none => none

/-- The call `std::stoll(str)`; `none` when it throws (`std::invalid_argument` for
no digits, `std::out_of_range` outside the range of `long long`). -/
def stoll (str : Str) : Option Int :=
  match parseInteger str with
  | some v => if -2 ^ 63 ≤ v ∧ v < 2 ^ 63 then some v else none
  | none => none

/-- A sample conversion standing for `std::stod`: it reads an integer numeral and
fails where `std::stod` finds no number to read. -/
def decimalStod (str : Str) : Option ℚ :=
  match parseInteger str with
  | some v => some (v : ℚ)
  | none => none

namespace PopulationData

/-- The locals of `parseCSVLine` while it scans a line. -/
structure ParseState where
  /-- The vector `result`. -/
  result : List Str
  /-- The flag `inQuotes`. -/
  inQuotes : Bool
  /-- The string `current`. -/
  current : Str
deriving DecidableEq, Repr

/-- One iteration of the scan loop of `parseCSVLine` on the character `c`. -/
def parseStep (st : ParseState) (c : Char) : ParseState :=
  if c = '"' then
    { st with inQuotes := !st.inQuotes }
  else if c = ',' ∧ st.inQuotes = false then
    { st with result := st.result ++ [st.current], current := [] }
  else
    { st with current := st.current ++ [c] }

/-- Models `PopulationData::parseCSVLine(line)`: the scan, then
`if (!current.empty()) result.push_back(current)`. -/
def parseCSVLine (line : Str) : List Str :=
  let st := line.foldl parseStep { result := [], inQuotes := false, current := [] }
  if st.current ≠ [] then st.result ++ [st.current] else st.result

/-- The inner map `std::unordered_map<int, long long>` (year to population). -/
abbrev YearMap := List (Int × Int)

/-- One entry of `countryData`: country code and its year map. -/
abbrev Country := Str × YearMap

/-- The table `countryData`, as the sequence of entries that iterating it yields;
`countryVector` is a copy of that sequence. -/
abbrev CountryData := List Country

/-- The fallback `if (numThreads == 0) numThreads = 4` applied to the value
reported by `std::thread::hardware_concurrency()`. -/
def threadCount (hardwareConcurrency : Nat) : Nat :=
  if hardwareConcurrency = 0 then 4 else hardwareConcurrency

/-- Models `size_t chunkSize = countryVector.size() / numThreads`. -/
def chunkSize (n numThreads : Nat) : Nat := n / numThreads

/-- Models `size_t start = t * chunkSize`. -/
def rangeStart (n numThreads t : Nat) : Nat := t * chunkSize n numThreads

/-- Models `size_t end = (t == numThreads - 1) ? countryVector.size() : (t + 1) * chunkSize`. -/
def rangeEnd (n numThreads t : Nat) : Nat :=
  if t = numThreads - 1 then n else (t + 1) * chunkSize n numThreads

/-- The rows `countryVector[start .. end)` that worker `t` scans. -/
def chunkOf {α : Type} (countryVector : List α) (numThreads t : Nat) : List α :=
  (countryVector.drop (rangeStart countryVector.length numThreads t)).take
    (rangeEnd countryVector.length numThreads t - rangeStart countryVector.length numThreads t)

/-- Loop body of `calculateTotalWorldPopulation`:
`if (yearIt != end() && yearIt->second > 0) total += yearIt->second`. -/
def addPopulation (year : Int) (total : Int) (country : Country) : Int :=
  match country.2.lookup year with
  | some p => if p > 0 then toLongLong (total + p) else total
  | none => total

/-- Worker `t` of the parallel path of `calculateTotalWorldPopulation`:
the value of `localPopulations[t]` after the worker has run. -/
def localPopulation (countryVector : CountryData) (year : Int) (numThreads t : Nat) :
    Option Int :=
  forRange countryVector (rangeStart countryVector.length numThreads t)
    (rangeEnd countryVector.length numThreads t) (addPopulation year) 0

/-- Models `PopulationData::calculateTotalWorldPopulation(year, useParallel)` with
`numThreads` workers on the parallel path. -/
def calculateTotalWorldPopulation (countryData : CountryData) (year : Int)
    (useParallel : Bool) (numThreads : Nat) : Option Int :=
  if useParallel then
    if numThreads = 0 then none
    else
      match joinWorkers (localPopulation countryData year numThreads) (List.range numThreads) with
      | some localPopulations =>
        some (localPopulations.foldl (fun total p => toLongLong (total + p)) 0)
      | none => none
  else
    some (countryData.foldl (addPopulation year) 0)

/-- Loop body of `getTopCountriesByPopulation`:
`if (yearIt != end() && yearIt->second > 0) results.push_back({code, yearIt->second})`. -/
def pushTopCountry (year : Int) (results : List (Str × Int)) (country : Country) :
    List (Str × Int) :=
  match country.2.lookup year with
  | some p => if p > 0 then results ++ [(country.1, p)] else results
  | none => results

/-- Worker `t` of the parallel path of `getTopCountriesByPopulation`: its `localResults`. -/
def localTopCountries (countryVector : CountryData) (year : Int) (numThreads t : Nat) :
    Option (List (Str × Int)) :=
  forRange countryVector (rangeStart countryVector.length numThreads t)
    (rangeEnd countryVector.length numThreads t) (pushTopCountry year) []

/-- The call `results.assign(temp.begin(), temp.begin() + std::min(topN, static_cast<int>(temp.size())))`;
the end iterator has to lie inside the vector. -/
def assignTopN {β : Type} (temp : List β) (topN : Int) : Option (List β) :=
  let k := min topN (toInt32 temp.length)
  if 0 ≤ k ∧ k ≤ (temp.length : Int) then some (temp.take k.toNat) else none

/-- The step `if (results.size() > static_cast<size_t>(topN)) results.resize(topN)`. -/
def resizeTopN {β : Type} (results : List β) (topN : Int) : List β :=
  if results.length > toSizeT topN then results.take (toSizeT topN) else results

/-- Models `PopulationData::getTopCountriesByPopulation(year, topN, useParallel)` with
`numThreads` workers appending in the order `order` on the parallel path. -/
def getTopCountriesByPopulation (countryData : CountryData) (year : Int) (topN : Int)
    (useParallel : Bool) (numThreads : Nat) (order : List Nat) : Option (List (Str × Int)) :=
  if useParallel then
    if numThreads = 0 then none
    else
      match mergeLocal (localTopCountries countryData year numThreads) order with
      | some tempResults => assignTopN (stdSort bySecondDesc tempResults) topN
      | none => none
  else
    some (resizeTopN (stdSort bySecondDesc (countryData.foldl (pushTopCountry year) [])) topN)

/-- Loop body of `findCountriesWithPopulationAbove`:
`if (yearIt != end() && yearIt->second >= threshold) results.push_back({code, yearIt->second})`. -/
def pushLargeCountry (threshold : Int) (year : Int) (results : List (Str × Int))
    (country : Country) : List (Str × Int) :=
  match country.2.lookup year with
  | some p => if p ≥ threshold then results ++ [(country.1, p)] else results
  | none => results

/-- Worker `t` of the parallel path of `findCountriesWithPopulationAbove`. -/
def localLargeCountries (countryVector : CountryData) (threshold : Int) (year : Int)
    (numThreads t : Nat) : Option (List (Str × Int)) :=
  forRange countryVector (rangeStart countryVector.length numThreads t)
    (rangeEnd countryVector.length numThreads t) (pushLargeCountry threshold year) []

/-- Models `PopulationData::findCountriesWithPopulationAbove(threshold, year, useParallel)`. -/
def findCountriesWithPopulationAbove (countryData : CountryData) (threshold : Int)
    (year : Int) (useParallel : Bool) (numThreads : Nat) (order : List Nat) :
    Option (List (Str × Int)) :=
  if useParallel then
    if numThreads = 0 then none
    else
      match mergeLocal (localLargeCountries countryData threshold year numThreads) order with
      | some tempResults => some (stdSort bySecondDesc tempResults)
      | none => none
  else
    some (stdSort bySecondDesc (countryData.foldl (pushLargeCountry threshold year) []))

/-- The expression `((double)(end - start) / start) * 100.0` on the `long long`
values `start` and `end`: the difference is taken in `long long`, it and the
divisor are converted to `double`, and the quotient and the product with
`100.0` are rounded to `double`. -/
def doubleGrowthRate (startPopulation endPopulation : Int) : ℚ :=
  roundToDouble
    (roundToDouble
        (roundToDouble ((toLongLong (endPopulation - startPopulation) : Int) : ℚ)
          / roundToDouble (startPopulation : ℚ))
      * 100)

/-- Loop body of `calculateCountryGrowthRates`; `growthRate` is the value of
`((double)(end - start) / start) * 100.0`, in a linearly ordered type `R` of
finite floating-point values. -/
def pushGrowthRate {R : Type} (growthRate : Int → Int → R) (startYear endYear : Int)
    (results : List (Str × R)) (country : Country) : List (Str × R) :=
  match country.2.lookup startYear, country.2.lookup endYear with
  | some s, some e =>
    if s > 0 ∧ e > 0 then results ++ [(country.1, growthRate s e)] else results
  | _, _ => results

/-- Worker `t` of the parallel path of `calculateCountryGrowthRates`. -/
def localGrowthRates {R : Type} (growthRate : Int → Int → R) (countryVector : CountryData)
    (startYear endYear : Int) (numThreads t : Nat) : Option (List (Str × R)) :=
  forRange countryVector (rangeStart countryVector.length numThreads t)
    (rangeEnd countryVector.length numThreads t) (pushGrowthRate growthRate startYear endYear) []

/-- Models `PopulationData::calculateCountryGrowthRates(startYear, endYear, useParallel)`. -/
def calculateCountryGrowthRates {R : Type} [LinearOrder R] (growthRate : Int → Int → R)
    (countryData : CountryData) (startYear endYear : Int) (useParallel : Bool)
    (numThreads : Nat) (order : List Nat) : Option (List (Str × R)) :=
  if useParallel then
    if numThreads = 0 then none
    else
      match mergeLocal (localGrowthRates growthRate countryData startYear endYear numThreads)
          order with
      | some tempResults => some (stdSort bySecondDesc tempResults)
      | none => none
  else
    some (stdSort bySecondDesc
      (countryData.foldl (pushGrowthRate growthRate startYear endYear) []))

/-- The entry a country contributes to the top-countries list: its code and
its population of `year`, when that is recorded and positive. -/
def topEntry (year : Int) (country : Country) : Option (Str × Int) :=
  match country.2.lookup year with
  | some p => if p > 0 then some (country.1, p) else none
  | none => none

/-- The entry a country contributes to the large-countries list. -/
def largeEntry (threshold : Int) (year : Int) (country : Country) : Option (Str × Int) :=
  match country.2.lookup year with
  | some p => if p ≥ threshold then some (country.1, p) else none
  | none => none

/-- The entry a country contributes to the growth-rate list. -/
def growthEntry {R : Type} (growthRate : Int → Int → R) (startYear endYear : Int)
    (country : Country) : Option (Str × R) :=
  match country.2.lookup startYear, country.2.lookup endYear with
  | some s, some e => if s > 0 ∧ e > 0 then some (country.1, growthRate s e) else none
  | _, _ => none

/-- The pthread worker `threadWorkerWorldPopulation` on the range `[start, stop)`:
it sums its rows into `localPop` and then, holding the mutex, adds `localPop`
to the shared `totalPopulation`. -/
def threadWorkerWorldPopulation (countryVector : CountryData) (year : Int) (start stop : Nat)
    (totalPopulation : Int) : Option Int :=
  match forRange countryVector start stop (addPopulation year) 0 with
  | some localPop => some (toLongLong (totalPopulation + localPop))
  | none => none

/-- The shared `totalPopulation` after the workers named in `order` have taken the
mutex in that order, each on its chunk range for `numThreads` workers. -/
def runWorldPopulationWorkers (countryVector : CountryData) (year : Int) (numThreads : Nat) :
    List Nat → Int → Option Int
  | [], totalPopulation => some totalPopulation
  | t :: ts, totalPopulation =>
    match threadWorkerWorldPopulation countryVector year
        (rangeStart countryVector.length numThreads t)
        (rangeEnd countryVector.length numThreads t) totalPopulation with
    | some total => runWorldPopulationWorkers countryVector year numThreads ts total
    | none => none

/-- A sample table: three countries with their populations of 2020. -/
def sampleTable : CountryData :=
  [("A".toList, [(2020, 5)]), ("B".toList, [(2020, 7)]), ("C".toList, [(2020, 11)])]

/-- A sample table in which two countries have the same population in 2020. -/
def tiedTable : CountryData :=
  [("A".toList, [(2020, 5)]), ("B".toList, [(2020, 5)])]

/-- The table `{USA: {2000: 100, 2020: 150}, CHN: {2000: 200, 2020: 180}}`. -/
def usaChnTable : CountryData :=
  [("USA".toList, [(2000, 100), (2020, 150)]), ("CHN".toList, [(2000, 200), (2020, 180)])]

/-- A table whose only country has exactly the threshold population 100 in 2020. -/
def atThresholdTable : CountryData :=
  [("A".toList, [(2020, 100)])]

/-- The table `{A: 50, B: 150, C: 200}` for the year 2020. -/
def abcTable : CountryData :=
  [("A".toList, [(2020, 50)]), ("B".toList, [(2020, 150)]), ("C".toList, [(2020, 200)])]

/-- The total the specification describes: the sum of all populations `> 0`
recorded for `year`. -/
def specTotalPopulation (countryData : CountryData) (year : Int) : Int :=
  ((countryData.filterMap (fun c => c.2.lookup year)).filter (fun p => p > 0)).sum

/-- The worker count of the pthread variant for a table of `n` countries:
`int numThreads = 4; if (countryVector.size() < numThreads) numThreads = countryVector.size();`. -/
def pthreadNumThreads (n : Nat) : Nat := if n < 4 then n else 4

/-- Models `PopulationData::stringToLongLong(str)`: `-1` for an empty cell, for the
cell `""` and when `std::stoll` throws. -/
def stringToLongLong (str : Str) : Int :=
  if str = [] ∨ str = ['"', '"'] then -1
  else
    match stoll str with
    | some v => v
    | none => -1

/-- The assignment `m[key] = value` on an unordered map: replaces the value of
`key`, or adds the entry (C++ leaves its place in the iteration order open; the
model puts it last). -/
def assign {κ ν : Type} [DecidableEq κ] (key : κ) (value : ν) : List (κ × ν) → List (κ × ν)
  | [] => [(key, value)]
  | (k, v) :: rest =>
    if k = key then (key, value) :: rest else (k, v) :: assign key value rest

/-- The two maps of a `PopulationData` object. -/
structure Table where
  /-- The map `countryData`. -/
  countryData : CountryData
  /-- The map `countryNames`. -/
  countryNames : List (Str × Str)
deriving DecidableEq

/-- The statement `countryData[countryCode][year] = population`. -/
def storePopulation (countryCode : Str) (year population : Int) (countryData : CountryData) :
    CountryData :=
  assign countryCode (assign year population ((countryData.lookup countryCode).getD []))
    countryData

/-- The body of the year loop of `loadFromCSV` for the column `i`:
`year = 1960 + (i - 4)`, `population = stringToLongLong(fields[i])`, stored
when `population > 0`. -/
def storeYear (countryCode : Str) (fields : List Str) (countryData : CountryData) (i : Nat) :
    CountryData :=
  if stringToLongLong (fields.getD i []) > 0 then
    storePopulation countryCode (1960 + ((i : Int) - 4)) (stringToLongLong (fields.getD i []))
      countryData
  else countryData

/-- The columns the year loop visits:
`for (int i = 4; i < fields.size() && i < 68; ++i)`. -/
def yearColumns (fieldCount : Nat) : List Nat := List.range' 4 (min fieldCount 68 - 4)

/-- The body of the `while (std::getline(file, line))` loop of `loadFromCSV`:
the table after the line `line` has been handled. -/
def processLine (table : Table) (line : Str) : Table :=
  if line = [] ∨ "Data Source".toList <:+: line ∨ "Last Updated Date".toList <:+: line then
    table
  else if "Country Name".toList <:+: line then table
  else
    let fields := parseCSVLine line
    if fields.length < 68 then table
    else
      let countryName := fields.getD 0 []
      let countryCode := fields.getD 1 []
      let indicatorName := fields.getD 2 []
      if indicatorName ≠ "Population, total".toList then table
      else
        { countryNames := assign countryCode countryName table.countryNames,
          countryData :=
            (yearColumns fields.length).foldl (storeYear countryCode fields) table.countryData }

/-- Models `PopulationData::loadFromCSV` on an opened file with the lines `lines`. -/
def loadFromCSV (table : Table) (lines : List Str) : Table :=
  lines.foldl processLine table

/-- Models `PopulationData::getPopulation(countryCode, year)`. -/
def getPopulation (countryData : CountryData) (countryCode : Str) (year : Int) : Int :=
  match countryData.lookup countryCode with
  | none => -1
  | some years =>
    match years.lookup year with
    | none => -1
    | some population => population

/-- Models `PopulationData::getCountryName(countryCode)`. -/
def getCountryName (countryNames : List (Str × Str)) (countryCode : Str) : Str :=
  match countryNames.lookup countryCode with
  | some name => name
  | none => []

/-- The table of a freshly constructed `PopulationData`. -/
def emptyTable : Table := { countryData := [], countryNames := [] }

/-- A line passes every check of `loadFromCSV`: it is not empty, holds none of the
header markers, has at least 68 fields and the indicator `Population, total`. -/
def acceptedLine (line : Str) : Prop :=
  line ≠ [] ∧ ¬ "Data Source".toList <:+: line ∧ ¬ "Last Updated Date".toList <:+: line
  ∧ ¬ "Country Name".toList <:+: line ∧ 68 ≤ (parseCSVLine line).length
  ∧ (parseCSVLine line).getD 2 [] = "Population, total".toList

instance (line : Str) : Decidable (acceptedLine line) := by
  unfold acceptedLine
  exact inferInstance

/-- Loop body of `calculateGlobalPopulationGrowth` on the pair
`(startPopulation, endPopulation)`: each sum takes the country's population of
its year when that is recorded and positive. -/
def addGrowthPopulations (startYear endYear : Int) (sums : Int × Int) (country : Country) :
    Int × Int :=
  (addPopulation startYear sums.1 country, addPopulation endYear sums.2 country)

/-- Worker `t` of the parallel path of `calculateGlobalPopulationGrowth`: the pair
`(localStartPopulations[t], localEndPopulations[t])` after the worker has run. -/
def localGrowthPopulations (countryVector : CountryData) (startYear endYear : Int)
    (numThreads t : Nat) : Option (Int × Int) :=
  forRange countryVector (rangeStart countryVector.length numThreads t)
    (rangeEnd countryVector.length numThreads t) (addGrowthPopulations startYear endYear) (0, 0)

/-- The pair `(startPopulation, endPopulation)` that `calculateGlobalPopulationGrowth`
has computed before its final `if`. -/
def globalPopulationSums (countryData : CountryData) (startYear endYear : Int)
    (useParallel : Bool) (numThreads : Nat) : Option (Int × Int) :=
  if useParallel then
    if numThreads = 0 then none
    else
      match joinWorkers (localGrowthPopulations countryData startYear endYear numThreads)
          (List.range numThreads) with
      | some locals =>
        some (locals.foldl
          (fun sums p => (toLongLong (sums.1 + p.1), toLongLong (sums.2 + p.2))) (0, 0))
      | none => none
  else
    some (countryData.foldl (addGrowthPopulations startYear endYear) (0, 0))

/-- The expression `((double)(endPopulation - startPopulation) / startPopulation) * 100.0`;
it fails on a zero divisor. -/
def growthPercent (startPopulation endPopulation : Int) : Option ℚ :=
  if startPopulation = 0 then none else some (doubleGrowthRate startPopulation endPopulation)

/-- Models `PopulationData::calculateGlobalPopulationGrowth(startYear, endYear, useParallel)`:
`if (startPopulation == 0) return 0.0;` and else the growth in percent. -/
def calculateGlobalPopulationGrowth (countryData : CountryData) (startYear endYear : Int)
    (useParallel : Bool) (numThreads : Nat) : Option ℚ :=
  match globalPopulationSums countryData startYear endYear useParallel numThreads with
  | some sums => if sums.1 = 0 then some 0 else growthPercent sums.1 sums.2
  | none => none

/-- The text of the last field of a line: what `current` holds when the scan of
`parseCSVLine` ends. -/
def finalField (line : Str) : Str :=
  (line.foldl parseStep { result := [], inQuotes := false, current := [] }).current

/-- Every stored population is strictly positive and every stored year lies in
1960..2023. -/
def validTable (countryData : CountryData) : Prop :=
  ∀ country ∈ countryData, ∀ entry ∈ country.2,
    0 < entry.2 ∧ 1960 ≤ entry.1 ∧ entry.1 ≤ 2023

/-- The pthread worker `threadWorkerGlobalGrowth` on the range `[start, stop)`: it
sums its rows into `localStartPop` and `localEndPop` and then, holding the
mutex, adds them to the shared sums. -/
def threadWorkerGlobalGrowth (countryVector : CountryData) (startYear endYear : Int)
    (start stop : Nat) (sums : Int × Int) : Option (Int × Int) :=
  match forRange countryVector start stop (addGrowthPopulations startYear endYear) (0, 0) with
  | some localPop =>
    some (toLongLong (sums.1 + localPop.1), toLongLong (sums.2 + localPop.2))
  | none => none

/-- The shared pair `(startPopulation, endPopulation)` after the workers named in
`order` have taken the mutex in that order. -/
def runGlobalGrowthWorkers (countryVector : CountryData) (startYear endYear : Int)
    (numThreads : Nat) : List Nat → Int × Int → Option (Int × Int)
  | [], sums => some sums
  | t :: ts, sums =>
    match threadWorkerGlobalGrowth countryVector startYear endYear
        (rangeStart countryVector.length numThreads t)
        (rangeEnd countryVector.length numThreads t) sums with
    | some sums' => runGlobalGrowthWorkers countryVector startYear endYear numThreads ts sums'
    | none => none

/-- Models `PopulationData::calculateTotalWorldPopulation` of the pthread variant: the
worker count is `pthreadNumThreads`, and `countryVector.size() / numThreads`
fails on a zero divisor. -/
def pthreadCalculateTotalWorldPopulation (countryData : CountryData) (year : Int)
    (useParallel : Bool) (order : List Nat) : Option Int :=
  if useParallel then
    if pthreadNumThreads countryData.length = 0 then none
    else runWorldPopulationWorkers countryData year (pthreadNumThreads countryData.length) order 0
  else
    some (countryData.foldl (addPopulation year) 0)

/-- Models `PopulationData::calculateGlobalPopulationGrowth` of the pthread variant. -/
def pthreadCalculateGlobalPopulationGrowth (countryData : CountryData)
    (startYear endYear : Int) (useParallel : Bool) (order : List Nat) : Option ℚ :=
  let sums : Option (Int × Int) :=
    if useParallel then
      if pthreadNumThreads countryData.length = 0 then none
      else runGlobalGrowthWorkers countryData startYear endYear
        (pthreadNumThreads countryData.length) order (0, 0)
    else
      some (countryData.foldl (addGrowthPopulations startYear endYear) (0, 0))
  match sums with
  | some sums => if sums.1 = 0 then some 0 else growthPercent sums.1 sums.2
  | none => none

/-- Models `PopulationData::getTopCountriesByPopulation` of the pthread variant: the
code of the `std::thread` variant with the worker count `pthreadNumThreads`. -/
def pthreadGetTopCountriesByPopulation (countryData : CountryData) (year : Int) (topN : Int)
    (useParallel : Bool) (order : List Nat) : Option (List (Str × Int)) :=
  getTopCountriesByPopulation countryData year topN useParallel
    (pthreadNumThreads countryData.length) order

/-- Models `PopulationData::findCountriesWithPopulationAbove` of the pthread variant. -/
def pthreadFindCountriesWithPopulationAbove (countryData : CountryData) (threshold : Int)
    (year : Int) (useParallel : Bool) (order : List Nat) : Option (List (Str × Int)) :=
  findCountriesWithPopulationAbove countryData threshold year useParallel
    (pthreadNumThreads countryData.length) order

/-- Models `PopulationData::calculateCountryGrowthRates` of the pthread variant. -/
def pthreadCalculateCountryGrowthRates {R : Type} [LinearOrder R] (growthRate : Int → Int → R)
    (countryData : CountryData) (startYear endYear : Int) (useParallel : Bool)
    (order : List Nat) : Option (List (Str × R)) :=
  calculateCountryGrowthRates growthRate countryData startYear endYear useParallel
    (pthreadNumThreads countryData.length) order

/-- A table whose only country has the same population in 2000 and in 2020. -/
def flatTable : CountryData :=
  [("A".toList, [(2000, 100), (2020, 100)])]

instance (countryData : CountryData) : Decidable (validTable countryData) := by
  unfold validTable
  exact inferInstance

/-- Every stored population lies below `2^63`, as the values of a `long long` do. -/
def longLongTable (countryData : CountryData) : Prop :=
  ∀ country ∈ countryData, ∀ entry ∈ country.2, entry.2 < 2 ^ 63

instance (countryData : CountryData) : Decidable (longLongTable countryData) := by
  unfold longLongTable
  exact inferInstance

/-- What a country adds to the total of `year`: its population of that year when
one is recorded and positive, and nothing else. -/
def positivePopulation (year : Int) (country : Country) : Int :=
  match country.2.lookup year with
  | some p => if p > 0 then p else 0
  | none => 0

/-- The pair the specification describes for a country: its code and growth rate,
present when both year lookups are present and the start-year population is
positive. -/
def specGrowthEntry (startYear endYear : Int) (country : Country) : Option (Str × ℚ) :=
  match country.2.lookup startYear, country.2.lookup endYear with
  | some s, some e => if s > 0 then some (country.1, doubleGrowthRate s e) else none
  | _, _ => none

/-- Two countries with a population of `2^62` each in 2020. -/
def overflowTable : CountryData :=
  [("BG1".toList, [(2020, 2 ^ 62)]), ("BG2".toList, [(2020, 2 ^ 62)])]

end PopulationData


/-- The start of a World Bank data line, its third column being `"Population, total"`. -/
def worldBankLine : Str :=
  "\"Aruba\",\"ABW\",\"Population, total\",\"SP.POP.TOTL\",\"54608\",\"55811\",".toList

/-- A field wrapped in double quotes. -/
def quoteField (field : Str) : Str := '"' :: field ++ ['"']

/-- The fields joined with commas into one line. -/
def joinFields (fields : List Str) : Str := List.intercalate [','] fields

/-- A World Bank data line made of the given cells: each cell in double quotes and
followed by a comma. -/
def worldBankRow (cells : List Str) : Str :=
  (cells.map (fun cell => quoteField cell ++ [','])).flatten

/-- A data line of 68 cells whose only filled year cell is that of 1960. -/
def partialRow : Str :=
  worldBankRow (["Aruba".toList, "ABW".toList, "Population, total".toList,
    "SP.POP.TOTL".toList, "54608".toList] ++ List.replicate 63 [])

/-- One character of the count of commas outside quoted sections; the pair is
(inside a quoted section, commas counted so far): a double quote opens or
closes a quoted section, a comma counts when no section is open. -/
def commaStep (st : Bool × Nat) (c : Char) : Bool × Nat :=
  if c = '"' then (!st.1, st.2)
  else if c = ',' ∧ st.1 = false then (st.1, st.2 + 1)
  else st

/-- The number of commas of a line that occur outside quoted sections. -/
def countOutsideCommas (line : Str) : Nat := (line.foldl commaStep (false, 0)).2

/-- The string `s` with its first character removed if that is a double quote, and
then its last remaining character removed if that is a double quote. -/
def stripOuterQuotes (s : Str) : Str :=
  let rest := if s.head? = some '"' then s.tail else s
  if rest.getLast? = some '"' then rest.dropLast else rest

/-- A data line of 68 cells for a country whose only filled year cell, that of
2020, holds `2^62`. -/
def bigRow (name code : Str) : Str :=
  worldBankRow ([name, code, "Population, total".toList, "SP.POP.TOTL".toList]
    ++ List.replicate 60 [] ++ ["4611686018427387904".toList] ++ List.replicate 3 [])

/-- A data line of 70 cells: the 68 cells of `partialRow` and two further cells. -/
def longRow : Str :=
  worldBankRow (["Aruba".toList, "ABW".toList, "Population, total".toList,
    "SP.POP.TOTL".toList, "54608".toList] ++ List.replicate 63 []
    ++ ["77".toList, "x".toList])

namespace FireDataAnalyzer

/-- The struct `AirQualityRecord`; `double` fields hold rationals. -/
structure AirQualityRecord where
  latitude : ℚ
  longitude : ℚ
  datetime : Str
  parameter : Str
  value : ℚ
  unit : Str
  rawConcentration : ℚ
  aqi : Int
  aqiCategory : Int
  siteName : Str
  agencyName : Str
  siteId : Str
  fullSiteId : Str
deriving DecidableEq

/-- Models `AirQualityRecord::getDate()`: `datetime.substr(0, 10)`. -/
def AirQualityRecord.getDate (record : AirQualityRecord) : Str := record.datetime.take 10

/-- Models `FireDataAnalyzer::cleanString(str)`. -/
def cleanString (str : Str) : Str :=
  let cleaned := str
  let cleaned := if cleaned ≠ [] ∧ cleaned.head? = some '"' then cleaned.drop 1 else cleaned
  let cleaned := if cleaned ≠ [] ∧ cleaned.getLast? = some '"' then cleaned.dropLast else cleaned
  cleaned

/-- The locals of `parseCSVLine` while it scans a line. -/
structure ParseState where
  /-- The vector `fields`. -/
  fields : List Str
  /-- The flag `inQuotes`. -/
  inQuotes : Bool
  /-- The string `currentField`. -/
  currentField : Str
deriving DecidableEq, Repr

/-- One iteration of the scan loop of `parseCSVLine` on the character `c`. -/
def parseStep (st : ParseState) (c : Char) : ParseState :=
  if c = '"' then
    { st with inQuotes := !st.inQuotes, currentField := st.currentField ++ [c] }
  else if c = ',' ∧ st.inQuotes = false then
    { st with fields := st.fields ++ [cleanString st.currentField], currentField := [] }
  else
    { st with currentField := st.currentField ++ [c] }

/-- Models `FireDataAnalyzer::parseCSVLine(line)`: the scan, then
`fields.push_back(cleanString(currentField))`. -/
def parseCSVLine (line : Str) : List Str :=
  let st := line.foldl parseStep { fields := [], inQuotes := false, currentField := [] }
  st.fields ++ [cleanString st.currentField]

/-- The division `totalAQI / count`; it fails on a zero divisor. -/
def divide (totalAQI : ℚ) (count : Int) : Option ℚ :=
  if count = 0 then none else some (totalAQI / (count : ℚ))

/-- Loop body of `getAverageAQIForDate` on the pair `(totalAQI, count)`. -/
def addAQI (targetDate : Str) (acc : ℚ × Int) (record : AirQualityRecord) : ℚ × Int :=
  if record.getDate = targetDate then (acc.1 + (record.aqi : ℚ), acc.2 + 1) else acc

/-- Models `FireDataAnalyzer::getAverageAQIForDate(targetDate)` over the table `records`:
`return count > 0 ? totalAQI / count : 0.0`. -/
def getAverageAQIForDate (records : List AirQualityRecord) (targetDate : Str) : Option ℚ :=
  let acc := records.foldl (addAQI targetDate) (0, 0)
  if acc.2 > 0 then divide acc.1 acc.2 else some 0

/-- The map `std::map<std::string, int>`: its entries in ascending key order. -/
abbrev DateMap := List (Str × Int)

/-- The assignment `m[key] = value`: replaces the value of `key`, or inserts the
entry at its place in the key order. -/
def mapAssign (key : Str) (value : Int) : DateMap → DateMap
  | [] => [(key, value)]
  | (k, v) :: rest =>
    if key = k then (key, value) :: rest
    else if key < k then (key, value) :: (k, v) :: rest
    else (k, v) :: mapAssign key value rest

/-- Loop body of the first loop of `getDaysWithAQIAbove`:
`if (m.find(date) == m.end() || record.aqi > m[date]) m[date] = record.aqi`. -/
def updateMaxAQI (dateMaxAQI : DateMap) (record : AirQualityRecord) : DateMap :=
  match dateMaxAQI.lookup record.getDate with
  | none => mapAssign record.getDate record.aqi dateMaxAQI
  | some current =>
    if record.aqi > current then mapAssign record.getDate record.aqi dateMaxAQI
    else dateMaxAQI

/-- Loop body of the second loop of `getDaysWithAQIAbove`:
`if (pair.second > threshold) results.push_back(pair.first)`. -/
def pushDay (threshold : Int) (results : List Str) (pair : Str × Int) : List Str :=
  if pair.2 > threshold then results ++ [pair.1] else results

/-- Models `FireDataAnalyzer::getDaysWithAQIAbove(threshold)` over the table `records`. -/
def getDaysWithAQIAbove (records : List AirQualityRecord) (threshold : Int) : List Str :=
  let dateMaxAQI := records.foldl updateMaxAQI []
  let results := dateMaxAQI.foldl (pushDay threshold) []
  stdSort (fun a b => decide (a < b)) results

/-- The value a date has in `dateMaxAQI` after a further reading `aqi` of that date. -/
def raiseMax (current : Option Int) (aqi : Int) : Option Int :=
  match current with
  | none => some aqi
  | some c => if aqi > c then some aqi else some c

/-- The day a map entry contributes to the result of `getDaysWithAQIAbove`. -/
def dayEntry (threshold : Int) (pair : Str × Int) : Option Str :=
  if pair.2 > threshold then some pair.1 else none

/-- The maximum `aqi` over all records of the date `date`, when there is one. -/
def maxAQIOfDate (records : List AirQualityRecord) (date : Str) : Option Int :=
  ((records.filter (fun r => r.getDate = date)).map (fun r => r.aqi)).max?

/-- A record with the given timestamp and `aqi`, all other fields blank. -/
def sampleRecord (datetime : Str) (aqi : Int) : AirQualityRecord :=
  { latitude := 0, longitude := 0, datetime := datetime, parameter := [], value := 0,
    unit := [], rawConcentration := 0, aqi := aqi, aqiCategory := 0, siteName := [],
    agencyName := [], siteId := [], fullSiteId := [] }

/-- A sample table of four readings on two days. -/
def sampleRecords : List AirQualityRecord :=
  [sampleRecord "2020-08-16T01:00".toList 120, sampleRecord "2020-08-15T01:00".toList 40,
   sampleRecord "2020-08-15T02:00".toList 90, sampleRecord "2020-08-16T02:00".toList 101]

/-- Iteration `i` of the loop of `getAQIDataForDate`:
`if (records[i].getDate() == targetDate) results.push_back(records[i])`, the
`push_back` being inside the critical section. -/
def pushIfDate (records : List AirQualityRecord) (targetDate : Str)
    (results : List AirQualityRecord) (i : Nat) : Option (List AirQualityRecord) :=
  match records[i]? with
  | some record => if record.getDate = targetDate then some (results ++ [record]) else some results
  | none => none

/-- The vector `results` after the iterations named in the list have run, in that
order, starting from `results`. -/
def runIterations (records : List AirQualityRecord) (targetDate : Str) :
    List Nat → List AirQualityRecord → Option (List AirQualityRecord)
  | [], results => some results
  | i :: rest, results =>
    match pushIfDate records targetDate results i with
    | some results' => runIterations records targetDate rest results'
    | none => none

/-- Models `FireDataAnalyzer::getAQIDataForDate(targetDate)` over the table `records`;
`schedule` lists the iterations `0 .. records.size() - 1` of the
`omp parallel for` loop, each once, in the order in which they run. -/
def getAQIDataForDate (records : List AirQualityRecord) (targetDate : Str)
    (schedule : List Nat) : Option (List AirQualityRecord) :=
  runIterations records targetDate schedule []

/-- A value-initialised `AirQualityRecord`, the content of every slot of
`localRecords` before the parse loop: numbers zero, strings empty. -/
def defaultRecord : AirQualityRecord :=
  { latitude := 0, longitude := 0, datetime := [], parameter := [], value := 0,
    unit := [], rawConcentration := 0, aqi := 0, aqiCategory := 0, siteName := [],
    agencyName := [], siteId := [], fullSiteId := [] }

/-- The body of `if (fields.size() >= 13) { ... }` in `loadCSVFile`: the record
assigned to the slot of the line; `none` when `std::stod` or `std::stoi`
throws. `stod` is the conversion `std::stod`. -/
def buildRecord (stod : Str → Option ℚ) (fields : List Str) : Option AirQualityRecord :=
  match stod (fields.getD 0 []), stod (fields.getD 1 []), stod (fields.getD 4 []),
      stod (fields.getD 6 []), stoi (fields.getD 7 []), stoi (fields.getD 8 []) with
  | some latitude, some longitude, some value, some rawConcentration, some aqi,
      some aqiCategory =>
    some { latitude := latitude, longitude := longitude, datetime := fields.getD 2 [],
           parameter := fields.getD 3 [], value := value, unit := fields.getD 5 [],
           rawConcentration := rawConcentration, aqi := aqi, aqiCategory := aqiCategory,
           siteName := fields.getD 9 [], agencyName := fields.getD 10 [],
           siteId := fields.getD 11 [], fullSiteId := fields.getD 12 [] }
  | _, _, _, _, _, _ => none

/-- One iteration of the parse loop of `loadCSVFile`: the content of the slot
`localRecords[i]` after the line `lines[i]` has been handled. -/
def parseRecord (stod : Str → Option ℚ) (line : Str) : Option AirQualityRecord :=
  let fields := parseCSVLine line
  if fields.length ≥ 13 then buildRecord stod fields else some defaultRecord

/-- The vector `localRecords` after the parse loop; `none` when an iteration throws. -/
def parseLines (stod : Str → Option ℚ) : List Str → Option (List AirQualityRecord)
  | [] => some []
  | line :: rest =>
    match parseRecord stod line, parseLines stod rest with
    | some record, some records => some (record :: records)
    | _, _ => none

/-- Models `FireDataAnalyzer::loadCSVFile` on a file with the lines `lines`: the table
`records` afterwards; `none` when an exception leaves the function. The last
loop appends every slot whose `datetime` is not empty. -/
def loadCSVFile (stod : Str → Option ℚ) (records : List AirQualityRecord) (lines : List Str) :
    Option (List AirQualityRecord) :=
  match parseLines stod lines with
  | some localRecords => some (records ++ localRecords.filter (fun rec => rec.datetime ≠ []))
  | none => none

/-- The numeric fields of a line (latitude, longitude, value, rawConcentration, aqi,
aqiCategory) can all be converted. -/
def numericFieldsConvert (stod : Str → Option ℚ) (fields : List Str) : Prop :=
  (stod (fields.getD 0 [])).isSome ∧ (stod (fields.getD 1 [])).isSome
  ∧ (stod (fields.getD 4 [])).isSome ∧ (stod (fields.getD 6 [])).isSome
  ∧ (stoi (fields.getD 7 [])).isSome ∧ (stoi (fields.getD 8 [])).isSome

instance (stod : Str → Option ℚ) (fields : List Str) :
    Decidable (numericFieldsConvert stod fields) := by
  unfold numericFieldsConvert
  exact inferInstance

/-- A well-formed line: at least 13 fields, numeric fields convertible. -/
def wellFormedLine (stod : Str → Option ℚ) (line : Str) : Prop :=
  13 ≤ (parseCSVLine line).length ∧ numericFieldsConvert stod (parseCSVLine line)

instance (stod : Str → Option ℚ) (line : Str) : Decidable (wellFormedLine stod line) := by
  unfold wellFormedLine
  exact inferInstance

/-- A malformed line: fewer than 13 fields. -/
def malformedLine (line : Str) : Prop := (parseCSVLine line).length < 13

instance (line : Str) : Decidable (malformedLine line) := by
  unfold malformedLine
  exact inferInstance

/-- A well-formed line with a timestamp. -/
def goodLine : Str :=
  "37,-122,2020-08-15T01:00,PM2.5,12,UG/M3,12,51,2,Site,Agency,060,840".toList

/-- A well-formed line whose third field, the timestamp, is empty. -/
def noDatetimeLine : Str :=
  "37,-122,,PM2.5,12,UG/M3,12,51,2,Site,Agency,060,840".toList

/-- A line with 13 fields whose latitude is not a number. -/
def badNumberLine : Str :=
  "abc,-122,2020-08-15T02:00,PM2.5,12,UG/M3,12,51,2,Site,Agency,060,840".toList

/-- The record a line contributes to the table: the one built from its fields when
the line has at least 13 fields and its third field is not empty. -/
def lineRecord (stod : Str → Option ℚ) (line : Str) : Option AirQualityRecord :=
  if 13 ≤ (parseCSVLine line).length ∧ (parseCSVLine line).getD 2 [] ≠ [] then
    buildRecord stod (parseCSVLine line)
  else none

end FireDataAnalyzer
/-! ## Generic lemmas on loops and chunk ranges -/

theorem loopFrom_eq_foldl {α σ : Type} (v : List α) (body : σ → α → σ) :
    ∀ (n i : Nat) (acc : σ), i + n ≤ v.length →
      loopFrom v body i n acc = some (((v.drop i).take n).foldl body acc) := by
  intro n
  induction n with
  | zero => intro i acc _; simp [loopFrom]
  | succ n ih =>
    intro i acc h
    have hi : i < v.length := by omega
    have hd : v.drop i = v[i] :: v.drop (i + 1) := List.drop_eq_getElem_cons hi
    rw [loopFrom, List.getElem?_eq_getElem hi]
    simp only
    rw [ih (i + 1) (body acc v[i]) (by omega)]
    conv_rhs => rw [hd, List.take_succ_cons, List.foldl_cons]

theorem forRange_eq_foldl {α σ : Type} (v : List α) (body : σ → α → σ) (start stop : Nat)
    (init : σ) (h1 : start ≤ stop) (h2 : stop ≤ v.length) :
    forRange v start stop body init
      = some (((v.drop start).take (stop - start)).foldl body init) := by
  unfold forRange
  exact loopFrom_eq_foldl v body (stop - start) start init (by omega)

theorem joinWorkers_eq_map {β : Type} (worker : Nat → Option β) (g : Nat → β) :
    ∀ ts : List Nat, (∀ t ∈ ts, worker t = some (g t)) →
      joinWorkers worker ts = some (ts.map g) := by
  intro ts
  induction ts with
  | nil => intro _; rfl
  | cons t ts ih =>
    intro h
    have h1 := h t (List.mem_cons_self _ _)
    have h2 := ih (fun u hu => h u (List.mem_cons_of_mem _ hu))
    simp [joinWorkers, h1, h2]

namespace PopulationData

theorem chunkSize_mul_le (n w : Nat) : w * chunkSize n w ≤ n := by
  unfold chunkSize
  exact Nat.mul_div_le n w

theorem rangeStart_le_rangeEnd (n w t : Nat) (ht : t < w) :
    rangeStart n w t ≤ rangeEnd n w t := by
  unfold rangeStart rangeEnd
  split
  · next h =>
    have h1 : t * chunkSize n w ≤ w * chunkSize n w := Nat.mul_le_mul_right _ (by omega)
    have h2 := chunkSize_mul_le n w
    omega
  · exact Nat.mul_le_mul_right _ (by omega)

theorem rangeEnd_le (n w t : Nat) (ht : t < w) : rangeEnd n w t ≤ n := by
  unfold rangeEnd
  split
  · exact le_rfl
  · next h =>
    have h1 : (t + 1) * chunkSize n w ≤ w * chunkSize n w := Nat.mul_le_mul_right _ (by omega)
    have h2 := chunkSize_mul_le n w
    omega

theorem rangeEnd_le_rangeStart (n w t u : Nat) (htu : t < u) (hu : u < w) :
    rangeEnd n w t ≤ rangeStart n w u := by
  unfold rangeEnd rangeStart
  rw [if_neg (by omega)]
  exact Nat.mul_le_mul_right _ (by omega)

theorem ranges_disjoint (n w t u i : Nat) (ht : t < w) (hu : u < w) (hne : t ≠ u)
    (h1 : rangeStart n w t ≤ i ∧ i < rangeEnd n w t)
    (h2 : rangeStart n w u ≤ i ∧ i < rangeEnd n w u) : False := by
  rcases Nat.lt_or_gt_of_ne hne with h | h
  · have := rangeEnd_le_rangeStart n w t u h hu
    omega
  · have := rangeEnd_le_rangeStart n w u t h ht
    omega

theorem range_exists (n w i : Nat) (hw : 1 ≤ w) (hi : i < n) :
    ∃ t, t < w ∧ rangeStart n w t ≤ i ∧ i < rangeEnd n w t := by
  by_cases h : i < (w - 1) * chunkSize n w
  · have hc : 0 < chunkSize n w := by
      rcases Nat.eq_zero_or_pos (chunkSize n w) with h0 | h0
      · rw [h0] at h; simp at h
      · exact h0
    have ht : i / chunkSize n w < w - 1 := (Nat.div_lt_iff_lt_mul hc).2 h
    refine ⟨i / chunkSize n w, by omega, ?_, ?_⟩
    · unfold rangeStart
      exact Nat.div_mul_le_self i _
    · unfold rangeEnd
      rw [if_neg (by omega)]
      have h1 := Nat.div_add_mod i (chunkSize n w)
      have h2 := Nat.mod_lt i hc
      have h3 : (i / chunkSize n w + 1) * chunkSize n w
          = chunkSize n w * (i / chunkSize n w) + chunkSize n w := by ring
      omega
  · refine ⟨w - 1, by omega, ?_, ?_⟩
    · unfold rangeStart; omega
    · unfold rangeEnd; simp [hi]

end PopulationData

namespace PopulationData

/-- A worker's loop over its range is a fold over the rows of its chunk. -/
theorem forRange_chunk {α σ : Type} (cv : List α) (body : σ → α → σ) (init : σ) (w t : Nat)
    (ht : t < w) :
    forRange cv (rangeStart cv.length w t) (rangeEnd cv.length w t) body init
      = some ((chunkOf cv w t).foldl body init) :=
  forRange_eq_foldl cv body _ _ init (rangeStart_le_rangeEnd _ w t ht) (rangeEnd_le _ w t ht)

theorem flatten_full_chunks {α : Type} (cv : List α) (c : Nat) (k : Nat) :
    ((List.range k).map (fun t => (cv.drop (t * c)).take c)).flatten = cv.take (k * c) := by
  induction k with
  | zero => simp
  | succ k ih =>
    rw [List.range_succ, List.map_append, List.flatten_append, ih]
    have : (k + 1) * c = k * c + c := by ring
    rw [this, List.take_add]
    simp

/-- The chunks of the workers `0 .. w-1`, in that order, make up the whole vector. -/
theorem flatten_chunks {α : Type} (cv : List α) (w : Nat) (hw : 1 ≤ w) :
    ((List.range w).map (chunkOf cv w)).flatten = cv := by
  obtain ⟨k, rfl⟩ : ∃ k, w = k + 1 := ⟨w - 1, by omega⟩
  rw [List.range_succ, List.map_append, List.flatten_append]
  have h1 : (List.range k).map (chunkOf cv (k + 1))
      = (List.range k).map (fun t => (cv.drop (t * chunkSize cv.length (k + 1))).take
          (chunkSize cv.length (k + 1))) := by
    apply List.map_congr_left
    intro t ht
    have ht' : t < k := List.mem_range.1 ht
    unfold chunkOf rangeStart rangeEnd
    rw [if_neg (by omega)]
    congr 1
    have : (t + 1) * chunkSize cv.length (k + 1)
        = t * chunkSize cv.length (k + 1) + chunkSize cv.length (k + 1) := by ring
    omega
  rw [h1, flatten_full_chunks]
  have h2 : chunkOf cv (k + 1) k = cv.drop (k * chunkSize cv.length (k + 1)) := by
    unfold chunkOf rangeStart rangeEnd
    simp
  simp [h2]

theorem toLongLong_of_range (n : Int) (h0 : -2 ^ 63 ≤ n) (h1 : n < 2 ^ 63) :
    toLongLong n = n := by
  unfold toLongLong
  omega

theorem toLongLong_add_left (a b : Int) :
    toLongLong (toLongLong a + b) = toLongLong (a + b) := by
  unfold toLongLong
  omega

theorem toLongLong_add_right (a b : Int) :
    toLongLong (a + toLongLong b) = toLongLong (a + b) := by
  unfold toLongLong
  omega

theorem toLongLong_zero : toLongLong 0 = 0 := by decide

theorem addPopulation_toLongLong (year t : Int) (c : Country) :
    addPopulation year (toLongLong t) c = toLongLong (t + positivePopulation year c) := by
  unfold addPopulation positivePopulation
  cases c.2.lookup year with
  | none => simp
  | some p =>
    by_cases h : p > 0
    · simp only [h, if_true]
      exact toLongLong_add_left t p
    · simp [h]

theorem foldl_addPopulation (year : Int) (l : CountryData) (t : Int) :
    l.foldl (addPopulation year) (toLongLong t)
      = toLongLong (t + (l.map (positivePopulation year)).sum) := by
  induction l generalizing t with
  | nil => simp
  | cons c l ih =>
    rw [List.foldl_cons, addPopulation_toLongLong, ih]
    simp [add_assoc]

theorem foldl_addPopulation_zero (year : Int) (l : CountryData) :
    l.foldl (addPopulation year) 0 = toLongLong ((l.map (positivePopulation year)).sum) := by
  have h := foldl_addPopulation year l 0
  rw [toLongLong_zero, zero_add] at h
  exact h

theorem foldl_toLongLong_add (l : List Int) (a : Int) :
    l.foldl (fun total p => toLongLong (total + p)) (toLongLong a) = toLongLong (a + l.sum) := by
  induction l generalizing a with
  | nil => simp
  | cons x l ih =>
    rw [List.foldl_cons, toLongLong_add_left, ih]
    simp [add_assoc]

theorem toLongLong_sum_map {α : Type} (f : α → Int) (l : List α) :
    toLongLong ((l.map (fun a => toLongLong (f a))).sum) = toLongLong ((l.map f).sum) := by
  induction l with
  | nil => rfl
  | cons a l ih =>
    rw [List.map_cons, List.sum_cons, List.map_cons, List.sum_cons, toLongLong_add_left,
      ← toLongLong_add_right, ih, toLongLong_add_right]

theorem specTotalPopulation_eq (cd : CountryData) (year : Int) :
    specTotalPopulation cd year = (cd.map (positivePopulation year)).sum := by
  unfold specTotalPopulation
  induction cd with
  | nil => simp
  | cons c cd ih =>
    rw [List.map_cons, List.sum_cons, ← ih]
    unfold positivePopulation
    cases h : c.2.lookup year with
    | none => simp [List.filterMap_cons, h]
    | some p =>
      by_cases hp : p > 0
      · simp [List.filterMap_cons, h, List.filter_cons, hp]
      · simp [List.filterMap_cons, h, List.filter_cons, hp]

theorem sum_map_flatten {α : Type} (f : α → Int) (ls : List (List α)) :
    (ls.map (fun l => (l.map f).sum)).sum = (ls.flatten.map f).sum := by
  induction ls with
  | nil => simp
  | cons l ls ih => simp [ih]

/-- The sums of the chunks of the workers add up to the sum over the table. -/
theorem sum_chunks {α : Type} (f : α → Int) (cv : List α) (w : Nat) (hw : 1 ≤ w) :
    ((List.range w).map (fun t => ((chunkOf cv w t).map f).sum)).sum = (cv.map f).sum := by
  have h := sum_map_flatten f ((List.range w).map (chunkOf cv w))
  rw [List.map_map, flatten_chunks cv w hw] at h
  simp only [Function.comp_def] at h
  exact h

theorem runWorldPopulationWorkers_eq (cd : CountryData) (year : Int) (w : Nat) :
    ∀ (order : List Nat) (total : Int), (∀ t ∈ order, t < w) →
      runWorldPopulationWorkers cd year w order (toLongLong total)
        = some (toLongLong
            (total + ((order.map (chunkOf cd w)).flatten.map (positivePopulation year)).sum)) := by
  intro order
  induction order with
  | nil => intro total _; simp [runWorldPopulationWorkers]
  | cons t ts ih =>
    intro total h
    have ht : t < w := h t (List.mem_cons_self _ _)
    unfold runWorldPopulationWorkers threadWorkerWorldPopulation
    rw [forRange_chunk cd _ _ w t ht, foldl_addPopulation_zero]
    simp only
    rw [toLongLong_add_left, toLongLong_add_right,
      ih _ (fun u hu => h u (List.mem_cons_of_mem _ hu))]
    simp [add_assoc]

/-- Both paths of `calculateTotalWorldPopulation` return the sum of the positive
populations of the year, reduced to 64 bits. -/
theorem calculateTotalWorldPopulation_eq_sum (cd : CountryData) (year : Int)
    (useParallel : Bool) (W : Nat) (hW : 1 ≤ W) :
    calculateTotalWorldPopulation cd year useParallel W
      = some (toLongLong (specTotalPopulation cd year)) := by
  rw [specTotalPopulation_eq]
  cases useParallel with
  | false => simp [calculateTotalWorldPopulation, foldl_addPopulation_zero]
  | true =>
    have hjoin : joinWorkers (localPopulation cd year W) (List.range W)
        = some ((List.range W).map
            (fun t => toLongLong (((chunkOf cd W t).map (positivePopulation year)).sum))) := by
      apply joinWorkers_eq_map
      intro t ht
      unfold localPopulation
      rw [forRange_chunk cd _ _ W t (List.mem_range.1 ht), foldl_addPopulation_zero]
    have hW0 : W ≠ 0 := by omega
    simp only [calculateTotalWorldPopulation, if_true, hW0, if_false, hjoin]
    have h0 := foldl_toLongLong_add
      ((List.range W).map
        (fun t => toLongLong (((chunkOf cd W t).map (positivePopulation year)).sum))) 0
    rw [toLongLong_zero, zero_add] at h0
    rw [h0, toLongLong_sum_map (fun t => ((chunkOf cd W t).map (positivePopulation year)).sum),
      sum_chunks (positivePopulation year) cd W hW]

theorem specTotalPopulation_nonneg (cd : CountryData) (year : Int) :
    0 ≤ specTotalPopulation cd year := by
  unfold specTotalPopulation
  apply List.sum_nonneg
  intro p hp
  have := (List.mem_filter.1 hp).2
  have hpos : p > 0 := by simpa using this
  omega

/-- C1 (as amended). For every table, year and worker count `W ≥ 1`, the parallel
path of `calculateTotalWorldPopulation` (local sums over the chunk ranges,
added together) returns the same total as the serial path: the sum of all
populations `> 0` recorded for the year, reduced modulo `2^64` to the range of
`long long`, which is that sum itself whenever the sum is below `2^63`; the
same total results when the workers add their local sums to the shared total
in any order. -/
theorem calculateTotalWorldPopulation_parallel_eq_serial (countryData : CountryData)
    (year : Int) (W : Nat) (order : List Nat) (hW : 1 ≤ W)
    (ho : order.Perm (List.range W)) :
    calculateTotalWorldPopulation countryData year true W
        = calculateTotalWorldPopulation countryData year false W
      ∧ calculateTotalWorldPopulation countryData year false W
        = some (toLongLong (specTotalPopulation countryData year))
      ∧ runWorldPopulationWorkers countryData year W order 0
        = some (toLongLong (specTotalPopulation countryData year))
      ∧ (specTotalPopulation countryData year < 2 ^ 63 →
          calculateTotalWorldPopulation countryData year true W
            = some (specTotalPopulation countryData year)
          ∧ calculateTotalWorldPopulation countryData year false W
            = some (specTotalPopulation countryData year)
          ∧ runWorldPopulationWorkers countryData year W order 0
            = some (specTotalPopulation countryData year)) := by
  have hser := calculateTotalWorldPopulation_eq_sum countryData year false W hW
  have hpar := calculateTotalWorldPopulation_eq_sum countryData year true W hW
  have hrun : runWorldPopulationWorkers countryData year W order 0
      = some (toLongLong (specTotalPopulation countryData year)) := by
    have h := runWorldPopulationWorkers_eq countryData year W order 0
      (fun t ht => List.mem_range.1 (ho.mem_iff.1 ht))
    rw [toLongLong_zero, zero_add] at h
    rw [h, specTotalPopulation_eq]
    have hperm : ((order.map (chunkOf countryData W)).flatten).Perm countryData := by
      have h := (ho.map (chunkOf countryData W)).flatten
      rw [flatten_chunks countryData W hW] at h
      exact h
    rw [(hperm.map (positivePopulation year)).sum_eq]
  refine ⟨by rw [hpar, hser], hser, hrun, ?_⟩
  intro hlt
  have hfit := toLongLong_of_range (specTotalPopulation countryData year)
    (by have := specTotalPopulation_nonneg countryData year; omega) hlt
  rw [hpar, hser, hrun, hfit]
  exact ⟨rfl, rfl, rfl⟩

/-- Witness for C1 (as amended): a three-country table split over two workers. -/
theorem calculateTotalWorldPopulation_parallel_eq_serial_witness :
    specTotalPopulation sampleTable 2020 < 2 ^ 63
      ∧ calculateTotalWorldPopulation sampleTable 2020 true 2
        = calculateTotalWorldPopulation sampleTable 2020 false 2
      ∧ calculateTotalWorldPopulation sampleTable 2020 true 2
        = some (specTotalPopulation sampleTable 2020)
      ∧ calculateTotalWorldPopulation sampleTable 2020 false 2
        = some (specTotalPopulation sampleTable 2020)
      ∧ runWorldPopulationWorkers sampleTable 2020 2 [1, 0] 0
        = some (specTotalPopulation sampleTable 2020) :=
  ⟨by decide,
    (calculateTotalWorldPopulation_parallel_eq_serial sampleTable 2020 2 [1, 0] (by decide)
      (by decide)).1,
    (calculateTotalWorldPopulation_parallel_eq_serial sampleTable 2020 2 [1, 0] (by decide)
      (by decide)).2.2.2 (by decide)⟩

set_option maxRecDepth 100000 in
/-- C1, counterexample. Two data lines with a 2020 population of `2^62` each load
into a table whose populations of 2020 sum to `2^63`; the serial path and the
parallel path both return `-2^63`. -/
theorem calculateTotalWorldPopulation_wraps_around :
    (loadFromCSV emptyTable
        [bigRow "Big One".toList "BG1".toList, bigRow "Big Two".toList "BG2".toList]).countryData
        = overflowTable
    ∧ specTotalPopulation overflowTable 2020 = 2 ^ 63
    ∧ calculateTotalWorldPopulation overflowTable 2020 false 2 = some (-2 ^ 63)
    ∧ calculateTotalWorldPopulation overflowTable 2020 true 2 = some (-2 ^ 63)
    ∧ calculateTotalWorldPopulation overflowTable 2020 true 2
        ≠ some (specTotalPopulation overflowTable 2020) := by
  decide

/-- C3. For every row count `N` and worker count `W ≥ 1`, the ranges of the
`std::thread` variant lie inside `[0, N)`, are pairwise disjoint, and every
index in `[0, N)` belongs to exactly one of them. -/
theorem chunk_ranges_partition (N W : Nat) (hW : 1 ≤ W) :
    (∀ t, t < W → rangeStart N W t ≤ rangeEnd N W t ∧ rangeEnd N W t ≤ N)
    ∧ (∀ t u, t < W → u < W → t ≠ u →
        ∀ i, ¬ ((rangeStart N W t ≤ i ∧ i < rangeEnd N W t)
              ∧ (rangeStart N W u ≤ i ∧ i < rangeEnd N W u)))
    ∧ (∀ i, i < N → ∃! t, t < W ∧ rangeStart N W t ≤ i ∧ i < rangeEnd N W t) := by
  refine ⟨fun t ht => ⟨rangeStart_le_rangeEnd N W t ht, rangeEnd_le N W t ht⟩, ?_, ?_⟩
  · intro t u ht hu hne i h
    exact ranges_disjoint N W t u i ht hu hne h.1 h.2
  · intro i hi
    obtain ⟨t, ht, h1, h2⟩ := range_exists N W i hW hi
    refine ⟨t, ⟨ht, h1, h2⟩, ?_⟩
    rintro u ⟨hu, h3, h4⟩
    by_contra hne
    exact ranges_disjoint N W u t i hu ht hne ⟨h3, h4⟩ ⟨h1, h2⟩

/-- Witness for C3: ten rows over four workers. -/
theorem chunk_ranges_partition_witness :
    (∀ t, t < 4 → rangeStart 10 4 t ≤ rangeEnd 10 4 t ∧ rangeEnd 10 4 t ≤ 10)
    ∧ (∀ t u, t < 4 → u < 4 → t ≠ u →
        ∀ i, ¬ ((rangeStart 10 4 t ≤ i ∧ i < rangeEnd 10 4 t)
              ∧ (rangeStart 10 4 u ≤ i ∧ i < rangeEnd 10 4 u)))
    ∧ (∀ i, i < 10 → ∃! t, t < 4 ∧ rangeStart 10 4 t ≤ i ∧ i < rangeEnd 10 4 t) :=
  chunk_ranges_partition 10 4 (by decide)

end PopulationData

/-! ## The sort and the merge of local lists -/

theorem bySecondDesc_eq_false {α κ : Type} [LinearOrder κ] (a b : α × κ) :
    (bySecondDesc b a = false) ↔ a.2 ≥ b.2 := by
  simp [bySecondDesc]

theorem stdSort_perm {α : Type} (comp : α → α → Bool) (l : List α) :
    (stdSort comp l).Perm l :=
  List.perm_insertionSort _ l

theorem stdSort_sorted {α κ : Type} [LinearOrder κ] (l : List (α × κ)) :
    (stdSort bySecondDesc l).Sorted (fun a b => a.2 ≥ b.2) := by
  haveI : IsTotal (α × κ) (fun a b => bySecondDesc b a = false) :=
    ⟨fun a b => by
      simp only [bySecondDesc_eq_false]
      exact le_total b.2 a.2⟩
  haveI : IsTrans (α × κ) (fun a b => bySecondDesc b a = false) :=
    ⟨fun a b c h1 h2 => by
      simp only [bySecondDesc_eq_false] at *
      exact le_trans h2 h1⟩
  have h := List.sorted_insertionSort (fun a b : α × κ => bySecondDesc b a = false) l
  exact List.Pairwise.imp (fun {a b} hab => (bySecondDesc_eq_false a b).1 hab) h

theorem sorted_keys_eq_of_perm {α κ : Type} [LinearOrder κ] (s₁ s₂ : List (α × κ))
    (hp : s₁.Perm s₂) (h₁ : s₁.Sorted (fun a b => a.2 ≥ b.2))
    (h₂ : s₂.Sorted (fun a b => a.2 ≥ b.2)) :
    s₁.map Prod.snd = s₂.map Prod.snd := by
  have k₁ : (s₁.map Prod.snd).Sorted (· ≥ ·) := List.pairwise_map.2 h₁
  have k₂ : (s₂.map Prod.snd).Sorted (· ≥ ·) := List.pairwise_map.2 h₂
  exact List.eq_of_perm_of_sorted (hp.map Prod.snd) k₁ k₂

theorem eq_of_map_eq_of_injOn {α β : Type} (f : α → β) :
    ∀ (s₁ s₂ : List α), s₁.map f = s₂.map f →
      (∀ a ∈ s₁, ∀ b ∈ s₂, f a = f b → a = b) → s₁ = s₂ := by
  intro s₁
  induction s₁ with
  | nil => intro s₂ h _; cases s₂ with
    | nil => rfl
    | cons b s₂ => simp at h
  | cons a s₁ ih =>
    intro s₂ h hinj
    cases s₂ with
    | nil => simp at h
    | cons b s₂ =>
      simp only [List.map_cons, List.cons.injEq] at h
      have hab : a = b := hinj a (List.mem_cons_self _ _) b (List.mem_cons_self _ _) h.1
      have := ih s₂ h.2 (fun x hx y hy hxy =>
        hinj x (List.mem_cons_of_mem _ hx) y (List.mem_cons_of_mem _ hy) hxy)
      rw [hab, this]

theorem sorted_eq_of_perm_of_nodup_keys {α κ : Type} [LinearOrder κ] (s₁ s₂ : List (α × κ))
    (hp : s₁.Perm s₂) (h₁ : s₁.Sorted (fun a b => a.2 ≥ b.2))
    (h₂ : s₂.Sorted (fun a b => a.2 ≥ b.2)) (hnd : (s₁.map Prod.snd).Nodup) :
    s₁ = s₂ := by
  apply eq_of_map_eq_of_injOn Prod.snd s₁ s₂ (sorted_keys_eq_of_perm s₁ s₂ hp h₁ h₂)
  intro a ha b hb hab
  exact List.inj_on_of_nodup_map hnd ha (hp.mem_iff.2 hb) hab

theorem stdSort_keys_eq_of_perm {α κ : Type} [LinearOrder κ] (l₁ l₂ : List (α × κ))
    (hp : l₁.Perm l₂) :
    (stdSort bySecondDesc l₁).map Prod.snd = (stdSort bySecondDesc l₂).map Prod.snd :=
  sorted_keys_eq_of_perm _ _
    (((stdSort_perm _ l₁).trans hp).trans (stdSort_perm _ l₂).symm)
    (stdSort_sorted l₁) (stdSort_sorted l₂)

theorem stdSort_eq_of_perm_of_nodup_keys {α κ : Type} [LinearOrder κ] (l₁ l₂ : List (α × κ))
    (hp : l₁.Perm l₂) (hnd : (l₂.map Prod.snd).Nodup) :
    stdSort bySecondDesc l₁ = stdSort bySecondDesc l₂ := by
  apply sorted_eq_of_perm_of_nodup_keys _ _
    (((stdSort_perm _ l₁).trans hp).trans (stdSort_perm _ l₂).symm)
    (stdSort_sorted l₁) (stdSort_sorted l₂)
  exact ((((stdSort_perm bySecondDesc l₁).trans hp).map Prod.snd).nodup_iff).2 hnd

theorem foldl_push {α β : Type} (body : List β → α → List β) (f : α → Option β)
    (hbody : ∀ acc c, body acc c = acc ++ (f c).toList) (l : List α) (init : List β) :
    l.foldl body init = init ++ l.filterMap f := by
  induction l generalizing init with
  | nil => simp
  | cons c l ih =>
    rw [List.foldl_cons, ih, hbody]
    cases h : f c <;> simp [List.filterMap_cons, h]

namespace PopulationData

/-- The merged vector of a parallel filter query holds the entries of the chunks,
taken in the order in which the workers appended. -/
theorem mergeLocal_eq {α β : Type} (cv : List α) (body : List β → α → List β)
    (f : α → Option β) (hbody : ∀ acc c, body acc c = acc ++ (f c).toList)
    (w : Nat) (order : List Nat) (ho : ∀ t ∈ order, t < w) :
    mergeLocal (fun t => forRange cv (rangeStart cv.length w t) (rangeEnd cv.length w t) body [])
        order
      = some (((order.map (chunkOf cv w)).flatten).filterMap f) := by
  have hjoin : joinWorkers
      (fun t => forRange cv (rangeStart cv.length w t) (rangeEnd cv.length w t) body []) order
      = some (order.map (fun t => (chunkOf cv w t).filterMap f)) := by
    apply joinWorkers_eq_map
    intro t ht
    rw [forRange_chunk cv body [] w t (ho t ht), foldl_push body f hbody]
    simp
  unfold mergeLocal
  rw [hjoin]
  simp only [Option.some.injEq]
  clear hjoin ho
  induction order with
  | nil => simp
  | cons t ts ih => simp [ih, List.filterMap_append]

theorem chunks_perm {α : Type} (cv : List α) (w : Nat) (hw : 1 ≤ w) (order : List Nat)
    (ho : order.Perm (List.range w)) :
    ((order.map (chunkOf cv w)).flatten).Perm cv := by
  have h := (ho.map (chunkOf cv w)).flatten
  rw [flatten_chunks cv w hw] at h
  exact h

/-- The merged vector is a permutation of what the serial loop collects. -/
theorem mergeLocal_perm {α β : Type} (cv : List α) (body : List β → α → List β)
    (f : α → Option β) (hbody : ∀ acc c, body acc c = acc ++ (f c).toList)
    (w : Nat) (hw : 1 ≤ w) (order : List Nat) (ho : order.Perm (List.range w)) :
    ∃ temp, mergeLocal
        (fun t => forRange cv (rangeStart cv.length w t) (rangeEnd cv.length w t) body []) order
        = some temp ∧ temp.Perm (cv.foldl body []) := by
  refine ⟨_, mergeLocal_eq cv body f hbody w order
    (fun t ht => List.mem_range.1 (ho.mem_iff.1 ht)), ?_⟩
  rw [foldl_push body f hbody]
  simpa using (chunks_perm cv w hw order ho).filterMap f

theorem pushTopCountry_eq (year : Int) (acc : List (Str × Int)) (c : Country) :
    pushTopCountry year acc c = acc ++ (topEntry year c).toList := by
  unfold pushTopCountry topEntry
  cases c.2.lookup year with
  | none => simp
  | some p => by_cases h : p > 0 <;> simp [h]

theorem pushLargeCountry_eq (threshold year : Int) (acc : List (Str × Int)) (c : Country) :
    pushLargeCountry threshold year acc c = acc ++ (largeEntry threshold year c).toList := by
  unfold pushLargeCountry largeEntry
  cases c.2.lookup year with
  | none => simp
  | some p => by_cases h : p ≥ threshold <;> simp [h]

theorem pushGrowthRate_eq {R : Type} (g : Int → Int → R) (s e : Int) (acc : List (Str × R))
    (c : Country) :
    pushGrowthRate g s e acc c = acc ++ (growthEntry g s e c).toList := by
  unfold pushGrowthRate growthEntry
  cases c.2.lookup s with
  | none => simp
  | some a =>
    cases c.2.lookup e with
    | none => simp
    | some b => by_cases h : a > 0 ∧ b > 0 <;> simp [h]

end PopulationData

namespace PopulationData

theorem toSizeT_of_nonneg (n : Int) (h0 : 0 ≤ n) (h1 : n < 2 ^ 31) : toSizeT n = n.toNat := by
  unfold toSizeT
  rw [Int.emod_eq_of_lt h0 (by omega)]

theorem toInt32_of_lt (n : Nat) (h : n < 2 ^ 31) : toInt32 n = (n : Int) := by
  unfold toInt32
  have : n % 2 ^ 32 = n := Nat.mod_eq_of_lt (by omega)
  rw [this, if_pos h]

theorem resizeTopN_eq {β : Type} (results : List β) (topN : Int) (h0 : 0 ≤ topN)
    (h1 : topN < 2 ^ 31) : resizeTopN results topN = results.take topN.toNat := by
  unfold resizeTopN
  rw [toSizeT_of_nonneg topN h0 h1]
  split
  · rfl
  · next h => exact (List.take_of_length_le (by omega)).symm

theorem assignTopN_eq {β : Type} (temp : List β) (topN : Int) (h0 : 0 ≤ topN)
    (hlen : temp.length < 2 ^ 31) : assignTopN temp topN = some (temp.take topN.toNat) := by
  unfold assignTopN
  rw [toInt32_of_lt temp.length hlen]
  simp only
  rw [if_pos (by omega)]
  congr 1
  rcases le_total topN (temp.length : Int) with h | h
  · rw [min_eq_left h]
  · rw [min_eq_right h, Int.toNat_ofNat, List.take_length]
    exact (List.take_of_length_le (by omega)).symm

theorem filterMap_length_le {α β : Type} (f : α → Option β) (l : List α) :
    (l.filterMap f).length ≤ l.length :=
  List.length_filterMap_le f l

/-- Both paths of `getTopCountriesByPopulation` return the first `topN` entries of a
sorted arrangement of the qualifying entries. -/
theorem getTopCountriesByPopulation_eq (cd : CountryData) (year topN : Int)
    (useParallel : Bool) (W : Nat) (order : List Nat) (h0 : 0 ≤ topN) (h1 : topN < 2 ^ 31)
    (hlen : useParallel = true → cd.length < 2 ^ 31) (hW : 1 ≤ W)
    (ho : order.Perm (List.range W)) :
    ∃ l, l.Perm (cd.filterMap (topEntry year))
      ∧ (useParallel = false → l = cd.filterMap (topEntry year))
      ∧ getTopCountriesByPopulation cd year topN useParallel W order
          = some ((stdSort bySecondDesc l).take topN.toNat) := by
  cases useParallel with
  | false =>
    refine ⟨cd.filterMap (topEntry year), List.Perm.refl _, fun _ => rfl, ?_⟩
    simp only [getTopCountriesByPopulation, Bool.false_eq_true, if_false]
    rw [resizeTopN_eq _ topN h0 h1, foldl_push _ _ (pushTopCountry_eq year)]
    simp
  | true =>
    obtain ⟨temp, htemp, hperm⟩ :=
      mergeLocal_perm cd (pushTopCountry year) (topEntry year) (pushTopCountry_eq year) W hW
        order ho
    rw [foldl_push _ _ (pushTopCountry_eq year), List.nil_append] at hperm
    refine ⟨temp, hperm, fun h => by simp at h, ?_⟩
    have hW0 : W ≠ 0 := by omega
    simp only [getTopCountriesByPopulation, if_true, hW0, if_false]
    unfold localTopCountries
    rw [htemp]
    simp only
    apply assignTopN_eq _ topN h0
    have := (stdSort_perm bySecondDesc temp).length_eq
    have := hperm.length_eq
    have := filterMap_length_le (topEntry year) cd
    have := hlen rfl
    omega

theorem mem_topEntry (year : Int) (cd : CountryData) (x : Str × Int)
    (hx : x ∈ cd.filterMap (topEntry year)) :
    0 < x.2 ∧ ∃ c ∈ cd, c.1 = x.1 ∧ c.2.lookup year = some x.2 := by
  obtain ⟨c, hc, hcx⟩ := List.mem_filterMap.1 hx
  unfold topEntry at hcx
  cases hl : c.2.lookup year with
  | none => simp [hl] at hcx
  | some p =>
    by_cases hp : p > 0
    · simp only [hl, hp, if_true, Option.some.injEq] at hcx
      subst hcx
      exact ⟨hp, c, hc, rfl, hl⟩
    · simp [hl, hp] at hcx

/-- C8. For every table, year and `topN ≥ 0` (an `int`; on the parallel path the
table has fewer than `2^31` countries), both paths of
`getTopCountriesByPopulation` return the first `min(topN, m)` entries of the
`m` countries with a positive population for the year, sorted by population
descending: the result has that length, is non-increasing, holds only pairs
recorded in the table for the year, and no entry left out has a larger
population than an entry included. -/
theorem getTopCountriesByPopulation_spec (cd : CountryData) (year topN : Int)
    (useParallel : Bool) (W : Nat) (order : List Nat) (h0 : 0 ≤ topN) (h1 : topN < 2 ^ 31)
    (hlen : useParallel = true → cd.length < 2 ^ 31) (hW : 1 ≤ W)
    (ho : order.Perm (List.range W)) :
    ∃ (result sorted : List (Str × Int)),
      getTopCountriesByPopulation cd year topN useParallel W order = some result
      ∧ sorted.Perm (cd.filterMap (topEntry year))
      ∧ sorted.Sorted (fun a b => a.2 ≥ b.2)
      ∧ result = sorted.take (min topN.toNat (cd.filterMap (topEntry year)).length)
      ∧ result.length = min topN.toNat (cd.filterMap (topEntry year)).length
      ∧ result.Sorted (fun a b => a.2 ≥ b.2)
      ∧ (∀ x ∈ result, 0 < x.2 ∧ ∃ c ∈ cd, c.1 = x.1 ∧ c.2.lookup year = some x.2)
      ∧ (∀ x ∈ sorted.drop (min topN.toNat (cd.filterMap (topEntry year)).length),
          ∀ y ∈ result, x.2 ≤ y.2) := by
  obtain ⟨l, hl, _, hres⟩ :=
    getTopCountriesByPopulation_eq cd year topN useParallel W order h0 h1 hlen hW ho
  have hsp : (stdSort bySecondDesc l).Perm (cd.filterMap (topEntry year)) :=
    (stdSort_perm _ l).trans hl
  have hss := stdSort_sorted l
  have hlen' : (stdSort bySecondDesc l).length = (cd.filterMap (topEntry year)).length :=
    hsp.length_eq
  have htake : (stdSort bySecondDesc l).take topN.toNat
      = (stdSort bySecondDesc l).take
          (min topN.toNat (cd.filterMap (topEntry year)).length) := by
    rw [← hlen']
    rcases le_total topN.toNat (stdSort bySecondDesc l).length with h | h
    · rw [min_eq_left h]
    · rw [min_eq_right h, List.take_length, List.take_of_length_le h]
  refine ⟨_, stdSort bySecondDesc l, hres, hsp, hss, htake, ?_, ?_, ?_, ?_⟩
  · rw [htake, List.length_take, hlen']
    simp
  · exact hss.sublist (List.take_sublist _ _)
  · intro x hx
    exact mem_topEntry year cd x (hsp.mem_iff.1 (List.mem_of_mem_take hx))
  · intro x hx y hy
    rw [htake] at hy
    exact hss.rel_of_mem_take_of_mem_drop hy hx

/-- Witness for C8: the two best of three countries, on the parallel path with the
second worker appending first. -/
theorem getTopCountriesByPopulation_spec_witness :
    ∃ (result sorted : List (Str × Int)),
      getTopCountriesByPopulation sampleTable 2020 2 true 2 [1, 0] = some result
      ∧ sorted.Perm (sampleTable.filterMap (topEntry 2020))
      ∧ sorted.Sorted (fun a b => a.2 ≥ b.2)
      ∧ result = sorted.take (min (2 : Int).toNat (sampleTable.filterMap (topEntry 2020)).length)
      ∧ result.length = min (2 : Int).toNat (sampleTable.filterMap (topEntry 2020)).length
      ∧ result.Sorted (fun a b => a.2 ≥ b.2)
      ∧ (∀ x ∈ result, 0 < x.2 ∧ ∃ c ∈ sampleTable, c.1 = x.1 ∧ c.2.lookup 2020 = some x.2)
      ∧ (∀ x ∈ sorted.drop (min (2 : Int).toNat (sampleTable.filterMap (topEntry 2020)).length),
          ∀ y ∈ result, x.2 ≤ y.2) :=
  getTopCountriesByPopulation_spec sampleTable 2020 2 true 2 [1, 0] (by decide) (by decide)
    (fun _ => by decide) (by decide) (by decide)

end PopulationData

namespace PopulationData

/-- The sorted merge of the workers' lists against the sorted serial list. -/
theorem sorted_merge_agrees {α γ κ : Type} [LinearOrder κ] (cv : List α)
    (body : List (γ × κ) → α → List (γ × κ)) (f : α → Option (γ × κ))
    (hbody : ∀ acc c, body acc c = acc ++ (f c).toList)
    (w : Nat) (hw : 1 ≤ w) (order : List Nat) (ho : order.Perm (List.range w)) :
    ∃ temp, mergeLocal
        (fun t => forRange cv (rangeStart cv.length w t) (rangeEnd cv.length w t) body []) order
        = some temp
      ∧ (stdSort bySecondDesc temp).Perm (stdSort bySecondDesc (cv.foldl body []))
      ∧ (stdSort bySecondDesc temp).map Prod.snd
          = (stdSort bySecondDesc (cv.foldl body [])).map Prod.snd
      ∧ (((cv.filterMap f).map Prod.snd).Nodup →
          stdSort bySecondDesc temp = stdSort bySecondDesc (cv.foldl body [])) := by
  obtain ⟨temp, htemp, hperm⟩ := mergeLocal_perm cv body f hbody w hw order ho
  refine ⟨temp, htemp, ?_, stdSort_keys_eq_of_perm _ _ hperm, ?_⟩
  · exact ((stdSort_perm _ temp).trans hperm).trans (stdSort_perm _ _).symm
  · intro hnd
    apply stdSort_eq_of_perm_of_nodup_keys _ _ hperm
    rw [foldl_push body f hbody, List.nil_append]
    exact hnd

/-- C2 (as amended). For every table, query parameter (`topN ≥ 0`), worker count
`W ≥ 1` and order in which the workers append their local lists, the parallel
path of each list-returning query returns, after its final sort, a list with
the same sort keys, position by position, as the list of the serial path; the
two lists are identical whenever no two qualifying entries have the same sort
key. -/
theorem parallel_lists_eq_serial_up_to_ties {R : Type} [LinearOrder R]
    (growthRate : Int → Int → R) (cd : CountryData)
    (year threshold startYear endYear topN : Int) (W : Nat) (order : List Nat)
    (hW : 1 ≤ W) (ho : order.Perm (List.range W)) (h0 : 0 ≤ topN) (h1 : topN < 2 ^ 31)
    (hlen : cd.length < 2 ^ 31) :
    (∃ p s : List (Str × Int),
        getTopCountriesByPopulation cd year topN true W order = some p
        ∧ getTopCountriesByPopulation cd year topN false W order = some s
        ∧ p.map Prod.snd = s.map Prod.snd
        ∧ (((cd.filterMap (topEntry year)).map Prod.snd).Nodup → p = s))
    ∧ (∃ p s : List (Str × Int),
        findCountriesWithPopulationAbove cd threshold year true W order = some p
        ∧ findCountriesWithPopulationAbove cd threshold year false W order = some s
        ∧ p.Perm s ∧ p.map Prod.snd = s.map Prod.snd
        ∧ (((cd.filterMap (largeEntry threshold year)).map Prod.snd).Nodup → p = s))
    ∧ (∃ p s : List (Str × R),
        calculateCountryGrowthRates growthRate cd startYear endYear true W order = some p
        ∧ calculateCountryGrowthRates growthRate cd startYear endYear false W order = some s
        ∧ p.Perm s ∧ p.map Prod.snd = s.map Prod.snd
        ∧ (((cd.filterMap (growthEntry growthRate startYear endYear)).map Prod.snd).Nodup →
            p = s)) := by
  have hW0 : W ≠ 0 := by omega
  refine ⟨?_, ?_, ?_⟩
  · obtain ⟨l, hl, _, hp⟩ :=
      getTopCountriesByPopulation_eq cd year topN true W order h0 h1 (fun _ => hlen) hW ho
    obtain ⟨l', _, hl', hs⟩ :=
      getTopCountriesByPopulation_eq cd year topN false W order h0 h1 (fun _ => hlen) hW ho
    rw [hl' rfl] at hs
    refine ⟨_, _, hp, hs, ?_, ?_⟩
    · rw [List.map_take, List.map_take, stdSort_keys_eq_of_perm _ _ hl]
    · intro hnd
      rw [stdSort_eq_of_perm_of_nodup_keys _ _ hl hnd]
  · obtain ⟨temp, htemp, hperm, hkeys, heq⟩ :=
      sorted_merge_agrees cd (pushLargeCountry threshold year) (largeEntry threshold year)
        (pushLargeCountry_eq threshold year) W hW order ho
    refine ⟨stdSort bySecondDesc temp, _, ?_, rfl, hperm, hkeys, heq⟩
    simp only [findCountriesWithPopulationAbove, if_true, hW0, if_false]
    unfold localLargeCountries
    rw [htemp]
  · obtain ⟨temp, htemp, hperm, hkeys, heq⟩ :=
      sorted_merge_agrees cd (pushGrowthRate growthRate startYear endYear)
        (growthEntry growthRate startYear endYear)
        (pushGrowthRate_eq growthRate startYear endYear) W hW order ho
    refine ⟨stdSort bySecondDesc temp, _, ?_, rfl, hperm, hkeys, heq⟩
    simp only [calculateCountryGrowthRates, if_true, hW0, if_false]
    unfold localGrowthRates
    rw [htemp]

/-- Witness for C2 (as amended): the sample table, two workers, the second one
appending first. -/
theorem parallel_lists_eq_serial_up_to_ties_witness :
    (∃ p s : List (Str × Int),
        getTopCountriesByPopulation sampleTable 2020 2 true 2 [1, 0] = some p
        ∧ getTopCountriesByPopulation sampleTable 2020 2 false 2 [1, 0] = some s
        ∧ p.map Prod.snd = s.map Prod.snd
        ∧ (((sampleTable.filterMap (topEntry 2020)).map Prod.snd).Nodup → p = s))
    ∧ (∃ p s : List (Str × Int),
        findCountriesWithPopulationAbove sampleTable 6 2020 true 2 [1, 0] = some p
        ∧ findCountriesWithPopulationAbove sampleTable 6 2020 false 2 [1, 0] = some s
        ∧ p.Perm s ∧ p.map Prod.snd = s.map Prod.snd
        ∧ (((sampleTable.filterMap (largeEntry 6 2020)).map Prod.snd).Nodup → p = s))
    ∧ (∃ p s : List (Str × ℚ),
        calculateCountryGrowthRates doubleGrowthRate sampleTable 2020 2020 true 2 [1, 0] = some p
        ∧ calculateCountryGrowthRates doubleGrowthRate sampleTable 2020 2020 false 2 [1, 0]
            = some s
        ∧ p.Perm s ∧ p.map Prod.snd = s.map Prod.snd
        ∧ (((sampleTable.filterMap (growthEntry doubleGrowthRate 2020 2020)).map
              Prod.snd).Nodup → p = s)) :=
  parallel_lists_eq_serial_up_to_ties doubleGrowthRate sampleTable 2020 6 2020 2020 2 2 [1, 0]
    (by decide) (by decide) (by decide) (by decide) (by decide)

/-- C2, counterexample. Two countries with the same population, two workers, the
second worker appending before the first: the parallel path of
`findCountriesWithPopulationAbove` returns the two entries in the other order
than the serial path. -/
theorem parallel_list_differs_from_serial_on_ties :
    [1, 0].Perm (List.range 2)
    ∧ findCountriesWithPopulationAbove tiedTable 1 2020 true 2 [1, 0]
        = some [("B".toList, 5), ("A".toList, 5)]
    ∧ findCountriesWithPopulationAbove tiedTable 1 2020 false 2 [1, 0]
        = some [("A".toList, 5), ("B".toList, 5)]
    ∧ findCountriesWithPopulationAbove tiedTable 1 2020 true 2 [1, 0]
        ≠ findCountriesWithPopulationAbove tiedTable 1 2020 false 2 [1, 0] := by
  decide

end PopulationData

namespace PopulationData

/-- C7, the code at the failing input. A country whose population equals the
threshold is returned, on the serial and on the parallel path. -/
theorem findCountriesWithPopulationAbove_returns_equal_to_threshold :
    findCountriesWithPopulationAbove atThresholdTable 100 2020 false 1 [0]
        = some [("A".toList, 100)]
    ∧ findCountriesWithPopulationAbove atThresholdTable 100 2020 true 1 [0]
        = some [("A".toList, 100)]
    ∧ findCountriesWithPopulationAbove abcTable 100 2020 false 1 [0]
        = some [("C".toList, 200), ("B".toList, 150)] := by
  decide

end PopulationData

/-! ## The record parsers -/

theorem joinFields_singleton (a : Str) : joinFields [a] = a := by
  simp [joinFields, List.intercalate, List.intersperse]

theorem joinFields_cons_cons (a b : Str) (l : List Str) :
    joinFields (a :: b :: l) = a ++ ',' :: joinFields (b :: l) := by
  simp [joinFields, List.intercalate, List.intersperse]

namespace FireDataAnalyzer

theorem fire_scan_plain (s : Str) (hq : ∀ c ∈ s, c ≠ '"') :
    ∀ st : ParseState, (st.inQuotes = true ∨ ∀ c ∈ s, c ≠ ',') →
      s.foldl parseStep st = { st with currentField := st.currentField ++ s } := by
  induction s with
  | nil => intro st _; simp
  | cons c s ih =>
    intro st h
    have hc : c ≠ '"' := hq c (List.mem_cons_self _ _)
    have hstep : parseStep st c = { st with currentField := st.currentField ++ [c] } := by
      unfold parseStep
      rw [if_neg hc]
      rcases h with h | h
      · rw [if_neg (by simp [h])]
      · rw [if_neg (by simp [h c (List.mem_cons_self _ _)])]
    rw [List.foldl_cons, hstep, ih (fun x hx => hq x (List.mem_cons_of_mem _ hx))]
    · simp
    · rcases h with h | h
      · exact Or.inl h
      · exact Or.inr (fun x hx => h x (List.mem_cons_of_mem _ hx))

theorem fire_scan_quoted (f : Str) (hq : ∀ c ∈ f, c ≠ '"') (acc : List Str) :
    (quoteField f).foldl parseStep { fields := acc, inQuotes := false, currentField := [] }
      = { fields := acc, inQuotes := false, currentField := quoteField f } := by
  unfold quoteField
  simp only [List.foldl_append, List.foldl_cons, List.foldl_nil]
  have h1 : parseStep { fields := acc, inQuotes := false, currentField := [] } '"'
      = { fields := acc, inQuotes := true, currentField := ['"'] } := by
    simp [parseStep]
  rw [h1, fire_scan_plain f hq _ (Or.inl rfl)]
  simp [parseStep]

theorem cleanString_quoteField (f : Str) : cleanString (quoteField f) = f := by
  simp [cleanString, quoteField]

theorem cleanString_plain (f : Str) (hq : ∀ c ∈ f, c ≠ '"') : cleanString f = f := by
  cases f with
  | nil => simp [cleanString]
  | cons c s =>
    have hc : c ≠ '"' := hq c (List.mem_cons_self _ _)
    have hl : (c :: s).getLast? ≠ some '"' := by
      intro h
      exact hq '"' (List.mem_of_getLast?_eq_some h) rfl
    simp [cleanString, hc, hl]

/-- Scanning a line made of cells that each scan to themselves and clean to a
known content yields those contents. -/
theorem scan_cells : ∀ (cells : List (Str × Str)), cells ≠ [] →
    (∀ p ∈ cells, (∀ acc, p.1.foldl parseStep
        { fields := acc, inQuotes := false, currentField := [] }
        = { fields := acc, inQuotes := false, currentField := p.1 }) ∧ cleanString p.1 = p.2) →
    ∀ acc : List Str,
      (let st := (joinFields (cells.map Prod.fst)).foldl parseStep
          { fields := acc, inQuotes := false, currentField := [] }
       st.fields ++ [cleanString st.currentField]) = acc ++ cells.map Prod.snd
  | [], h, _, _ => absurd rfl h
  | [p], _, hp, acc => by
    have h := hp p (List.mem_cons_self _ _)
    simp only [List.map_cons, List.map_nil, joinFields_singleton]
    rw [h.1 acc, h.2]
  | p :: q :: rest, _, hp, acc => by
    have h := hp p (List.mem_cons_self _ _)
    have ih := scan_cells (q :: rest) (by simp)
      (fun x hx => hp x (List.mem_cons_of_mem _ hx)) (acc ++ [p.2])
    simp only [List.map_cons, joinFields_cons_cons, List.foldl_append, List.foldl_cons] at ih ⊢
    rw [h.1 acc]
    have hstep : parseStep { fields := acc, inQuotes := false, currentField := p.1 } ','
        = { fields := acc ++ [p.2], inQuotes := false, currentField := [] } := by
      simp [parseStep, h.2]
    rw [hstep, ih]
    simp

theorem parseCSVLine_cells (cells : List (Str × Str)) (hne : cells ≠ [])
    (hp : ∀ p ∈ cells, (∀ acc, p.1.foldl parseStep
        { fields := acc, inQuotes := false, currentField := [] }
        = { fields := acc, inQuotes := false, currentField := p.1 }) ∧ cleanString p.1 = p.2) :
    parseCSVLine (joinFields (cells.map Prod.fst)) = cells.map Prod.snd := by
  have h := scan_cells cells hne hp []
  simpa [parseCSVLine] using h

/-- C4. `FireDataAnalyzer::parseCSVLine` honours quoted fields: a non-empty list of
quote-free fields (commas and empty fields allowed), each wrapped in double
quotes and joined with commas, parses back to the list; a non-empty list of
unquoted fields free of commas and quotes parses back unchanged; and
`a,"b,c",d` parses to `["a", "b,c", "d"]`. -/
theorem fire_parseCSVLine_roundtrip (fields plain : List Str)
    (hne : fields ≠ []) (hq : ∀ f ∈ fields, ∀ c ∈ f, c ≠ '"')
    (hne' : plain ≠ []) (hp : ∀ f ∈ plain, ∀ c ∈ f, c ≠ '"' ∧ c ≠ ',') :
    parseCSVLine (joinFields (fields.map quoteField)) = fields
    ∧ parseCSVLine (joinFields plain) = plain
    ∧ parseCSVLine "a,\"b,c\",d".toList = ["a".toList, "b,c".toList, "d".toList] := by
  refine ⟨?_, ?_, by decide⟩
  · have h := parseCSVLine_cells (fields.map (fun f => (quoteField f, f))) (by simpa using hne)
      (by
        intro p hp'
        obtain ⟨f, hf, rfl⟩ := List.mem_map.1 hp'
        exact ⟨fun acc => fire_scan_quoted f (hq f hf) acc, cleanString_quoteField f⟩)
    simpa [List.map_map, Function.comp_def] using h
  · have h := parseCSVLine_cells (plain.map (fun f => (f, f))) (by simpa using hne')
      (by
        intro p hp'
        obtain ⟨f, hf, rfl⟩ := List.mem_map.1 hp'
        refine ⟨fun acc => ?_, cleanString_plain f (fun c hc => (hp f hf c hc).1)⟩
        rw [fire_scan_plain f (fun c hc => (hp f hf c hc).1) _
          (Or.inr (fun c hc => (hp f hf c hc).2))]
        simp)
    simpa [List.map_map, Function.comp_def] using h

/-- Witness for C4: quoted fields with a comma and an empty field; plain fields. -/
theorem fire_parseCSVLine_roundtrip_witness :
    parseCSVLine (joinFields (["x,y".toList, [], "z".toList].map quoteField))
        = ["x,y".toList, [], "z".toList]
    ∧ parseCSVLine (joinFields ["p".toList, [], "q r".toList]) = ["p".toList, [], "q r".toList]
    ∧ parseCSVLine "a,\"b,c\",d".toList = ["a".toList, "b,c".toList, "d".toList] :=
  fire_parseCSVLine_roundtrip ["x,y".toList, [], "z".toList] ["p".toList, [], "q r".toList]
    (by decide) (by decide) (by decide) (by decide)

end FireDataAnalyzer

namespace PopulationData

theorem population_scan_plain (s : Str) (hq : ∀ c ∈ s, c ≠ '"') :
    ∀ st : ParseState, (st.inQuotes = true ∨ ∀ c ∈ s, c ≠ ',') →
      s.foldl parseStep st = { st with current := st.current ++ s } := by
  induction s with
  | nil => intro st _; simp
  | cons c s ih =>
    intro st h
    have hc : c ≠ '"' := hq c (List.mem_cons_self _ _)
    have hstep : parseStep st c = { st with current := st.current ++ [c] } := by
      unfold parseStep
      rw [if_neg hc]
      rcases h with h | h
      · rw [if_neg (by simp [h])]
      · rw [if_neg (by simp [h c (List.mem_cons_self _ _)])]
    rw [List.foldl_cons, hstep, ih (fun x hx => hq x (List.mem_cons_of_mem _ hx))]
    · simp
    · rcases h with h | h
      · exact Or.inl h
      · exact Or.inr (fun x hx => h x (List.mem_cons_of_mem _ hx))

theorem population_scan_quoted (f : Str) (hq : ∀ c ∈ f, c ≠ '"') (acc : List Str) :
    (quoteField f).foldl parseStep { result := acc, inQuotes := false, current := [] }
      = { result := acc, inQuotes := false, current := f } := by
  unfold quoteField
  simp only [List.foldl_append, List.foldl_cons, List.foldl_nil]
  have h1 : parseStep { result := acc, inQuotes := false, current := [] } '"'
      = { result := acc, inQuotes := true, current := [] } := by
    simp [parseStep]
  rw [h1, population_scan_plain f hq _ (Or.inl rfl)]
  simp [parseStep]

/-- Scanning quoted fields leaves all but the last in `result` and the last in `current`. -/
theorem scan_fields : ∀ (fields : List Str) (hne : fields ≠ []),
    (∀ f ∈ fields, ∀ c ∈ f, c ≠ '"') → ∀ acc : List Str,
      (joinFields (fields.map quoteField)).foldl parseStep
          { result := acc, inQuotes := false, current := [] }
        = { result := acc ++ fields.dropLast, inQuotes := false,
            current := fields.getLast hne }
  | [], h, _, _ => absurd rfl h
  | [f], _, hq, acc => by
    simp only [List.map_cons, List.map_nil, joinFields_singleton]
    rw [population_scan_quoted f (hq f (List.mem_cons_self _ _)) acc]
    simp
  | f :: g :: rest, _, hq, acc => by
    have ih := scan_fields (g :: rest) (by simp)
      (fun x hx => hq x (List.mem_cons_of_mem _ hx)) (acc ++ [f])
    simp only [List.map_cons, joinFields_cons_cons, List.foldl_append, List.foldl_cons] at ih ⊢
    rw [population_scan_quoted f (hq f (List.mem_cons_self _ _)) acc]
    have hstep : parseStep { result := acc, inQuotes := false, current := f } ','
        = { result := acc ++ [f], inQuotes := false, current := [] } := by
      simp [parseStep]
    rw [hstep, ih]
    simp

/-- C5 (as amended). `PopulationData::parseCSVLine` honours quoted fields: a
non-empty list of quote-free fields, each wrapped in double quotes and joined
with commas, parses back to exactly the original list when its last field is
not empty, and to the list without its last field when that field is empty;
`a,"b,c",d` parses to `["a", "b,c", "d"]`, and a World Bank line whose third
column is `"Population, total"` yields `fields[2] = Population, total`. -/
theorem population_parseCSVLine_roundtrip (fields : List Str) (hne : fields ≠ [])
    (hq : ∀ f ∈ fields, ∀ c ∈ f, c ≠ '"') :
    parseCSVLine (joinFields (fields.map quoteField))
        = (if fields.getLast hne = [] then fields.dropLast else fields)
    ∧ parseCSVLine "a,\"b,c\",d".toList = ["a".toList, "b,c".toList, "d".toList]
    ∧ (parseCSVLine worldBankLine)[2]? = some "Population, total".toList := by
  refine ⟨?_, by decide, by decide⟩
  unfold parseCSVLine
  simp only
  rw [scan_fields fields hne hq []]
  by_cases hlast : fields.getLast hne = []
  · simp [hlast]
  · simp only [hlast, if_false, ne_eq, not_false_eq_true, if_true, List.nil_append]
    exact List.dropLast_append_getLast hne

/-- Witness for C5 (as amended): three quoted fields, one with a comma, one empty. -/
theorem population_parseCSVLine_roundtrip_witness :
    parseCSVLine (joinFields (["x,y".toList, [], "z".toList].map quoteField))
        = (if ["x,y".toList, [], "z".toList].getLast (by decide) = []
            then ["x,y".toList, [], "z".toList].dropLast else ["x,y".toList, [], "z".toList])
    ∧ parseCSVLine "a,\"b,c\",d".toList = ["a".toList, "b,c".toList, "d".toList]
    ∧ (parseCSVLine worldBankLine)[2]? = some "Population, total".toList :=
  population_parseCSVLine_roundtrip ["x,y".toList, [], "z".toList] (by decide) (by decide)

/-- C5, counterexample. A quoted line whose last field is empty does not parse back
to its fields: the empty last field is not emitted. -/
theorem population_parseCSVLine_drops_empty_last_field :
    parseCSVLine (joinFields (["a".toList, []].map quoteField)) = ["a".toList]
    ∧ parseCSVLine (joinFields (["a".toList, []].map quoteField)) ≠ ["a".toList, []]
    ∧ parseCSVLine (joinFields ([[]].map quoteField)) = [] := by
  decide

end PopulationData

namespace FireDataAnalyzer

theorem foldl_addAQI (targetDate : Str) (records : List AirQualityRecord) (acc : ℚ × Int) :
    records.foldl (addAQI targetDate) acc
      = (acc.1 + (((records.filter (fun r => r.getDate = targetDate)).map
            (fun r => (r.aqi : ℚ))).sum),
         acc.2 + ((records.filter (fun r => r.getDate = targetDate)).length : Int)) := by
  induction records generalizing acc with
  | nil => simp
  | cons r rs ih =>
    rw [List.foldl_cons, ih]
    unfold addAQI
    by_cases h : r.getDate = targetDate
    · simp [h, List.filter_cons, add_assoc]
      ring
    · simp [h, List.filter_cons]

/-- C9. `getAverageAQIForDate(targetDate)` returns the sum of `aqi` over the records
of the date divided by their number when at least one record matches, and
`0.0`, with no division by zero, when none matches; on the empty table it
returns `0.0`. -/
theorem getAverageAQIForDate_spec (records : List AirQualityRecord) (targetDate : Str) :
    getAverageAQIForDate records targetDate
        = some (if records.filter (fun r => r.getDate = targetDate) = [] then 0
            else (((records.filter (fun r => r.getDate = targetDate)).map
                    (fun r => (r.aqi : ℚ))).sum)
                  / ((records.filter (fun r => r.getDate = targetDate)).length : ℚ))
    ∧ getAverageAQIForDate [] targetDate = some 0 := by
  refine ⟨?_, by simp [getAverageAQIForDate]⟩
  unfold getAverageAQIForDate
  simp only
  rw [foldl_addAQI]
  by_cases h : records.filter (fun r => r.getDate = targetDate) = []
  · simp [h]
  · have hlen : 0 < (records.filter (fun r => r.getDate = targetDate)).length :=
      List.length_pos.2 h
    have hpos : (0 : Int) + ((records.filter (fun r => r.getDate = targetDate)).length : Int) > 0 := by
      omega
    rw [if_pos hpos, if_neg h]
    unfold divide
    rw [if_neg (by omega)]
    simp

theorem lookup_cons_eq {β : Type} (a k : Str) (b : β) (es : List (Str × β)) :
    ((k, b) :: es).lookup a = if a = k then some b else es.lookup a := by
  by_cases h : a = k
  · simp [List.lookup, h]
  · have : (a == k) = false := by simpa using h
    simp [List.lookup, h, this]

theorem lookup_mapAssign (key : Str) (value : Int) (d : Str) :
    ∀ m : DateMap, (mapAssign key value m).lookup d
      = if d = key then some value else m.lookup d := by
  intro m
  induction m with
  | nil => simp [mapAssign, lookup_cons_eq]
  | cons p rest ih =>
    obtain ⟨k, v⟩ := p
    unfold mapAssign
    by_cases h1 : key = k
    · subst h1
      simp only [if_true, lookup_cons_eq]
      by_cases h : d = key <;> simp [h]
    · rw [if_neg h1]
      by_cases h2 : key < k
      · rw [if_pos h2]
        simp only [lookup_cons_eq]
      · rw [if_neg h2]
        simp only [lookup_cons_eq, ih]
        by_cases h : d = k
        · have hk : ¬ k = key := fun hk => h1 hk.symm
          simp [h, hk]
        · simp [h]

theorem mem_keys_mapAssign (key : Str) (value : Int) (x : Str) :
    ∀ m : DateMap, x ∈ (mapAssign key value m).map Prod.fst → x = key ∨ x ∈ m.map Prod.fst := by
  intro m
  induction m with
  | nil => intro h; simpa [mapAssign] using h
  | cons p rest ih =>
    obtain ⟨k, v⟩ := p
    unfold mapAssign
    by_cases h1 : key = k
    · rw [if_pos h1]
      intro h
      simp only [List.map_cons, List.mem_cons] at h ⊢
      rcases h with h | h
      · exact Or.inl h
      · exact Or.inr (Or.inr h)
    · rw [if_neg h1]
      by_cases h2 : key < k
      · rw [if_pos h2]
        intro h
        simp only [List.map_cons, List.mem_cons] at h ⊢
        rcases h with h | h | h
        · exact Or.inl h
        · exact Or.inr (Or.inl h)
        · exact Or.inr (Or.inr h)
      · rw [if_neg h2]
        intro h
        simp only [List.map_cons, List.mem_cons] at h ⊢
        rcases h with h | h
        · exact Or.inr (Or.inl h)
        · rcases ih h with h | h
          · exact Or.inl h
          · exact Or.inr (Or.inr h)

theorem sorted_mapAssign (key : Str) (value : Int) :
    ∀ m : DateMap, (m.map Prod.fst).Sorted (· < ·) →
      ((mapAssign key value m).map Prod.fst).Sorted (· < ·) := by
  intro m
  induction m with
  | nil => intro _; simp [mapAssign]
  | cons p rest ih =>
    obtain ⟨k, v⟩ := p
    intro hs
    have hs' : (∀ b ∈ rest.map Prod.fst, k < b) ∧ (rest.map Prod.fst).Sorted (· < ·) := by
      simpa [List.Sorted] using hs
    unfold mapAssign
    by_cases h1 : key = k
    · rw [if_pos h1, h1]
      exact hs
    · rw [if_neg h1]
      by_cases h2 : key < k
      · rw [if_pos h2]
        simp only [List.map_cons]
        refine List.sorted_cons.2 ⟨?_, hs⟩
        intro b hb
        simp only [List.map_cons, List.mem_cons] at hb
        rcases hb with hb | hb
        · rw [hb]; exact h2
        · exact lt_trans h2 (hs'.1 b hb)
      · rw [if_neg h2]
        simp only [List.map_cons]
        refine List.sorted_cons.2 ⟨?_, ih hs'.2⟩
        intro b hb
        rcases mem_keys_mapAssign key value b rest hb with hb | hb
        · rw [hb]
          exact lt_of_le_of_ne (not_lt.1 h2) (fun h => h1 h.symm)
        · exact hs'.1 b hb

theorem sorted_updateMaxAQI (m : DateMap) (r : AirQualityRecord)
    (hs : (m.map Prod.fst).Sorted (· < ·)) :
    ((updateMaxAQI m r).map Prod.fst).Sorted (· < ·) := by
  unfold updateMaxAQI
  cases m.lookup r.getDate with
  | none => exact sorted_mapAssign _ _ m hs
  | some cur =>
    by_cases h : r.aqi > cur
    · simp only [h, if_true]
      exact sorted_mapAssign _ _ m hs
    · simp only [h, if_false]
      exact hs

theorem sorted_foldl_updateMaxAQI (records : List AirQualityRecord) :
    ∀ m : DateMap, (m.map Prod.fst).Sorted (· < ·) →
      ((records.foldl updateMaxAQI m).map Prod.fst).Sorted (· < ·) := by
  induction records with
  | nil => intro m hs; exact hs
  | cons r rs ih => intro m hs; exact ih _ (sorted_updateMaxAQI m r hs)

end FireDataAnalyzer

namespace FireDataAnalyzer

theorem lookup_updateMaxAQI (m : DateMap) (r : AirQualityRecord) (d : Str) :
    (updateMaxAQI m r).lookup d
      = if r.getDate = d then raiseMax (m.lookup d) r.aqi else m.lookup d := by
  unfold updateMaxAQI
  by_cases hd : r.getDate = d
  · subst hd
    rw [if_pos rfl]
    cases hl : m.lookup r.getDate with
    | none => simp [lookup_mapAssign, raiseMax]
    | some cur =>
      by_cases h : r.aqi > cur
      · simp [h, lookup_mapAssign, raiseMax]
      · simp [h, raiseMax, hl]
  · rw [if_neg hd]
    have hd' : ¬ d = r.getDate := fun h => hd h.symm
    cases m.lookup r.getDate with
    | none => simp [lookup_mapAssign, hd']
    | some cur =>
      by_cases h : r.aqi > cur
      · simp [h, lookup_mapAssign, hd']
      · simp [h]

theorem lookup_foldl_updateMaxAQI (d : Str) (records : List AirQualityRecord) :
    ∀ m : DateMap, (records.foldl updateMaxAQI m).lookup d
      = ((records.filter (fun r => r.getDate = d)).map (fun r => r.aqi)).foldl raiseMax
          (m.lookup d) := by
  induction records with
  | nil => intro m; simp
  | cons r rs ih =>
    intro m
    rw [List.foldl_cons, ih, lookup_updateMaxAQI]
    by_cases h : r.getDate = d
    · simp [h, List.filter_cons]
    · simp [h, List.filter_cons]

theorem foldl_raiseMax_some (l : List Int) :
    ∀ c : Int, l.foldl raiseMax (some c) = some (l.foldl max c) := by
  induction l with
  | nil => intro c; rfl
  | cons a l ih =>
    intro c
    have h : raiseMax (some c) a = some (max c a) := by
      unfold raiseMax
      by_cases hac : a > c
      · simp only [hac, if_true]
        rw [max_eq_right (le_of_lt hac)]
      · simp only [hac, if_false]
        rw [max_eq_left (not_lt.1 hac)]
    rw [List.foldl_cons, h, ih, List.foldl_cons]

theorem foldl_raiseMax_none (l : List Int) : l.foldl raiseMax none = l.max? := by
  cases l with
  | nil => rfl
  | cons a l =>
    rw [List.foldl_cons, List.max?_cons']
    exact foldl_raiseMax_some l a

theorem mem_iff_lookup (d : Str) (v : Int) :
    ∀ m : DateMap, (m.map Prod.fst).Nodup → ((d, v) ∈ m ↔ m.lookup d = some v) := by
  intro m
  induction m with
  | nil => intro _; simp
  | cons p rest ih =>
    obtain ⟨k, w⟩ := p
    intro hnd
    have hnd' : k ∉ rest.map Prod.fst ∧ (rest.map Prod.fst).Nodup := by
      simpa using hnd
    rw [lookup_cons_eq, List.mem_cons]
    by_cases h : d = k
    · subst h
      simp only [if_true, Prod.mk.injEq, true_and, Option.some.injEq]
      constructor
      · rintro (h | h)
        · exact h.symm
        · exact absurd (List.mem_map_of_mem Prod.fst h) hnd'.1
      · intro h
        exact Or.inl h.symm
    · simp only [h, if_false, Prod.mk.injEq, false_and, false_or]
      exact ih hnd'.2

theorem pushDay_eq (threshold : Int) (acc : List Str) (p : Str × Int) :
    pushDay threshold acc p = acc ++ (dayEntry threshold p).toList := by
  unfold pushDay dayEntry
  by_cases h : p.2 > threshold <;> simp [h]

theorem filterMap_dayEntry (threshold : Int) (m : DateMap) :
    m.filterMap (dayEntry threshold)
      = (m.filter (fun p => p.2 > threshold)).map Prod.fst := by
  induction m with
  | nil => rfl
  | cons p rest ih =>
    by_cases h : p.2 > threshold
    · simp [List.filterMap_cons, dayEntry, h, List.filter_cons, ← ih]
    · simp [List.filterMap_cons, dayEntry, h, List.filter_cons, ← ih]

theorem stdSort_of_sorted (l : List Str) (hs : l.Sorted (· < ·)) :
    stdSort (fun a b => decide (a < b)) l = l := by
  unfold stdSort
  apply List.Sorted.insertionSort_eq
  exact List.Pairwise.imp (fun {a b} hab => by simpa using le_of_lt hab) hs

/-- C10. `getDaysWithAQIAbove(threshold)` returns exactly the dates whose maximum
`aqi`, over all records of the date, exceeds the threshold; each such date
appears once, and the list is strictly ascending. -/
theorem getDaysWithAQIAbove_spec (records : List AirQualityRecord) (threshold : Int) :
    (∀ d : Str, d ∈ getDaysWithAQIAbove records threshold
        ↔ ∃ m : Int, maxAQIOfDate records d = some m ∧ m > threshold)
    ∧ (getDaysWithAQIAbove records threshold).Sorted (· < ·)
    ∧ (getDaysWithAQIAbove records threshold).Nodup := by
  have hkeys : ((records.foldl updateMaxAQI []).map Prod.fst).Sorted (· < ·) :=
    sorted_foldl_updateMaxAQI records [] (by simp)
  have hres : getDaysWithAQIAbove records threshold
      = ((records.foldl updateMaxAQI []).filter (fun p => p.2 > threshold)).map Prod.fst := by
    unfold getDaysWithAQIAbove
    simp only
    rw [foldl_push _ _ (pushDay_eq threshold), List.nil_append, filterMap_dayEntry]
    apply stdSort_of_sorted
    exact hkeys.sublist ((List.filter_sublist _).map Prod.fst)
  have hsorted : (getDaysWithAQIAbove records threshold).Sorted (· < ·) := by
    rw [hres]
    exact hkeys.sublist ((List.filter_sublist _).map Prod.fst)
  refine ⟨?_, hsorted, hsorted.nodup⟩
  intro d
  rw [hres]
  have hlook := lookup_foldl_updateMaxAQI d records []
  rw [show ([] : DateMap).lookup d = none from rfl, foldl_raiseMax_none] at hlook
  unfold maxAQIOfDate
  rw [← hlook]
  constructor
  · intro h
    obtain ⟨p, hp, hpd⟩ := List.mem_map.1 h
    obtain ⟨hpm, hpt⟩ := List.mem_filter.1 hp
    refine ⟨p.2, ?_, by simpa using hpt⟩
    rw [← mem_iff_lookup d p.2 _ hkeys.nodup, ← hpd]
    exact hpm
  · rintro ⟨v, hv, hvt⟩
    have hmem := (mem_iff_lookup d v _ hkeys.nodup).2 hv
    exact List.mem_map.2 ⟨(d, v), List.mem_filter.2 ⟨hmem, by simpa using hvt⟩, rfl⟩

end FireDataAnalyzer

namespace PopulationData

theorem chunkSize_pos (n w : Nat) (hw : 1 ≤ w) (hn : w ≤ n) : 1 ≤ chunkSize n w := by
  unfold chunkSize
  exact (Nat.le_div_iff_mul_le (by omega)).2 (by omega)

theorem rangeStart_lt_rangeEnd (n w t : Nat) (hw : 1 ≤ w) (hn : w ≤ n) (ht : t < w) :
    rangeStart n w t < rangeEnd n w t := by
  have hc := chunkSize_pos n w hw hn
  unfold rangeStart rangeEnd
  split
  · next h =>
    have h1 : w * chunkSize n w ≤ n := chunkSize_mul_le n w
    have h2 : w * chunkSize n w = (w - 1) * chunkSize n w + chunkSize n w := by
      obtain ⟨k, rfl⟩ : ∃ k, w = k + 1 := ⟨w - 1, by omega⟩
      simp [Nat.add_mul]
    rw [h]
    omega
  · have : (t + 1) * chunkSize n w = t * chunkSize n w + chunkSize n w := by ring
    omega

/-- C18. For every `N` and `W` with `W ≥ 1` and `N ≥ W`, none of the `W` ranges
computed by the chunk formula is empty; a range can be empty only when `N < W`. -/
theorem chunk_ranges_nonempty (N W : Nat) (hW : 1 ≤ W) :
    (W ≤ N → ∀ t, t < W → rangeStart N W t < rangeEnd N W t)
    ∧ (∀ t, t < W → rangeEnd N W t ≤ rangeStart N W t → N < W) := by
  refine ⟨fun hN t ht => rangeStart_lt_rangeEnd N W t hW hN ht, ?_⟩
  intro t ht hempty
  by_contra hN
  have := rangeStart_lt_rangeEnd N W t hW (by omega) ht
  omega

/-- Witness for C18: ten rows over four workers, and the empty first range of two
rows over four workers. -/
theorem chunk_ranges_nonempty_witness :
    (4 ≤ 10 → ∀ t, t < 4 → rangeStart 10 4 t < rangeEnd 10 4 t)
    ∧ (rangeEnd 2 4 0 ≤ rangeStart 2 4 0 → 2 < 4) :=
  ⟨(chunk_ranges_nonempty 10 4 (by decide)).1,
    (chunk_ranges_nonempty 2 4 (by decide)).2 0 (by decide)⟩

/-- C19, the code at the failing input. With two countries and four hardware
threads the `std::thread` variant keeps four workers: the chunk size is zero,
the first three workers get the empty range `[0, 0)` and the last worker owns
both rows. -/
theorem std_thread_ranges_not_clamped :
    threadCount 4 = 4
    ∧ chunkSize 2 (threadCount 4) = 0
    ∧ (List.range (threadCount 4)).map (fun t => (rangeStart 2 (threadCount 4) t,
          rangeEnd 2 (threadCount 4) t))
        = [(0, 0), (0, 0), (0, 0), (0, 2)] := by
  decide

theorem pthreadNumThreads_eq_min (n : Nat) : pthreadNumThreads n = min 4 n := by
  unfold pthreadNumThreads
  split <;> omega

/-- C20. In the pthread variant, for every country count `N ≥ 1` the worker count
is `min(4, N)`, the resulting ranges cover `[0, N)` exactly once and none is
empty; when `N < 4` each of the `N` workers owns exactly the one row
`[t, t + 1)`. -/
theorem pthread_ranges_partition (N : Nat) (hN : 1 ≤ N) :
    pthreadNumThreads N = min 4 N
    ∧ (∀ i, i < N → ∃! t, t < pthreadNumThreads N
          ∧ rangeStart N (pthreadNumThreads N) t ≤ i
          ∧ i < rangeEnd N (pthreadNumThreads N) t)
    ∧ (∀ t, t < pthreadNumThreads N →
          rangeStart N (pthreadNumThreads N) t < rangeEnd N (pthreadNumThreads N) t
          ∧ rangeEnd N (pthreadNumThreads N) t ≤ N)
    ∧ (N < 4 → ∀ t, t < pthreadNumThreads N →
          rangeStart N (pthreadNumThreads N) t = t
          ∧ rangeEnd N (pthreadNumThreads N) t = t + 1) := by
  have hmin := pthreadNumThreads_eq_min N
  have hw : 1 ≤ pthreadNumThreads N := by omega
  have hle : pthreadNumThreads N ≤ N := by omega
  refine ⟨hmin, ?_, ?_, ?_⟩
  · intro i hi
    obtain ⟨t, ht, h1, h2⟩ := range_exists N _ i hw hi
    refine ⟨t, ⟨ht, h1, h2⟩, ?_⟩
    rintro u ⟨hu, h3, h4⟩
    by_contra hne
    exact ranges_disjoint N _ u t i hu ht hne ⟨h3, h4⟩ ⟨h1, h2⟩
  · intro t ht
    exact ⟨rangeStart_lt_rangeEnd N _ t hw hle ht, rangeEnd_le N _ t ht⟩
  · intro h4 t ht
    have hN' : pthreadNumThreads N = N := by omega
    rw [hN'] at ht ⊢
    have hc : chunkSize N N = 1 := by
      unfold chunkSize
      exact Nat.div_self (by omega)
    unfold rangeStart rangeEnd
    rw [hc]
    constructor
    · omega
    · split <;> omega

/-- Witness for C20: three countries. -/
theorem pthread_ranges_partition_witness :
    pthreadNumThreads 3 = min 4 3
    ∧ (∀ i, i < 3 → ∃! t, t < pthreadNumThreads 3
          ∧ rangeStart 3 (pthreadNumThreads 3) t ≤ i
          ∧ i < rangeEnd 3 (pthreadNumThreads 3) t)
    ∧ (∀ t, t < pthreadNumThreads 3 →
          rangeStart 3 (pthreadNumThreads 3) t < rangeEnd 3 (pthreadNumThreads 3) t
          ∧ rangeEnd 3 (pthreadNumThreads 3) t ≤ 3)
    ∧ (3 < 4 → ∀ t, t < pthreadNumThreads 3 →
          rangeStart 3 (pthreadNumThreads 3) t = t
          ∧ rangeEnd 3 (pthreadNumThreads 3) t = t + 1) :=
  pthread_ranges_partition 3 (by decide)

end PopulationData

namespace PopulationData

/-- C12 (as amended). For every two tables holding the same entries enumerated in
different orders, every year and every `topN ≥ 0`, the two results of
`getTopCountriesByPopulation` (on either path) list the same populations,
position by position; they are the same list whenever no two countries that
qualify have the same population. -/
theorem getTopCountriesByPopulation_row_order (cd₁ cd₂ : CountryData) (year topN : Int)
    (useParallel : Bool) (W : Nat) (order : List Nat) (hperm : cd₁.Perm cd₂)
    (h0 : 0 ≤ topN) (h1 : topN < 2 ^ 31)
    (hlen : useParallel = true → cd₁.length < 2 ^ 31) (hW : 1 ≤ W)
    (ho : order.Perm (List.range W)) :
    ∃ r₁ r₂ : List (Str × Int),
      getTopCountriesByPopulation cd₁ year topN useParallel W order = some r₁
      ∧ getTopCountriesByPopulation cd₂ year topN useParallel W order = some r₂
      ∧ r₁.map Prod.snd = r₂.map Prod.snd
      ∧ (((cd₁.filterMap (topEntry year)).map Prod.snd).Nodup → r₁ = r₂) := by
  have hlen₂ : useParallel = true → cd₂.length < 2 ^ 31 := by
    intro h
    rw [← hperm.length_eq]
    exact hlen h
  obtain ⟨l₁, hl₁, _, hr₁⟩ :=
    getTopCountriesByPopulation_eq cd₁ year topN useParallel W order h0 h1 hlen hW ho
  obtain ⟨l₂, hl₂, _, hr₂⟩ :=
    getTopCountriesByPopulation_eq cd₂ year topN useParallel W order h0 h1 hlen₂ hW ho
  have hl : l₁.Perm l₂ :=
    (hl₁.trans (hperm.filterMap (topEntry year))).trans hl₂.symm
  refine ⟨_, _, hr₁, hr₂, ?_, ?_⟩
  · rw [List.map_take, List.map_take, stdSort_keys_eq_of_perm _ _ hl]
  · intro hnd
    have hnd₂ : (l₂.map Prod.snd).Nodup :=
      (((hl₁.symm.trans hl).map Prod.snd).nodup_iff).1 hnd
    rw [stdSort_eq_of_perm_of_nodup_keys _ _ hl hnd₂]

/-- Witness for C12 (as amended): the sample table and its reversal. -/
theorem getTopCountriesByPopulation_row_order_witness :
    ∃ r₁ r₂ : List (Str × Int),
      getTopCountriesByPopulation sampleTable 2020 2 true 2 [1, 0] = some r₁
      ∧ getTopCountriesByPopulation sampleTable.reverse 2020 2 true 2 [1, 0] = some r₂
      ∧ r₁.map Prod.snd = r₂.map Prod.snd
      ∧ (((sampleTable.filterMap (topEntry 2020)).map Prod.snd).Nodup → r₁ = r₂) :=
  getTopCountriesByPopulation_row_order sampleTable sampleTable.reverse 2020 2 true 2 [1, 0]
    (List.reverse_perm sampleTable).symm (by decide) (by decide) (fun _ => by decide)
    (by decide) (by decide)

/-- C12, counterexample. Two tables with the same two entries, both of population 5,
in opposite orders: the top-1 lists differ, on the serial and on the parallel
path. -/
theorem getTopCountriesByPopulation_depends_on_row_order :
    tiedTable.Perm tiedTable.reverse
    ∧ getTopCountriesByPopulation tiedTable 2020 1 false 1 [0] = some [("A".toList, 5)]
    ∧ getTopCountriesByPopulation tiedTable.reverse 2020 1 false 1 [0] = some [("B".toList, 5)]
    ∧ getTopCountriesByPopulation tiedTable 2020 1 true 1 [0]
        ≠ getTopCountriesByPopulation tiedTable.reverse 2020 1 true 1 [0] := by
  refine ⟨(List.reverse_perm tiedTable).symm, by decide, by decide, by decide⟩

end PopulationData

theorem filterMap_getElem?_range {α : Type} (l : List α) :
    (List.range l.length).filterMap (fun i => l[i]?) = l := by
  induction l with
  | nil => rfl
  | cons a l ih =>
    rw [List.length_cons, List.range_succ_eq_map, List.filterMap_cons]
    simp only [List.getElem?_cons_zero, List.filterMap_map]
    congr 1
    have hf : ((fun i => (a :: l)[i]?) ∘ Nat.succ) = (fun i => l[i]?) := by
      funext i
      simp
    rw [hf, ih]

namespace FireDataAnalyzer

theorem runIterations_eq (records : List AirQualityRecord) (targetDate : Str) :
    ∀ (schedule : List Nat) (results : List AirQualityRecord),
      (∀ i ∈ schedule, i < records.length) →
      runIterations records targetDate schedule results
        = some (results ++ (schedule.filterMap (fun i => records[i]?)).filter
            (fun r => r.getDate = targetDate)) := by
  intro schedule
  induction schedule with
  | nil => intro results _; simp [runIterations]
  | cons i rest ih =>
    intro results h
    have hi : i < records.length := h i (List.mem_cons_self _ _)
    have hrest := fun r => ih r (fun j hj => h j (List.mem_cons_of_mem _ hj))
    unfold runIterations pushIfDate
    rw [List.getElem?_eq_getElem hi]
    by_cases hd : records[i].getDate = targetDate
    · simp only [hd, if_true]
      rw [hrest]
      simp [List.filterMap_cons, List.getElem?_eq_getElem hi, List.filter_cons, hd]
    · simp only [hd, if_false]
      rw [hrest]
      simp [List.filterMap_cons, List.getElem?_eq_getElem hi, List.filter_cons, hd]

/-- C11. `getAQIDataForDate(targetDate)` returns a permutation of the sub-list of
the loaded records whose date equals `targetDate`: every matching record is
returned as many times as it occurs in the table, and no other record is
returned. -/
theorem getAQIDataForDate_spec (records : List AirQualityRecord) (targetDate : Str)
    (schedule : List Nat) (hs : schedule.Perm (List.range records.length)) :
    ∃ results : List AirQualityRecord,
      getAQIDataForDate records targetDate schedule = some results
      ∧ results.Perm (records.filter (fun r => r.getDate = targetDate))
      ∧ (∀ r, r.getDate = targetDate → results.count r = records.count r)
      ∧ (∀ r, r.getDate ≠ targetDate → r ∉ results) := by
  have hperm : ((schedule.filterMap (fun i => records[i]?)).filter
      (fun r => r.getDate = targetDate)).Perm
      (records.filter (fun r => r.getDate = targetDate)) := by
    have h := (hs.filterMap (fun i => records[i]?)).filter (fun r => r.getDate = targetDate)
    rw [filterMap_getElem?_range] at h
    exact h
  refine ⟨_, ?_, hperm, ?_, ?_⟩
  · unfold getAQIDataForDate
    rw [runIterations_eq records targetDate schedule []
      (fun i hi => List.mem_range.1 (hs.mem_iff.1 hi))]
    simp
  · intro r hr
    rw [hperm.count_eq, List.count_filter]
    simpa using hr
  · intro r hr hmem
    have := (List.mem_filter.1 (hperm.mem_iff.1 hmem)).2
    exact hr (by simpa using this)

/-- Witness for C11: the sample table, its iterations run in the order 2, 0, 3, 1. -/
theorem getAQIDataForDate_spec_witness :
    ∃ results : List AirQualityRecord,
      getAQIDataForDate sampleRecords "2020-08-15".toList [2, 0, 3, 1] = some results
      ∧ results.Perm (sampleRecords.filter (fun r => r.getDate = "2020-08-15".toList))
      ∧ (∀ r, r.getDate = "2020-08-15".toList → results.count r = sampleRecords.count r)
      ∧ (∀ r, r.getDate ≠ "2020-08-15".toList → r ∉ results) :=
  getAQIDataForDate_spec sampleRecords "2020-08-15".toList [2, 0, 3, 1] (by decide)

end FireDataAnalyzer

namespace FireDataAnalyzer

theorem parseRecord_malformed (stod : Str → Option ℚ) (line : Str) (h : malformedLine line) :
    parseRecord stod line = some defaultRecord := by
  unfold malformedLine at h
  unfold parseRecord
  simp only
  rw [if_neg (by omega)]

theorem buildRecord_of_convert (stod : Str → Option ℚ) (fields : List Str)
    (h : numericFieldsConvert stod fields) :
    ∃ record, buildRecord stod fields = some record ∧ record.datetime = fields.getD 2 [] := by
  obtain ⟨h0, h1, h4, h6, h7, h8⟩ := h
  obtain ⟨a, ha⟩ := Option.isSome_iff_exists.1 h0
  obtain ⟨b, hb⟩ := Option.isSome_iff_exists.1 h1
  obtain ⟨c, hc⟩ := Option.isSome_iff_exists.1 h4
  obtain ⟨d, hd⟩ := Option.isSome_iff_exists.1 h6
  obtain ⟨e, he⟩ := Option.isSome_iff_exists.1 h7
  obtain ⟨f, hf⟩ := Option.isSome_iff_exists.1 h8
  unfold buildRecord
  rw [ha, hb, hc, hd, he, hf]
  exact ⟨_, rfl, rfl⟩

theorem buildRecord_of_not_convert (stod : Str → Option ℚ) (fields : List Str)
    (h : ¬ numericFieldsConvert stod fields) : buildRecord stod fields = none := by
  unfold buildRecord
  split
  · next h0 h1 h4 h6 h7 h8 =>
    refine absurd ?_ h
    unfold numericFieldsConvert
    rw [h0, h1, h4, h6, h7, h8]
    simp
  · rfl

theorem parseRecord_wellFormed (stod : Str → Option ℚ) (line : Str)
    (h : wellFormedLine stod line) :
    ∃ record, parseRecord stod line = some record
      ∧ record.datetime = (parseCSVLine line).getD 2 [] := by
  obtain ⟨hlen, hconv⟩ := h
  obtain ⟨record, hr, hd⟩ := buildRecord_of_convert stod _ hconv
  refine ⟨record, ?_, hd⟩
  unfold parseRecord
  simp only
  rw [if_pos hlen, hr]

/-- A line with at least 13 fields and a numeric field that cannot be converted
makes the whole load fail. -/
theorem loadCSVFile_throws (stod : Str → Option ℚ) (records : List AirQualityRecord) :
    ∀ lines : List Str,
      (∃ line ∈ lines, 13 ≤ (parseCSVLine line).length
        ∧ ¬ numericFieldsConvert stod (parseCSVLine line)) →
      loadCSVFile stod records lines = none := by
  intro lines h
  have hp : parseLines stod lines = none := by
    induction lines with
    | nil => obtain ⟨l, hl, _⟩ := h; simp at hl
    | cons line rest ih =>
      obtain ⟨l, hl, hlen, hconv⟩ := h
      unfold parseLines
      rcases List.mem_cons.1 hl with rfl | hl'
      · have : parseRecord stod l = none := by
          unfold parseRecord
          simp only
          rw [if_pos hlen, buildRecord_of_not_convert stod _ hconv]
        rw [this]
      · rw [ih ⟨l, hl', hlen, hconv⟩]
        cases parseRecord stod line <;> rfl
  unfold loadCSVFile
  rw [hp]

theorem parseLines_wellFormed_or_malformed (stod : Str → Option ℚ) :
    ∀ lines : List Str, (∀ line ∈ lines, wellFormedLine stod line ∨ malformedLine line) →
      ∃ localRecords, parseLines stod lines = some localRecords
        ∧ (localRecords.filter (fun rec => rec.datetime ≠ [])).length
          = (lines.filter (fun line => 13 ≤ (parseCSVLine line).length
              ∧ (parseCSVLine line).getD 2 [] ≠ [])).length := by
  intro lines
  induction lines with
  | nil => intro _; exact ⟨[], rfl, rfl⟩
  | cons line rest ih =>
    intro h
    obtain ⟨locals, hl, hcount⟩ := ih (fun l hl => h l (List.mem_cons_of_mem _ hl))
    rcases h line (List.mem_cons_self _ _) with hwf | hmal
    · obtain ⟨record, hr, hd⟩ := parseRecord_wellFormed stod line hwf
      refine ⟨record :: locals, by simp [parseLines, hr, hl], ?_⟩
      rw [List.filter_cons, List.filter_cons]
      by_cases hne : (parseCSVLine line).getD 2 [] = []
      · have h1 : decide (record.datetime ≠ []) = false := by
          rw [hd, hne]; rfl
        have h2 : decide (13 ≤ (parseCSVLine line).length
            ∧ (parseCSVLine line).getD 2 [] ≠ []) = false := by
          rw [hne]; simp
        simp only [h1, h2, Bool.false_eq_true, if_false]
        exact hcount
      · have h1 : decide (record.datetime ≠ []) = true := by
          rw [hd]; exact decide_eq_true hne
        have h2 : decide (13 ≤ (parseCSVLine line).length
            ∧ (parseCSVLine line).getD 2 [] ≠ []) = true :=
          decide_eq_true ⟨hwf.1, hne⟩
        simp only [h1, h2, if_true, List.length_cons]
        rw [hcount]
    · refine ⟨defaultRecord :: locals,
        by simp [parseLines, parseRecord_malformed stod line hmal, hl], ?_⟩
      have hlt : ¬ 13 ≤ (parseCSVLine line).length := by
        unfold malformedLine at hmal
        omega
      rw [List.filter_cons, List.filter_cons]
      have h1 : decide (defaultRecord.datetime ≠ []) = false := rfl
      have h2 : decide (13 ≤ (parseCSVLine line).length
          ∧ (parseCSVLine line).getD 2 [] ≠ []) = false :=
        decide_eq_false (fun hc => hlt hc.1)
      simp only [h1, h2, Bool.false_eq_true, if_false]
      exact hcount

/-- C13 (as amended). Loading a fire-data CSV whose lines are well-formed rows (at
least 13 fields, numeric fields convertible) or malformed rows (fewer than 13
fields) succeeds and makes the record table grow by exactly the number of
well-formed rows whose timestamp (third field) is not empty. -/
theorem loadCSVFile_size (stod : Str → Option ℚ) (records : List AirQualityRecord)
    (lines : List Str) (h : ∀ line ∈ lines, wellFormedLine stod line ∨ malformedLine line) :
    ∃ records', loadCSVFile stod records lines = some records'
      ∧ records'.length = records.length
          + (lines.filter (fun line => 13 ≤ (parseCSVLine line).length
              ∧ (parseCSVLine line).getD 2 [] ≠ [])).length := by
  obtain ⟨locals, hl, hcount⟩ := parseLines_wellFormed_or_malformed stod lines h
  refine ⟨records ++ locals.filter (fun rec => rec.datetime ≠ []), ?_, ?_⟩
  · simp only [loadCSVFile, hl]
  · rw [List.length_append, hcount]

/-- Witness for C13 (as amended): a row with timestamp, a row without, an empty line. -/
theorem loadCSVFile_size_witness :
    ∃ records', loadCSVFile decimalStod [] [goodLine, noDatetimeLine, []] = some records'
      ∧ records'.length = ([] : List AirQualityRecord).length
          + ([goodLine, noDatetimeLine, []].filter (fun line => 13 ≤ (parseCSVLine line).length
              ∧ (parseCSVLine line).getD 2 [] ≠ [])).length :=
  loadCSVFile_size decimalStod [] [goodLine, noDatetimeLine, []] (by decide)

/-- C13, counterexample. A file of one well-formed row (13 fields, numeric fields
convertible) whose timestamp is empty: the table does not grow. -/
theorem loadCSVFile_drops_row_without_datetime :
    wellFormedLine decimalStod noDatetimeLine
    ∧ loadCSVFile decimalStod [] [noDatetimeLine] = some [] := by
  decide

/-- C14, the code at the failing input. A file with a well-formed line and a line
of 13 fields whose latitude is not a number: the conversion throws, the load
fails as a whole and the well-formed line is not loaded either, although
alone it loads. -/
theorem loadCSVFile_conversion_failure_escapes :
    13 ≤ (parseCSVLine badNumberLine).length
    ∧ decimalStod ((parseCSVLine badNumberLine).getD 0 []) = none
    ∧ loadCSVFile decimalStod [] [goodLine, badNumberLine] = none
    ∧ (loadCSVFile decimalStod [] [goodLine]).map List.length = some 1 := by
  decide

end FireDataAnalyzer

/-! ## The World Bank loader -/

theorem lookup_cons_ite {κ ν : Type} [BEq κ] [LawfulBEq κ] [DecidableEq κ] (a k : κ) (b : ν)
    (es : List (κ × ν)) :
    ((k, b) :: es).lookup a = if a = k then some b else es.lookup a := by
  by_cases h : a = k
  · simp [List.lookup, h]
  · have : (a == k) = false := by simpa using h
    simp [List.lookup, h, this]

namespace PopulationData

theorem lookup_assign {κ ν : Type} [BEq κ] [LawfulBEq κ] [DecidableEq κ] (key a : κ)
    (value : ν) :
    ∀ m : List (κ × ν), (assign key value m).lookup a
      = if a = key then some value else m.lookup a := by
  intro m
  induction m with
  | nil => simp [assign, lookup_cons_ite]
  | cons p rest ih =>
    obtain ⟨k, v⟩ := p
    unfold assign
    by_cases h : k = key
    · subst h
      rw [if_pos rfl, lookup_cons_ite, lookup_cons_ite]
      by_cases hak : a = k
      · rw [if_pos hak, if_pos hak]
      · rw [if_neg hak, if_neg hak, if_neg hak]
    · rw [if_neg h, lookup_cons_ite, lookup_cons_ite, ih]
      by_cases hak : a = k
      · have : ¬ a = key := fun hk => h (hak.symm.trans hk)
        rw [if_pos hak, if_neg this, if_pos hak]
      · rw [if_neg hak, if_neg hak]

theorem getPopulation_storePopulation (code : Str) (year population : Int) (cd : CountryData)
    (c : Str) (y : Int) :
    getPopulation (storePopulation code year population cd) c y
      = if c = code ∧ y = year then population else getPopulation cd c y := by
  unfold getPopulation storePopulation
  rw [lookup_assign]
  by_cases hc : c = code
  · subst hc
    simp only [if_true, true_and]
    rw [lookup_assign]
    by_cases hy : y = year
    · simp [hy]
    · simp only [hy, if_false]
      cases List.lookup c cd with
      | none => rfl
      | some m => rfl
  · simp [hc]

theorem getPopulation_storeYear (code : Str) (fields : List Str) (cd : CountryData) (i : Nat)
    (c : Str) (y : Int) :
    getPopulation (storeYear code fields cd i) c y
      = if c = code ∧ y = 1960 + ((i : Int) - 4) ∧ stringToLongLong (fields.getD i []) > 0
          then stringToLongLong (fields.getD i []) else getPopulation cd c y := by
  unfold storeYear
  by_cases hp : stringToLongLong (fields.getD i []) > 0
  · rw [if_pos hp, getPopulation_storePopulation]
    by_cases h : c = code ∧ y = 1960 + ((i : Int) - 4)
    · rw [if_pos h, if_pos ⟨h.1, h.2, hp⟩]
    · rw [if_neg h, if_neg (fun h' => h ⟨h'.1, h'.2.1⟩)]
  · rw [if_neg hp, if_neg (fun h' => hp h'.2.2)]

/-- The year loop leaves every entry alone that is of another country or of a year
outside the visited columns. -/
theorem getPopulation_foldl_storeYear_other (code : Str) (fields : List Str) (c : Str)
    (y : Int) :
    ∀ (cols : List Nat) (cd : CountryData),
      (c ≠ code ∨ ∀ i ∈ cols, y ≠ 1960 + ((i : Int) - 4)) →
      getPopulation (cols.foldl (storeYear code fields) cd) c y = getPopulation cd c y := by
  intro cols
  induction cols with
  | nil => intro cd _; rfl
  | cons j rest ih =>
    intro cd h
    rw [List.foldl_cons, ih, getPopulation_storeYear]
    · rw [if_neg]
      rintro ⟨h1, h2, _⟩
      rcases h with h | h
      · exact h h1
      · exact h j (List.mem_cons_self _ _) h2
    · rcases h with h | h
      · exact Or.inl h
      · exact Or.inr (fun i hi => h i (List.mem_cons_of_mem _ hi))

/-- The year loop stores the cell of a visited column when it converts to a
positive number and leaves the entry of that year alone otherwise. -/
theorem getPopulation_foldl_storeYear (code : Str) (fields : List Str) (i : Nat) :
    ∀ (cols : List Nat) (cd : CountryData), cols.Nodup → i ∈ cols →
      getPopulation (cols.foldl (storeYear code fields) cd) code (1960 + ((i : Int) - 4))
        = if stringToLongLong (fields.getD i []) > 0 then stringToLongLong (fields.getD i [])
          else getPopulation cd code (1960 + ((i : Int) - 4)) := by
  intro cols
  induction cols with
  | nil => intro cd _ hi; simp at hi
  | cons j rest ih =>
    intro cd hnd hi
    have hnd' : j ∉ rest ∧ rest.Nodup := List.nodup_cons.1 hnd
    rw [List.foldl_cons]
    rcases List.mem_cons.1 hi with rfl | hi'
    · rw [getPopulation_foldl_storeYear_other code fields code _ rest _
        (Or.inr (fun k hk hkk => hnd'.1 (by
          have : (i : Int) = (k : Int) := by omega
          rw [Int.ofNat_inj.1 this]; exact hk))),
        getPopulation_storeYear]
      by_cases hp : stringToLongLong (fields.getD i []) > 0
      · simp [hp]
      · simp [hp]
    · rw [ih _ hnd'.2 hi', getPopulation_storeYear]
      have hne : ¬ (1960 + ((i : Int) - 4) = 1960 + ((j : Int) - 4)) := by
        intro h
        have : (i : Int) = (j : Int) := by omega
        exact hnd'.1 (by rw [← Int.ofNat_inj.1 this]; exact hi')
      simp [hne]

theorem processLine_accepted (table : Table) (line : Str) (h : acceptedLine line) :
    processLine table line
      = { countryNames := assign ((parseCSVLine line).getD 1 [])
            ((parseCSVLine line).getD 0 []) table.countryNames,
          countryData := (List.range' 4 64).foldl
            (storeYear ((parseCSVLine line).getD 1 []) (parseCSVLine line))
            table.countryData } := by
  obtain ⟨h1, h2, h3, h4, h5, h6⟩ := h
  unfold processLine
  rw [if_neg (fun h => h.elim h1 (fun h => h.elim h2 h3)), if_neg h4]
  simp only
  rw [if_neg (by omega), if_neg (fun h => h h6)]
  have : yearColumns (parseCSVLine line).length = List.range' 4 64 := by
    unfold yearColumns
    rw [min_eq_right h5]
  rw [this]

/-- C16. Processing a line in `loadFromCSV` leaves `countryData` and `countryNames`
unchanged whenever the line is empty, contains `Data Source`,
`Last Updated Date` or `Country Name`, parses to fewer than 68 fields, or has
a third field other than `Population, total`. -/
theorem processLine_skips (table : Table) (line : Str)
    (h : line = [] ∨ "Data Source".toList <:+: line ∨ "Last Updated Date".toList <:+: line
      ∨ "Country Name".toList <:+: line ∨ (parseCSVLine line).length < 68
      ∨ (parseCSVLine line).getD 2 [] ≠ "Population, total".toList) :
    processLine table line = table
    ∧ (processLine table line).countryData = table.countryData
    ∧ (processLine table line).countryNames = table.countryNames := by
  have hmain : processLine table line = table := by
    unfold processLine
    by_cases h1 : line = [] ∨ "Data Source".toList <:+: line
        ∨ "Last Updated Date".toList <:+: line
    · rw [if_pos h1]
    · rw [if_neg h1]
      by_cases h2 : "Country Name".toList <:+: line
      · rw [if_pos h2]
      · rw [if_neg h2]
        simp only
        by_cases h3 : (parseCSVLine line).length < 68
        · rw [if_pos h3]
        · rw [if_neg h3]
          by_cases h4 : (parseCSVLine line).getD 2 [] ≠ "Population, total".toList
          · rw [if_pos h4]
          · exfalso
            rcases h with h | h | h | h | h | h
            · exact h1 (Or.inl h)
            · exact h1 (Or.inr (Or.inl h))
            · exact h1 (Or.inr (Or.inr h))
            · exact h2 h
            · exact h3 h
            · exact h4 h
  rw [hmain]
  exact ⟨rfl, rfl, rfl⟩

/-- Witness for C16: a metadata line holding `Data Source` on the sample table. -/
theorem processLine_skips_witness :
    processLine { countryData := sampleTable, countryNames := [] }
        "\"Data Source\",\"World Development Indicators\",".toList
      = { countryData := sampleTable, countryNames := [] }
    ∧ (processLine { countryData := sampleTable, countryNames := [] }
        "\"Data Source\",\"World Development Indicators\",".toList).countryData = sampleTable
    ∧ (processLine { countryData := sampleTable, countryNames := [] }
        "\"Data Source\",\"World Development Indicators\",".toList).countryNames = [] :=
  processLine_skips { countryData := sampleTable, countryNames := [] }
    "\"Data Source\",\"World Development Indicators\",".toList (Or.inr (Or.inl (by decide)))

/-- C15 (as amended). `loadFromCSV` stores the year columns of a data line one by
one: for every line that passes its checks the country name is stored, and
for each of the 64 year columns 1960..2023 the population of that year becomes
the cell's value when the cell converts to a positive number and stays as it
was when the cell is empty, non-numeric or not positive; the other cells of
the line are stored all the same. -/
theorem processLine_stores_cells (table : Table) (line : Str) (h : acceptedLine line) :
    getCountryName (processLine table line).countryNames ((parseCSVLine line).getD 1 [])
        = (parseCSVLine line).getD 0 []
    ∧ ∀ k : Nat, k < 64 →
        getPopulation (processLine table line).countryData ((parseCSVLine line).getD 1 [])
            (1960 + (k : Int))
          = if stringToLongLong ((parseCSVLine line).getD (4 + k) []) > 0
              then stringToLongLong ((parseCSVLine line).getD (4 + k) [])
              else getPopulation table.countryData ((parseCSVLine line).getD 1 [])
                (1960 + (k : Int)) := by
  rw [processLine_accepted table line h]
  refine ⟨?_, ?_⟩
  · unfold getCountryName
    simp only
    rw [lookup_assign, if_pos rfl]
  · intro k hk
    have hmem : 4 + k ∈ List.range' 4 64 := by
      rw [List.mem_range'_1]
      omega
    have := getPopulation_foldl_storeYear ((parseCSVLine line).getD 1 []) (parseCSVLine line)
      (4 + k) (List.range' 4 64) table.countryData (List.nodup_range' 4 64) hmem
    have hy : (1960 : Int) + (((4 + k : Nat) : Int) - 4) = 1960 + (k : Int) := by
      push_cast
      ring
    rw [hy] at this
    exact this

set_option maxRecDepth 100000 in
/-- Witness for C15 (as amended): the line whose only filled year cell is 1960. -/
theorem processLine_stores_cells_witness :
    getCountryName (processLine emptyTable partialRow).countryNames
        ((parseCSVLine partialRow).getD 1 [])
        = (parseCSVLine partialRow).getD 0 []
    ∧ ∀ k : Nat, k < 64 →
        getPopulation (processLine emptyTable partialRow).countryData
            ((parseCSVLine partialRow).getD 1 []) (1960 + (k : Int))
          = if stringToLongLong ((parseCSVLine partialRow).getD (4 + k) []) > 0
              then stringToLongLong ((parseCSVLine partialRow).getD (4 + k) [])
              else getPopulation emptyTable.countryData ((parseCSVLine partialRow).getD 1 [])
                (1960 + (k : Int)) :=
  processLine_stores_cells emptyTable partialRow (by decide)

set_option maxRecDepth 100000 in
/-- C15, counterexample. A data line whose cell of 1960 holds a number and whose
other 63 year cells are empty enters the table partially: the population of
1960 and the country name are stored, the year 1961 is not. -/
theorem processLine_stores_partial_row :
    (parseCSVLine partialRow).length = 68
    ∧ stringToLongLong ((parseCSVLine partialRow).getD 5 []) = -1
    ∧ getPopulation (processLine emptyTable partialRow).countryData "ABW".toList 1960 = 54608
    ∧ getPopulation (processLine emptyTable partialRow).countryData "ABW".toList 1961 = -1
    ∧ getCountryName (processLine emptyTable partialRow).countryNames "ABW".toList
        = "Aruba".toList
    ∧ processLine emptyTable partialRow ≠ emptyTable := by
  decide

end PopulationData

/-! ## Queries for a year without data -/

namespace PopulationData

theorem addGrowthPopulations_toLongLong (sy ey a b : Int) (c : Country) :
    addGrowthPopulations sy ey (toLongLong a, toLongLong b) c
      = (toLongLong (a + positivePopulation sy c), toLongLong (b + positivePopulation ey c)) := by
  unfold addGrowthPopulations
  simp only
  rw [addPopulation_toLongLong, addPopulation_toLongLong]

theorem foldl_addGrowthPopulations (sy ey : Int) (l : CountryData) (a b : Int) :
    l.foldl (addGrowthPopulations sy ey) (toLongLong a, toLongLong b)
      = (toLongLong (a + (l.map (positivePopulation sy)).sum),
          toLongLong (b + (l.map (positivePopulation ey)).sum)) := by
  induction l generalizing a b with
  | nil => simp
  | cons c l ih =>
    rw [List.foldl_cons, addGrowthPopulations_toLongLong, ih]
    simp [add_assoc]

theorem foldl_addGrowthPopulations_zero (sy ey : Int) (l : CountryData) :
    l.foldl (addGrowthPopulations sy ey) (0, 0)
      = (toLongLong ((l.map (positivePopulation sy)).sum),
          toLongLong ((l.map (positivePopulation ey)).sum)) := by
  have h := foldl_addGrowthPopulations sy ey l 0 0
  rw [toLongLong_zero, zero_add, zero_add] at h
  exact h

theorem foldl_pair_add (l : List (Int × Int)) (a b : Int) :
    l.foldl (fun sums p => (toLongLong (sums.1 + p.1), toLongLong (sums.2 + p.2)))
        (toLongLong a, toLongLong b)
      = (toLongLong (a + (l.map Prod.fst).sum), toLongLong (b + (l.map Prod.snd).sum)) := by
  induction l generalizing a b with
  | nil => simp
  | cons p l ih =>
    rw [List.foldl_cons]
    simp only
    rw [toLongLong_add_left, toLongLong_add_left, ih]
    simp [add_assoc]

/-- Both paths of `calculateGlobalPopulationGrowth` compute the same two sums: those
of the positive populations of the two years, reduced to 64 bits. -/
theorem globalPopulationSums_eq (cd : CountryData) (sy ey : Int) (useParallel : Bool)
    (W : Nat) (hW : 1 ≤ W) :
    globalPopulationSums cd sy ey useParallel W
      = some (toLongLong (specTotalPopulation cd sy), toLongLong (specTotalPopulation cd ey)) := by
  rw [specTotalPopulation_eq, specTotalPopulation_eq]
  cases useParallel with
  | false =>
    simp only [globalPopulationSums, Bool.false_eq_true, if_false,
      foldl_addGrowthPopulations_zero]
  | true =>
    have hjoin : joinWorkers (localGrowthPopulations cd sy ey W) (List.range W)
        = some ((List.range W).map
            (fun t => (toLongLong (((chunkOf cd W t).map (positivePopulation sy)).sum),
              toLongLong (((chunkOf cd W t).map (positivePopulation ey)).sum)))) := by
      apply joinWorkers_eq_map
      intro t ht
      unfold localGrowthPopulations
      rw [forRange_chunk cd _ _ W t (List.mem_range.1 ht), foldl_addGrowthPopulations_zero]
    have hW0 : W ≠ 0 := by omega
    simp only [globalPopulationSums, if_true, hW0, if_false, hjoin]
    have h0 := foldl_pair_add
      ((List.range W).map
        (fun t => (toLongLong (((chunkOf cd W t).map (positivePopulation sy)).sum),
          toLongLong (((chunkOf cd W t).map (positivePopulation ey)).sum)))) 0 0
    rw [toLongLong_zero, zero_add, zero_add] at h0
    rw [h0, List.map_map, List.map_map]
    simp only [Function.comp_def]
    rw [toLongLong_sum_map (fun t => ((chunkOf cd W t).map (positivePopulation sy)).sum),
      toLongLong_sum_map (fun t => ((chunkOf cd W t).map (positivePopulation ey)).sum),
      sum_chunks (positivePopulation sy) cd W hW, sum_chunks (positivePopulation ey) cd W hW]

theorem filterMap_eq_nil_of_none {α β : Type} (f : α → Option β) (l : List α)
    (h : ∀ a ∈ l, f a = none) : l.filterMap f = [] := by
  induction l with
  | nil => rfl
  | cons a l ih =>
    rw [List.filterMap_cons, h a (List.mem_cons_self _ _)]
    exact ih (fun b hb => h b (List.mem_cons_of_mem _ hb))

theorem specTotalPopulation_absent (cd : CountryData) (year : Int)
    (h : ∀ c ∈ cd, c.2.lookup year = none) : specTotalPopulation cd year = 0 := by
  rw [specTotalPopulation_eq]
  induction cd with
  | nil => rfl
  | cons c cd ih =>
    rw [List.map_cons, List.sum_cons, ih (fun b hb => h b (List.mem_cons_of_mem _ hb))]
    unfold positivePopulation
    rw [h c (List.mem_cons_self _ _)]
    rfl

/-- The sorted merge of a parallel filter query is empty when no row qualifies. -/
theorem mergeLocal_nil {α β : Type} (cv : List α) (body : List β → α → List β)
    (f : α → Option β) (hbody : ∀ acc c, body acc c = acc ++ (f c).toList)
    (hnone : ∀ a ∈ cv, f a = none)
    (w : Nat) (hw : 1 ≤ w) (order : List Nat) (ho : order.Perm (List.range w)) :
    mergeLocal
        (fun t => forRange cv (rangeStart cv.length w t) (rangeEnd cv.length w t) body []) order
      = some []
    ∧ cv.foldl body [] = [] := by
  have hs : cv.foldl body [] = [] := by
    rw [foldl_push body f hbody, filterMap_eq_nil_of_none f cv hnone]
    rfl
  obtain ⟨temp, htemp, hperm⟩ := mergeLocal_perm cv body f hbody w hw order ho
  rw [hs] at hperm
  rw [htemp, List.Perm.eq_nil hperm]
  exact ⟨rfl, hs⟩

theorem stdSort_nil {α : Type} (comp : α → α → Bool) : stdSort comp ([] : List α) = [] := rfl

/-- For a year that no country has data for, every query returns the empty or zero
result on both paths, the parallel top-N query for `topN ≥ 0`. -/
theorem absent_year_results {R : Type} [LinearOrder R] (growthRate : Int → Int → R)
    (cd : CountryData) (year other threshold topN : Int) (useParallel : Bool) (W : Nat)
    (order : List Nat) (habs : ∀ c ∈ cd, c.2.lookup year = none) (hW : 1 ≤ W)
    (ho : order.Perm (List.range W)) (h0 : useParallel = true → 0 ≤ topN) :
    getTopCountriesByPopulation cd year topN useParallel W order = some []
    ∧ findCountriesWithPopulationAbove cd threshold year useParallel W order = some []
    ∧ calculateCountryGrowthRates growthRate cd year other useParallel W order = some []
    ∧ calculateCountryGrowthRates growthRate cd other year useParallel W order = some []
    ∧ calculateTotalWorldPopulation cd year useParallel W = some 0
    ∧ calculateGlobalPopulationGrowth cd year other useParallel W = some 0 := by
  have hW0 : W ≠ 0 := by omega
  have htop : ∀ c ∈ cd, topEntry year c = none := by
    intro c hc
    unfold topEntry
    rw [habs c hc]
  have hlarge : ∀ c ∈ cd, largeEntry threshold year c = none := by
    intro c hc
    unfold largeEntry
    rw [habs c hc]
  have hg1 : ∀ c ∈ cd, growthEntry growthRate year other c = none := by
    intro c hc
    unfold growthEntry
    rw [habs c hc]
  have hg2 : ∀ c ∈ cd, growthEntry growthRate other year c = none := by
    intro c hc
    unfold growthEntry
    rw [habs c hc]
    cases c.2.lookup other <;> rfl
  obtain ⟨m1, s1⟩ := mergeLocal_nil cd (pushTopCountry year) (topEntry year)
    (pushTopCountry_eq year) htop W hW order ho
  obtain ⟨m2, s2⟩ := mergeLocal_nil cd (pushLargeCountry threshold year)
    (largeEntry threshold year) (pushLargeCountry_eq threshold year) hlarge W hW order ho
  obtain ⟨m3, s3⟩ := mergeLocal_nil cd (pushGrowthRate growthRate year other)
    (growthEntry growthRate year other) (pushGrowthRate_eq growthRate year other) hg1 W hW
    order ho
  obtain ⟨m4, s4⟩ := mergeLocal_nil cd (pushGrowthRate growthRate other year)
    (growthEntry growthRate other year) (pushGrowthRate_eq growthRate other year) hg2 W hW
    order ho
  refine ⟨?_, ?_, ?_, ?_, ?_, ?_⟩
  · cases useParallel with
    | false =>
      simp only [getTopCountriesByPopulation, Bool.false_eq_true, if_false, s1, stdSort_nil]
      rfl
    | true =>
      simp only [getTopCountriesByPopulation, if_true, hW0, if_false]
      unfold localTopCountries
      rw [m1]
      simp only [stdSort_nil]
      have h := h0 rfl
      unfold assignTopN
      have hk : min topN (toInt32 ([] : List (Str × Int)).length) = 0 := by
        have : toInt32 ([] : List (Str × Int)).length = 0 := rfl
        rw [this]
        exact min_eq_right h
      simp only [hk]
      rfl
  · cases useParallel with
    | false =>
      simp only [findCountriesWithPopulationAbove, Bool.false_eq_true, if_false, s2,
        stdSort_nil]
    | true =>
      simp only [findCountriesWithPopulationAbove, if_true, hW0, if_false]
      unfold localLargeCountries
      rw [m2]
      simp only [stdSort_nil]
  · cases useParallel with
    | false =>
      simp only [calculateCountryGrowthRates, Bool.false_eq_true, if_false, s3, stdSort_nil]
    | true =>
      simp only [calculateCountryGrowthRates, if_true, hW0, if_false]
      unfold localGrowthRates
      rw [m3]
      simp only [stdSort_nil]
  · cases useParallel with
    | false =>
      simp only [calculateCountryGrowthRates, Bool.false_eq_true, if_false, s4, stdSort_nil]
    | true =>
      simp only [calculateCountryGrowthRates, if_true, hW0, if_false]
      unfold localGrowthRates
      rw [m4]
      simp only [stdSort_nil]
  · rw [calculateTotalWorldPopulation_eq_sum cd year useParallel W hW,
      specTotalPopulation_absent cd year habs, toLongLong_zero]
  · unfold calculateGlobalPopulationGrowth
    rw [globalPopulationSums_eq cd year other useParallel W hW,
      specTotalPopulation_absent cd year habs, toLongLong_zero]
    rfl

/-- C17, the code at the failing input. For the year 1800, which no country of the
sample table has data for, and `topN = -1` the parallel path of
`getTopCountriesByPopulation` fails (the end offset `min(topN, size)` is `-1`),
while the serial path returns the empty list; with `topN = 3` both paths
return the empty list. -/
theorem getTopCountriesByPopulation_absent_year_negative_topN :
    (∀ c ∈ sampleTable, c.2.lookup 1800 = none)
    ∧ getTopCountriesByPopulation sampleTable 1800 (-1) true 2 [0, 1] = none
    ∧ getTopCountriesByPopulation sampleTable 1800 (-1) false 2 [0, 1] = some []
    ∧ getTopCountriesByPopulation sampleTable 1800 3 true 2 [0, 1] = some [] := by
  decide

end PopulationData

/-! ## Field counts of the record parsers -/

namespace FireDataAnalyzer

theorem scan_fields_length (line : Str) :
    ∀ (st : ParseState) (n : Nat), st.fields.length = n →
      (line.foldl parseStep st).fields.length = (line.foldl commaStep (st.inQuotes, n)).2
      ∧ (line.foldl parseStep st).inQuotes = (line.foldl commaStep (st.inQuotes, n)).1 := by
  induction line with
  | nil => intro st n h; exact ⟨h, rfl⟩
  | cons c rest ih =>
    intro st n h
    rw [List.foldl_cons, List.foldl_cons]
    unfold parseStep commaStep
    by_cases hq : c = '"'
    · simp only [hq, if_true]
      exact ih _ n h
    · simp only [hq, if_false]
      by_cases hc : c = ',' ∧ st.inQuotes = false
      · simp only [hc, and_self, if_true]
        exact ih _ (n + 1) (by simp [h])
      · simp only [hc, if_false]
        exact ih _ n h

/-- C23. `FireDataAnalyzer::parseCSVLine` always emits the final field: for every
line the number of fields returned is the number of commas outside quoted
sections plus one, so the result is never empty, and the empty line yields
exactly one field, the empty string. -/
theorem fire_parseCSVLine_field_count (line : Str) :
    (parseCSVLine line).length = countOutsideCommas line + 1
    ∧ parseCSVLine line ≠ []
    ∧ parseCSVLine [] = [[]] := by
  have h := (scan_fields_length line
    { fields := [], inQuotes := false, currentField := [] } 0 rfl).1
  have hlen : (parseCSVLine line).length = countOutsideCommas line + 1 := by
    unfold parseCSVLine countOutsideCommas
    simp only [List.length_append, List.length_singleton]
    rw [h]
  refine ⟨hlen, ?_, by decide⟩
  intro hnil
  rw [hnil] at hlen
  simp at hlen

theorem stripOuterQuotes_cons_quote (tail : Str) :
    stripOuterQuotes ('"' :: tail)
      = if tail.getLast? = some '"' then tail.dropLast else tail := by
  unfold stripOuterQuotes
  simp

theorem stripOuterQuotes_of_not_quote (s : Str) (h : s.head? ≠ some '"') :
    stripOuterQuotes s = if s.getLast? = some '"' then s.dropLast else s := by
  unfold stripOuterQuotes
  simp only [h, if_false]

theorem cleanString_eq_stripOuterQuotes (s : Str) : cleanString s = stripOuterQuotes s := by
  cases s with
  | nil => rfl
  | cons c t =>
    by_cases hc : c = '"'
    · subst hc
      rw [stripOuterQuotes_cons_quote]
      unfold cleanString
      simp only [ne_eq, List.cons_ne_nil, not_false_eq_true, List.head?_cons, true_and, if_true,
        List.drop_one, List.tail_cons]
      by_cases hl : t.getLast? = some '"'
      · have hne : t ≠ [] := by
          intro h
          rw [h] at hl
          simp at hl
        rw [if_pos ⟨hne, hl⟩, if_pos hl]
      · rw [if_neg (fun h => hl h.2), if_neg hl]
    · have hh : (c :: t).head? ≠ some '"' := by
        simp [hc]
      rw [stripOuterQuotes_of_not_quote _ hh]
      unfold cleanString
      have h1 : ¬ ((c :: t) ≠ [] ∧ (c :: t).head? = some '"') := fun h => hh h.2
      simp only [h1, if_false]
      by_cases hl : (c :: t).getLast? = some '"'
      · rw [if_pos ⟨List.cons_ne_nil _ _, hl⟩, if_pos hl]
      · rw [if_neg (fun h => hl h.2), if_neg hl]

theorem dropLast_isInfix {α : Type} (l : List α) : l.dropLast <:+: l := by
  have h : l.dropLast <+: l := List.dropLast_prefix l
  exact h.isInfix

theorem stripOuterQuotes_isInfix (s : Str) : stripOuterQuotes s <:+: s := by
  cases s with
  | nil => exact List.infix_refl _
  | cons c t =>
    by_cases hc : c = '"'
    · subst hc
      rw [stripOuterQuotes_cons_quote]
      have ht : t <:+: '"' :: t := (List.suffix_cons _ _).isInfix
      split
      · exact (dropLast_isInfix t).trans ht
      · exact ht
    · have hh : (c :: t).head? ≠ some '"' := by
        simp [hc]
      rw [stripOuterQuotes_of_not_quote _ hh]
      split
      · exact dropLast_isInfix _
      · exact List.infix_refl _

theorem stripOuterQuotes_length (s : Str) : s.length ≤ (stripOuterQuotes s).length + 2 := by
  cases s with
  | nil => simp [stripOuterQuotes]
  | cons c t =>
    by_cases hc : c = '"'
    · subst hc
      rw [stripOuterQuotes_cons_quote]
      split
      · simp only [List.length_cons, List.length_dropLast]
        omega
      · simp
    · have hh : (c :: t).head? ≠ some '"' := by
        simp [hc]
      rw [stripOuterQuotes_of_not_quote _ hh]
      split
      · simp only [List.length_cons, List.length_dropLast]
        omega
      · simp

/-- C24. `cleanString` strips at most one leading and at most one trailing double
quote and nothing else: the result is `s` with its first character removed if
that is a quote, then its last remaining character removed if that is a
quote; it is a contiguous part of `s`, at most two characters shorter;
interior and doubled quotes are kept, and the single quote maps to the empty
string. -/
theorem cleanString_spec (s : Str) :
    cleanString s = stripOuterQuotes s
    ∧ cleanString s <:+: s
    ∧ s.length ≤ (cleanString s).length + 2
    ∧ cleanString ['"'] = []
    ∧ cleanString "a\"b".toList = "a\"b".toList
    ∧ cleanString "\"\"a\"\"".toList = "\"a\"".toList := by
  have h := cleanString_eq_stripOuterQuotes s
  refine ⟨h, ?_, ?_, by decide, by decide, by decide⟩
  · rw [h]; exact stripOuterQuotes_isInfix s
  · rw [h]; exact stripOuterQuotes_length s

end FireDataAnalyzer

namespace PopulationData

theorem scan_result_length (line : Str) :
    ∀ (st : ParseState) (n : Nat), st.result.length = n →
      (line.foldl parseStep st).result.length = (line.foldl commaStep (st.inQuotes, n)).2
      ∧ (line.foldl parseStep st).inQuotes = (line.foldl commaStep (st.inQuotes, n)).1 := by
  induction line with
  | nil => intro st n h; exact ⟨h, rfl⟩
  | cons c rest ih =>
    intro st n h
    rw [List.foldl_cons, List.foldl_cons]
    unfold parseStep commaStep
    by_cases hq : c = '"'
    · simp only [hq, if_true]
      exact ih _ n h
    · simp only [hq, if_false]
      by_cases hc : c = ',' ∧ st.inQuotes = false
      · simp only [hc, and_self, if_true]
        exact ih _ (n + 1) (by simp [h])
      · simp only [hc, if_false]
        exact ih _ n h

/-- C22 (as amended). The number of fields `PopulationData::parseCSVLine` returns is
the number of commas outside quoted sections plus one when the last field is
not empty, and just that number of commas when the last field is empty: the
final field is emitted only when it is not empty, and the empty line yields
no field. -/
theorem population_parseCSVLine_field_count (line : Str) :
    (parseCSVLine line).length
        = countOutsideCommas line + (if finalField line = [] then 0 else 1)
    ∧ parseCSVLine [] = [] := by
  refine ⟨?_, by decide⟩
  have h := (scan_result_length line { result := [], inQuotes := false, current := [] } 0
    rfl).1
  unfold parseCSVLine countOutsideCommas finalField
  simp only
  by_cases hcur :
      (line.foldl parseStep { result := [], inQuotes := false, current := [] }).current = []
  · simp only [hcur, ne_eq, not_true_eq_false, if_false, if_true, Nat.add_zero]
    exact h
  · simp only [hcur, ne_eq, not_false_eq_true, if_true, if_false, List.length_append,
      List.length_singleton]
    rw [h]

/-- C22, counterexample. The empty line yields no field, and the line `a,` with
one comma outside quotes yields one field, not two. -/
theorem population_parseCSVLine_omits_empty_final_field :
    parseCSVLine [] = []
    ∧ countOutsideCommas "a,".toList = 1
    ∧ parseCSVLine "a,".toList = ["a".toList]
    ∧ (parseCSVLine "a,".toList).length ≠ countOutsideCommas "a,".toList + 1 := by
  decide

theorem last_range_size (n w : Nat) (hw : 1 ≤ w) :
    rangeEnd n w (w - 1) - rangeStart n w (w - 1) = chunkSize n w + n % w := by
  unfold rangeEnd rangeStart chunkSize
  rw [if_pos rfl]
  obtain ⟨k, rfl⟩ : ∃ k, w = k + 1 := ⟨w - 1, by omega⟩
  have h1 := Nat.div_add_mod n (k + 1)
  simp only [Nat.add_sub_cancel]
  generalize n / (k + 1) = q at h1 ⊢
  generalize n % (k + 1) = r at h1 ⊢
  have h2 : (k + 1) * q = k * q + q := by ring
  omega

/-- C26 (as amended). For every `N` and `W` with `W ≥ 1` and
`chunkSize = floor(N / W) ≥ 1`, the last worker's range `[(W-1)*chunkSize, N)`
holds `chunkSize` rows plus a remainder of exactly `N mod W` rows. -/
theorem last_range_absorbs_remainder (N W : Nat) (hW : 1 ≤ W) (hc : 1 ≤ chunkSize N W) :
    rangeStart N W (W - 1) = (W - 1) * chunkSize N W
    ∧ rangeEnd N W (W - 1) = N
    ∧ rangeEnd N W (W - 1) - rangeStart N W (W - 1) = chunkSize N W + N % W := by
  have _ := hc
  refine ⟨rfl, ?_, last_range_size N W hW⟩
  unfold rangeEnd
  rw [if_pos rfl]

/-- Witness for C26 (as amended): ten rows over four workers. -/
theorem last_range_absorbs_remainder_witness :
    rangeStart 10 4 (4 - 1) = (4 - 1) * chunkSize 10 4
    ∧ rangeEnd 10 4 (4 - 1) = 10
    ∧ rangeEnd 10 4 (4 - 1) - rangeStart 10 4 (4 - 1) = chunkSize 10 4 + 10 % 4 :=
  last_range_absorbs_remainder 10 4 (by decide) (by decide)

/-- C26, counterexample. Ten rows over four workers: the chunk size is 2 and the
last range `[6, 10)` holds 4 rows, that is `chunkSize + 2`, while
`N mod chunkSize` is 0. -/
theorem last_range_remainder_is_not_mod_chunkSize :
    1 ≤ chunkSize 10 4
    ∧ rangeStart 10 4 3 = 6 ∧ rangeEnd 10 4 3 = 10
    ∧ rangeEnd 10 4 3 - rangeStart 10 4 3 = chunkSize 10 4 + 2
    ∧ 10 % chunkSize 10 4 = 0
    ∧ rangeEnd 10 4 3 - rangeStart 10 4 3 ≠ chunkSize 10 4 + 10 % chunkSize 10 4 := by
  decide

/-- C30, the code at the failing input. With `topN = -1` on the sample table of
three countries the parallel path computes the end offset
`min(topN, size) = -1`, outside `[0, size]`, and fails, while the serial path
does not resize and returns all three entries. -/
theorem getTopCountriesByPopulation_negative_topN :
    min (-1 : Int) (toInt32 3) = -1
    ∧ getTopCountriesByPopulation sampleTable 2020 (-1) true 2 [0, 1] = none
    ∧ getTopCountriesByPopulation sampleTable 2020 (-1) false 2 [0, 1]
        = some [("C".toList, 11), ("B".toList, 7), ("A".toList, 5)] := by
  decide

end PopulationData

/-! ## The year columns and the invariant of the population table -/

theorem getD_eq_of_take_eq {α : Type} (l l' : List α) (n i : Nat) (d : α)
    (h : l.take n = l'.take n) (hi : i < n) : l.getD i d = l'.getD i d := by
  have h1 : (l.take n)[i]? = l[i]? := by rw [List.getElem?_take, if_pos hi]
  have h2 : (l'.take n)[i]? = l'[i]? := by rw [List.getElem?_take, if_pos hi]
  rw [List.getD_eq_getElem?_getD, List.getD_eq_getElem?_getD, ← h1, ← h2, h]

theorem foldl_congr_mem {α β : Type} (f g : β → α → β) :
    ∀ (l : List α) (init : β), (∀ acc, ∀ a ∈ l, f acc a = g acc a) →
      l.foldl f init = l.foldl g init := by
  intro l
  induction l with
  | nil => intro init _; rfl
  | cons a l ih =>
    intro init h
    rw [List.foldl_cons, List.foldl_cons, h init a (List.mem_cons_self _ _)]
    exact ih _ (fun acc b hb => h acc b (List.mem_cons_of_mem _ hb))

theorem lookup_some_mem {κ ν : Type} [BEq κ] [LawfulBEq κ] [DecidableEq κ] (a : κ) (v : ν) :
    ∀ m : List (κ × ν), m.lookup a = some v → (a, v) ∈ m := by
  intro m
  induction m with
  | nil => intro h; simp at h
  | cons p rest ih =>
    obtain ⟨k, w⟩ := p
    intro h
    rw [lookup_cons_ite] at h
    by_cases hak : a = k
    · rw [if_pos hak] at h
      injection h with h
      rw [hak, h]
      exact List.mem_cons_self _ _
    · rw [if_neg hak] at h
      exact List.mem_cons_of_mem _ (ih h)

namespace PopulationData

theorem mem_assign {κ ν : Type} [DecidableEq κ] (key : κ) (value : ν) (x : κ × ν) :
    ∀ m : List (κ × ν), x ∈ assign key value m → x = (key, value) ∨ x ∈ m := by
  intro m
  induction m with
  | nil =>
    intro h
    simp only [assign, List.mem_singleton] at h
    exact Or.inl h
  | cons p rest ih =>
    obtain ⟨k, v⟩ := p
    intro h
    unfold assign at h
    by_cases hk : k = key
    · rw [if_pos hk] at h
      rcases List.mem_cons.1 h with h | h
      · exact Or.inl h
      · exact Or.inr (List.mem_cons_of_mem _ h)
    · rw [if_neg hk] at h
      rcases List.mem_cons.1 h with h | h
      · exact Or.inr (by rw [h]; exact List.mem_cons_self _ _)
      · rcases ih h with h | h
        · exact Or.inl h
        · exact Or.inr (List.mem_cons_of_mem _ h)

theorem validTable_storePopulation (code : Str) (year population : Int) (cd : CountryData)
    (hv : validTable cd) (hp : 0 < population) (hy : 1960 ≤ year ∧ year ≤ 2023) :
    validTable (storePopulation code year population cd) := by
  intro country hc entry he
  unfold storePopulation at hc
  rcases mem_assign _ _ _ _ hc with h | h
  · rw [h] at he
    simp only at he
    rcases mem_assign _ _ _ _ he with h' | h'
    · rw [h']
      exact ⟨hp, hy⟩
    · cases hl : cd.lookup code with
      | none =>
        rw [hl] at h'
        simp at h'
      | some m =>
        rw [hl] at h'
        exact hv (code, m) (lookup_some_mem code m cd hl) entry h'
  · exact hv country h entry he

theorem validTable_foldl_storeYear (code : Str) (fields : List Str) :
    ∀ (cols : List Nat) (cd : CountryData), validTable cd → (∀ i ∈ cols, 4 ≤ i ∧ i < 68) →
      validTable (cols.foldl (storeYear code fields) cd) := by
  intro cols
  induction cols with
  | nil => intro cd hv _; exact hv
  | cons i rest ih =>
    intro cd hv hcols
    rw [List.foldl_cons]
    apply ih _ _ (fun j hj => hcols j (List.mem_cons_of_mem _ hj))
    unfold storeYear
    have hi := hcols i (List.mem_cons_self _ _)
    by_cases hp : stringToLongLong (fields.getD i []) > 0
    · rw [if_pos hp]
      exact validTable_storePopulation code _ _ cd hv hp (by omega)
    · rw [if_neg hp]
      exact hv

theorem mem_yearColumns (n i : Nat) (h : i ∈ yearColumns n) : 4 ≤ i ∧ i < 68 := by
  unfold yearColumns at h
  rw [List.mem_range'_1] at h
  omega

theorem validTable_processLine (table : Table) (line : Str) (hv : validTable table.countryData) :
    validTable (processLine table line).countryData := by
  unfold processLine
  split
  · exact hv
  · split
    · exact hv
    · simp only
      split
      · exact hv
      · split
        · exact hv
        · exact validTable_foldl_storeYear _ _ _ _ hv (fun i hi => mem_yearColumns _ i hi)

theorem validTable_loadFromCSV (lines : List Str) :
    ∀ table : Table, validTable table.countryData →
      validTable (loadFromCSV table lines).countryData := by
  induction lines with
  | nil => intro table hv; exact hv
  | cons line rest ih =>
    intro table hv
    exact ih _ (validTable_processLine table line hv)

theorem getPopulation_of_valid (cd : CountryData) (hv : validTable cd) (code : Str)
    (year : Int) : getPopulation cd code year = -1 ∨ 0 < getPopulation cd code year := by
  unfold getPopulation
  cases hl : cd.lookup code with
  | none => exact Or.inl rfl
  | some m =>
    simp only
    cases hy : m.lookup year with
    | none => exact Or.inl rfl
    | some p =>
      exact Or.inr (hv (code, m) (lookup_some_mem code m cd hl) (year, p)
        (lookup_some_mem year p m hy)).1

/-- C27. Starting from the empty table, after any sequence of lines processed by
`loadFromCSV` every stored population is strictly positive and every stored
year lies in 1960..2023; hence `getPopulation(code, year)` returns `-1` or a
value `> 0`, never 0 and never another negative number. -/
theorem loadFromCSV_invariant (lines : List Str) :
    validTable (loadFromCSV emptyTable lines).countryData
    ∧ ∀ (code : Str) (year : Int),
        getPopulation (loadFromCSV emptyTable lines).countryData code year = -1
        ∨ 0 < getPopulation (loadFromCSV emptyTable lines).countryData code year := by
  have hv : validTable (loadFromCSV emptyTable lines).countryData :=
    validTable_loadFromCSV lines emptyTable (by
      intro country hc
      simp [emptyTable] at hc)
  exact ⟨hv, fun code year => getPopulation_of_valid _ hv code year⟩

/-- C25. After `loadFromCSV` has processed a data line with at least 68 fields,
country code `c = fields[1]` and indicator `Population, total`:
`getCountryName(c)` returns `fields[0]`; for every `k` in 0..63 whose field
`4 + k` converts to a positive integer `v`, `getPopulation(c, 1960 + k)`
returns `v`; and the fields at index 68 and beyond are ignored. -/
theorem processLine_year_mapping (table : Table) (line : Str) (h : acceptedLine line) :
    getCountryName (processLine table line).countryNames ((parseCSVLine line).getD 1 [])
        = (parseCSVLine line).getD 0 []
    ∧ (∀ (k : Nat) (v : Int), k < 64 →
        stringToLongLong ((parseCSVLine line).getD (4 + k) []) = v → 0 < v →
        getPopulation (processLine table line).countryData ((parseCSVLine line).getD 1 [])
          (1960 + (k : Int)) = v)
    ∧ (∀ line' : Str, acceptedLine line' →
        (parseCSVLine line').take 68 = (parseCSVLine line).take 68 →
        processLine table line' = processLine table line) := by
  refine ⟨?_, ?_, ?_⟩
  · rw [processLine_accepted table line h]
    unfold getCountryName
    simp only
    rw [lookup_assign, if_pos rfl]
  · intro k v hk hv hpos
    rw [processLine_accepted table line h]
    have hmem : 4 + k ∈ List.range' 4 64 := by
      rw [List.mem_range'_1]
      omega
    have := getPopulation_foldl_storeYear ((parseCSVLine line).getD 1 []) (parseCSVLine line)
      (4 + k) (List.range' 4 64) table.countryData (List.nodup_range' 4 64) hmem
    have hy : (1960 : Int) + (((4 + k : Nat) : Int) - 4) = 1960 + (k : Int) := by
      push_cast
      ring
    rw [hy, hv, if_pos hpos] at this
    exact this
  · intro line' h' htake
    rw [processLine_accepted table line h, processLine_accepted table line' h']
    have h0 := getD_eq_of_take_eq _ _ 68 0 [] htake (by decide)
    have h1 := getD_eq_of_take_eq _ _ 68 1 [] htake (by decide)
    rw [h0, h1]
    congr 1
    apply foldl_congr_mem
    intro acc i hi
    have hi' : i < 68 := by
      rw [List.mem_range'_1] at hi
      omega
    unfold storeYear
    rw [getD_eq_of_take_eq _ _ 68 i [] htake hi']

set_option maxRecDepth 100000 in
/-- Witness for C25: the line whose only filled year cell is 1960, and the line of
70 cells with the same first 68 cells. -/
theorem processLine_year_mapping_witness :
    getCountryName (processLine emptyTable partialRow).countryNames
        ((parseCSVLine partialRow).getD 1 [])
        = (parseCSVLine partialRow).getD 0 []
    ∧ (∀ (k : Nat) (v : Int), k < 64 →
        stringToLongLong ((parseCSVLine partialRow).getD (4 + k) []) = v → 0 < v →
        getPopulation (processLine emptyTable partialRow).countryData
          ((parseCSVLine partialRow).getD 1 []) (1960 + (k : Int)) = v)
    ∧ (acceptedLine longRow →
        (parseCSVLine longRow).take 68 = (parseCSVLine partialRow).take 68 →
        processLine emptyTable longRow = processLine emptyTable partialRow)
    ∧ acceptedLine longRow
    ∧ (parseCSVLine longRow).take 68 = (parseCSVLine partialRow).take 68
    ∧ (parseCSVLine longRow).length = 70
    ∧ stringToLongLong ((parseCSVLine partialRow).getD 4 []) = 54608 :=
  ⟨(processLine_year_mapping emptyTable partialRow (by decide)).1,
    (processLine_year_mapping emptyTable partialRow (by decide)).2.1,
    (processLine_year_mapping emptyTable partialRow (by decide)).2.2 longRow,
    by decide, by decide, by decide, by decide⟩

end PopulationData

/-! ## The invariant of the fire-data table -/

namespace FireDataAnalyzer

theorem buildRecord_datetime (stod : Str → Option ℚ) (fields : List Str)
    (record : AirQualityRecord) (h : buildRecord stod fields = some record) :
    record.datetime = fields.getD 2 [] := by
  unfold buildRecord at h
  split at h
  · injection h with h
    rw [← h]
  · exact absurd h (by simp)

theorem parseLines_filter (stod : Str → Option ℚ) :
    ∀ (lines : List Str) (localRecords : List AirQualityRecord),
      parseLines stod lines = some localRecords →
      localRecords.filter (fun rec => rec.datetime ≠ []) = lines.filterMap (lineRecord stod) := by
  intro lines
  induction lines with
  | nil =>
    intro locals h
    simp only [parseLines, Option.some.injEq] at h
    rw [← h]
    rfl
  | cons line rest ih =>
    intro locals h
    unfold parseLines at h
    cases hr : parseRecord stod line with
    | none => rw [hr] at h; exact absurd h (by simp)
    | some record =>
      cases hrest : parseLines stod rest with
      | none => rw [hr, hrest] at h; exact absurd h (by simp)
      | some records =>
        rw [hr, hrest] at h
        simp only [Option.some.injEq] at h
        rw [← h, List.filter_cons, List.filterMap_cons, ih records hrest]
        unfold parseRecord at hr
        simp only at hr
        unfold lineRecord
        by_cases hlen : 13 ≤ (parseCSVLine line).length
        · rw [if_pos hlen] at hr
          have hd := buildRecord_datetime stod _ record hr
          by_cases hne : (parseCSVLine line).getD 2 [] = []
          · have h1 : decide (record.datetime ≠ []) = false := by
              rw [hd, hne]; rfl
            simp only [h1, Bool.false_eq_true, if_false]
            rw [if_neg (fun hc => hc.2 hne)]
          · have h1 : decide (record.datetime ≠ []) = true := by
              rw [hd]; exact decide_eq_true hne
            simp only [h1, if_true]
            rw [if_pos ⟨hlen, hne⟩, hr]
        · rw [if_neg hlen] at hr
          simp only [Option.some.injEq] at hr
          have h1 : decide (record.datetime ≠ []) = false := by
            rw [← hr]; rfl
          simp only [h1, Bool.false_eq_true, if_false]
          rw [if_neg (fun hc => hlen hc.1)]

theorem parseLines_none (stod : Str → Option ℚ) :
    ∀ lines : List Str, parseLines stod lines = none →
      ∃ line ∈ lines, 13 ≤ (parseCSVLine line).length
        ∧ ¬ numericFieldsConvert stod (parseCSVLine line) := by
  intro lines
  induction lines with
  | nil => intro h; simp [parseLines] at h
  | cons line rest ih =>
    intro h
    unfold parseLines at h
    cases hr : parseRecord stod line with
    | none =>
      refine ⟨line, List.mem_cons_self _ _, ?_⟩
      unfold parseRecord at hr
      simp only at hr
      by_cases hlen : 13 ≤ (parseCSVLine line).length
      · rw [if_pos hlen] at hr
        refine ⟨hlen, fun hconv => ?_⟩
        obtain ⟨r, hb, _⟩ := buildRecord_of_convert stod _ hconv
        rw [hb] at hr
        exact absurd hr (by simp)
      · rw [if_neg hlen] at hr
        exact absurd hr (by simp)
    | some record =>
      cases hrest : parseLines stod rest with
      | none =>
        obtain ⟨l, hl, hprop⟩ := ih hrest
        exact ⟨l, List.mem_cons_of_mem _ hl, hprop⟩
      | some records =>
        rw [hr, hrest] at h
        exact absurd h (by simp)

theorem mem_lineRecord_datetime (stod : Str → Option ℚ) (lines : List Str)
    (r : AirQualityRecord) (h : r ∈ lines.filterMap (lineRecord stod)) : r.datetime ≠ [] := by
  obtain ⟨line, _, hl⟩ := List.mem_filterMap.1 h
  unfold lineRecord at hl
  by_cases hc : 13 ≤ (parseCSVLine line).length ∧ (parseCSVLine line).getD 2 [] ≠ []
  · rw [if_pos hc] at hl
    rw [buildRecord_datetime stod _ r hl]
    exact hc.2
  · rw [if_neg hc] at hl
    exact absurd hl (by simp)

/-- C28. Every record that `loadCSVFile` appends has a non-empty `datetime`; a line
with at least 13 fields and convertible numeric fields but an empty third
field adds no record; and the records added are, in the order of their lines,
those of the lines with at least 13 fields and a non-empty third field. The
load returns unless the conversion of some line throws. -/
theorem loadCSVFile_invariant (stod : Str → Option ℚ) (records : List AirQualityRecord)
    (lines : List Str) :
    (loadCSVFile stod records lines = none
      ↔ ∃ line ∈ lines, 13 ≤ (parseCSVLine line).length
          ∧ ¬ numericFieldsConvert stod (parseCSVLine line))
    ∧ (∀ records', loadCSVFile stod records lines = some records' →
        records' = records ++ lines.filterMap (lineRecord stod))
    ∧ (∀ r ∈ lines.filterMap (lineRecord stod), r.datetime ≠ [])
    ∧ (∀ line ∈ lines, wellFormedLine stod line → (parseCSVLine line).getD 2 [] = [] →
        lineRecord stod line = none) := by
  refine ⟨⟨?_, loadCSVFile_throws stod records lines⟩, ?_,
    fun r hr => mem_lineRecord_datetime stod lines r hr, ?_⟩
  · intro h
    apply parseLines_none stod lines
    unfold loadCSVFile at h
    cases hp : parseLines stod lines with
    | none => rfl
    | some locals => rw [hp] at h; exact absurd h (by simp)
  · intro records' h
    unfold loadCSVFile at h
    cases hp : parseLines stod lines with
    | none => rw [hp] at h; exact absurd h (by simp)
    | some locals =>
      rw [hp] at h
      simp only [Option.some.injEq] at h
      rw [← h, parseLines_filter stod lines locals hp]
  · intro line _ _ hempty
    unfold lineRecord
    rw [if_neg (fun hc => hc.2 hempty)]

/-- Witness for C28: a row without timestamp between two rows with one. -/
theorem loadCSVFile_invariant_witness :
    loadCSVFile decimalStod [] [goodLine, noDatetimeLine, goodLine]
        = some ([] ++ [goodLine, noDatetimeLine, goodLine].filterMap (lineRecord decimalStod))
    ∧ ([goodLine, noDatetimeLine, goodLine].filterMap (lineRecord decimalStod)).length = 2
    ∧ lineRecord decimalStod noDatetimeLine = none :=
  ⟨by
      have h := (loadCSVFile_invariant decimalStod [] [goodLine, noDatetimeLine, goodLine]).2.1
      cases hl : loadCSVFile decimalStod [] [goodLine, noDatetimeLine, goodLine] with
      | none => exact absurd hl (by decide)
      | some r => rw [h r hl],
    by decide,
    (loadCSVFile_invariant decimalStod [] [goodLine, noDatetimeLine, goodLine]).2.2.2
      noDatetimeLine (by decide) (by decide) (by decide)⟩

end FireDataAnalyzer

/-! ## Global growth, and the pthread variant on an empty table -/

namespace PopulationData

/-! ### Rounding to `double` -/

theorem roundHalfEven_floor_le (y : ℚ) : ⌊y⌋ ≤ roundHalfEven y := by
  unfold roundHalfEven
  split_ifs <;> omega

theorem roundHalfEven_le_floor_succ (y : ℚ) : roundHalfEven y ≤ ⌊y⌋ + 1 := by
  unfold roundHalfEven
  split_ifs <;> omega

theorem roundHalfEven_intCast (m : Int) : roundHalfEven (m : ℚ) = m := by
  unfold roundHalfEven
  simp

theorem roundHalfEven_ge (y : ℚ) (n : Int) (h : (n : ℚ) ≤ y) : n ≤ roundHalfEven y :=
  le_trans (Int.le_floor.2 h) (roundHalfEven_floor_le y)

theorem roundHalfEven_le (y : ℚ) (n : Int) (h : y ≤ (n : ℚ)) : roundHalfEven y ≤ n := by
  rcases eq_or_lt_of_le h with h | h
  · rw [h, roundHalfEven_intCast]
  · have := Int.floor_lt.2 h
    have := roundHalfEven_le_floor_succ y
    omega

/-- An integer that lies less than one half from `y` is the rounding of `y`. -/
theorem roundHalfEven_eq_of_lt (y : ℚ) (m : Int) (h : |y - m| < 1 / 2) :
    roundHalfEven y = m := by
  rw [abs_lt] at h
  rcases le_or_lt (m : ℚ) y with hm | hm
  · have hf : ⌊y⌋ = m := by
      rw [Int.floor_eq_iff]
      constructor
      · exact hm
      · linarith [h.2]
    unfold roundHalfEven
    rw [hf, if_pos (by linarith [h.2])]
  · have hf : ⌊y⌋ = m - 1 := by
      rw [Int.floor_eq_iff]
      push_cast
      constructor
      · linarith [h.1]
      · linarith
    unfold roundHalfEven
    rw [hf]
    push_cast
    rw [if_neg (by linarith [h.1]), if_pos (by linarith [h.1])]
    omega

/-- The rounding of `y` lies at most one half from `y`. -/
theorem roundHalfEven_abs_sub_le (y : ℚ) : |(roundHalfEven y : ℚ) - y| ≤ 1 / 2 := by
  have h1 := Int.floor_le y
  have h2 := Int.lt_floor_add_one y
  unfold roundHalfEven
  rw [abs_le]
  split_ifs with ha hb hc
  · constructor <;> linarith
  · push_cast
    constructor <;> linarith
  · constructor <;> linarith
  · push_cast
    constructor <;> linarith

theorem two_zpow_pos (k : Int) : (0 : ℚ) < 2 ^ k := zpow_pos (by norm_num) k

theorem log_two_le (x : ℚ) (k : Int) (hx : x ≠ 0) (h : |x| ≤ 2 ^ k) : Int.log 2 |x| ≤ k := by
  have hpos : 0 < |x| := abs_pos.2 hx
  have h1 : |x| < ((2 : ℕ) : ℚ) ^ (k + 1) := by
    have : (2 : ℚ) ^ k < 2 ^ (k + 1) := zpow_lt_zpow_right₀ (by norm_num) (by omega)
    simpa using lt_of_le_of_lt h this
  have := (Int.lt_zpow_iff_log_lt (by norm_num : 1 < 2) hpos).1 h1
  omega

theorem le_log_two (x : ℚ) (k : Int) (h : 2 ^ k ≤ |x|) : k ≤ Int.log 2 |x| := by
  have hpos : 0 < |x| := lt_of_lt_of_le (two_zpow_pos k) h
  have h1 : ((2 : ℕ) : ℚ) ^ k ≤ |x| := by simpa using h
  exact (Int.zpow_le_iff_le_log (by norm_num : 1 < 2) hpos).1 h1

theorem log_two_eq (x : ℚ) (e : Int) (h1 : 2 ^ e ≤ |x|) (h2 : |x| < 2 ^ (e + 1)) :
    Int.log 2 |x| = e := by
  have hpos : 0 < |x| := lt_of_lt_of_le (two_zpow_pos e) h1
  have ha := le_log_two x e h1
  have h3 : |x| < ((2 : ℕ) : ℚ) ^ (e + 1) := by simpa using h2
  have hb := (Int.lt_zpow_iff_log_lt (by norm_num : 1 < 2) hpos).1 h3
  omega

theorem two_zpow_log_le (x : ℚ) (hx : x ≠ 0) : (2 : ℚ) ^ Int.log 2 |x| ≤ |x| := by
  have := Int.zpow_log_le_self (by norm_num : 1 < 2) (abs_pos.2 hx)
  simpa using this

theorem roundToDouble_zero : roundToDouble 0 = 0 := by
  unfold roundToDouble
  rw [if_pos rfl]

theorem roundToDouble_of_ne (x : ℚ) (hx : x ≠ 0) :
    roundToDouble x = (roundHalfEven (x / 2 ^ (max (Int.log 2 |x|) (-1022) - 52)) : ℚ)
      * 2 ^ (max (Int.log 2 |x|) (-1022) - 52) := by
  unfold roundToDouble
  rw [if_neg hx]

theorem abs_roundHalfEven_le (y : ℚ) (n : Int) (h : |y| ≤ (n : ℚ)) :
    |((roundHalfEven y : Int) : ℚ)| ≤ (n : ℚ) := by
  rw [abs_le] at h ⊢
  have h1 : ((-n : Int) : ℚ) ≤ y := by push_cast; exact h.1
  have := roundHalfEven_ge y (-n) h1
  have := roundHalfEven_le y n h.2
  constructor
  · exact_mod_cast (by omega : -n ≤ roundHalfEven y)
  · exact_mod_cast (by omega : roundHalfEven y ≤ n)

theorem le_abs_roundHalfEven (y : ℚ) (n : Int) (h : (n : ℚ) ≤ |y|) :
    (n : ℚ) ≤ |((roundHalfEven y : Int) : ℚ)| := by
  rcases le_abs.1 h with h | h
  · have := roundHalfEven_ge y n h
    exact le_trans (by exact_mod_cast this) (le_abs_self _)
  · have h1 : y ≤ ((-n : Int) : ℚ) := by push_cast; linarith
    have := roundHalfEven_le y (-n) h1
    have h2 : (n : ℚ) ≤ -((roundHalfEven y : Int) : ℚ) := by
      have : n ≤ -roundHalfEven y := by omega
      exact_mod_cast this
    exact le_trans h2 (neg_le_abs _)

/-- Rounding to a `double` keeps a magnitude at or below a power of two there. -/
theorem roundToDouble_abs_le (x : ℚ) (k : Int) (hk : -1022 ≤ k) (h : |x| ≤ 2 ^ k) :
    |roundToDouble x| ≤ 2 ^ k := by
  by_cases hx : x = 0
  · rw [hx, roundToDouble_zero, abs_zero]
    exact le_of_lt (two_zpow_pos k)
  · rw [roundToDouble_of_ne x hx]
    have hL := log_two_le x k hx h
    generalize he : max (Int.log 2 |x|) (-1022) = e
    have hek : e ≤ k := by rw [← he]; exact max_le hL hk
    have hq := two_zpow_pos (e - 52)
    obtain ⟨n, hn⟩ : ∃ n : ℕ, k - (e - 52) = (n : Int) := ⟨(k - (e - 52)).toNat, by omega⟩
    have hpow : (2 : ℚ) ^ k = ((2 ^ n : Int) : ℚ) * 2 ^ (e - 52) := by
      have : k = (n : Int) + (e - 52) := by omega
      rw [this, zpow_add₀ (by norm_num), zpow_natCast]
      push_cast
      rfl
    have hy : |x / 2 ^ (e - 52)| ≤ ((2 ^ n : Int) : ℚ) := by
      rw [abs_div, abs_of_pos hq, div_le_iff₀ hq, ← hpow]
      exact h
    have hm := abs_roundHalfEven_le _ _ hy
    rw [abs_mul, abs_of_pos hq, hpow]
    exact mul_le_mul_of_nonneg_right hm (le_of_lt hq)

/-- Rounding to a `double` keeps a magnitude at or above a power of two (of the
normal range) there. -/
theorem roundToDouble_abs_ge (x : ℚ) (k : Int) (hk : -1022 ≤ k) (h : 2 ^ k ≤ |x|) :
    2 ^ k ≤ |roundToDouble x| := by
  have hpos : 0 < |x| := lt_of_lt_of_le (two_zpow_pos k) h
  have hx : x ≠ 0 := abs_pos.1 hpos
  rw [roundToDouble_of_ne x hx]
  have hL := le_log_two x k h
  have h2 := two_zpow_log_le x hx
  generalize Int.log 2 |x| = L at hL h2
  rw [max_eq_left (by omega : (-1022 : Int) ≤ L)]
  have hq := two_zpow_pos (L - 52)
  have hpow : (2 : ℚ) ^ L = ((2 ^ 52 : Int) : ℚ) * 2 ^ (L - 52) := by
    have : L = (52 : Int) + (L - 52) := by omega
    conv_lhs => rw [this, zpow_add₀ (by norm_num : (2 : ℚ) ≠ 0)]
    norm_num
  have hy : ((2 ^ 52 : Int) : ℚ) ≤ |x / 2 ^ (L - 52)| := by
    rw [abs_div, abs_of_pos hq, le_div_iff₀ hq, ← hpow]
    exact h2
  have hm := le_abs_roundHalfEven _ _ hy
  rw [abs_mul, abs_of_pos hq]
  calc (2 : ℚ) ^ k ≤ 2 ^ L := zpow_le_zpow_right₀ (by norm_num) hL
    _ = ((2 ^ 52 : Int) : ℚ) * 2 ^ (L - 52) := hpow
    _ ≤ _ := mul_le_mul_of_nonneg_right hm (le_of_lt hq)

/-- The value of `roundToDouble x` from the binary exponent `e` of `x` and the
integer `m` nearest to `x / 2^(e - 52)`. -/
theorem roundToDouble_eq_of (x : ℚ) (e m : Int) (he : -1022 ≤ e) (h1 : 2 ^ e ≤ |x|)
    (h2 : |x| < 2 ^ (e + 1)) (hm : |x / 2 ^ (e - 52) - m| < 1 / 2) :
    roundToDouble x = (m : ℚ) * 2 ^ (e - 52) := by
  have hpos : 0 < |x| := lt_of_lt_of_le (two_zpow_pos e) h1
  rw [roundToDouble_of_ne x (abs_pos.1 hpos), log_two_eq x e h1 h2, max_eq_left he,
    roundHalfEven_eq_of_lt _ m hm]

/-- An integer below `2^53` in magnitude is a `double`. -/
theorem roundToDouble_intCast (n : Int) (h : |n| < 2 ^ 53) : roundToDouble (n : ℚ) = n := by
  by_cases hn : n = 0
  · rw [hn]
    exact roundToDouble_zero
  · have hx : (n : ℚ) ≠ 0 := by exact_mod_cast hn
    rw [roundToDouble_of_ne _ hx]
    have h1 : (2 : ℚ) ^ (0 : Int) ≤ |(n : ℚ)| := by
      have : (1 : Int) ≤ |n| := Int.one_le_abs hn
      rw [zpow_zero]
      exact_mod_cast this
    have hL0 := le_log_two _ 0 h1
    have hL1 : Int.log 2 |(n : ℚ)| < 53 := by
      have hpos : 0 < |(n : ℚ)| := abs_pos.2 hx
      have h3 : |(n : ℚ)| < ((2 : ℕ) : ℚ) ^ (53 : Int) := by
        have : ((|n| : Int) : ℚ) < ((2 ^ 53 : Int) : ℚ) := by exact_mod_cast h
        rw [Int.cast_abs] at this
        norm_num at this ⊢
        exact this
      exact (Int.lt_zpow_iff_log_lt (by norm_num : 1 < 2) hpos).1 h3
    generalize Int.log 2 |(n : ℚ)| = L at hL0 hL1
    rw [max_eq_left (by omega : (-1022 : Int) ≤ L)]
    obtain ⟨j, hj⟩ : ∃ j : ℕ, 52 - L = (j : Int) := ⟨(52 - L).toNat, by omega⟩
    have hq : (2 : ℚ) ^ (L - 52) = ((2 : ℚ) ^ j)⁻¹ := by
      have : L - 52 = -(j : Int) := by omega
      rw [this, zpow_neg, zpow_natCast]
    rw [hq]
    have hy : (n : ℚ) / ((2 : ℚ) ^ j)⁻¹ = ((n * 2 ^ j : Int) : ℚ) := by
      push_cast
      rw [div_inv_eq_mul]
    rw [hy, roundHalfEven_intCast]
    push_cast
    field_simp

/-! ### The growth rates -/

theorem doubleGrowthRate_100_150 : doubleGrowthRate 100 150 = 50 := by
  unfold doubleGrowthRate
  have hd : toLongLong (150 - 100) = 50 := by decide
  rw [hd, roundToDouble_intCast 50 (by decide), roundToDouble_intCast 100 (by decide)]
  have h1 : roundToDouble (((50 : Int) : ℚ) / ((100 : Int) : ℚ)) = 1 / 2 := by
    rw [roundToDouble_eq_of _ (-1) (2 ^ 52) (by decide) (by norm_num [abs_of_pos])
      (by norm_num [abs_of_pos]) (by norm_num [abs_of_pos])]
    norm_num
  rw [h1]
  have h2 : roundToDouble ((1 / 2 : ℚ) * 100) = 50 := by
    have : ((1 / 2 : ℚ) * 100) = ((50 : Int) : ℚ) := by norm_num
    rw [this, roundToDouble_intCast 50 (by decide)]
    norm_num
  exact h2

theorem doubleGrowthRate_200_180 : doubleGrowthRate 200 180 = -10 := by
  unfold doubleGrowthRate
  have hd : toLongLong (180 - 200) = -20 := by decide
  rw [hd, roundToDouble_intCast (-20) (by decide), roundToDouble_intCast 200 (by decide)]
  have h1 : roundToDouble (((-20 : Int) : ℚ) / ((200 : Int) : ℚ))
      = ((-7205759403792794 : Int) : ℚ) * 2 ^ ((-4 : Int) - 52) := by
    apply roundToDouble_eq_of _ (-4) _ (by decide)
    · norm_num [abs_of_pos]
    · norm_num [abs_of_pos]
    · norm_num [abs_lt]
  rw [h1]
  have h2 : roundToDouble (((-7205759403792794 : Int) : ℚ) * 2 ^ ((-4 : Int) - 52) * 100)
      = ((-5629499534213120 : Int) : ℚ) * 2 ^ ((3 : Int) - 52) := by
    apply roundToDouble_eq_of _ 3 _ (by decide)
    · norm_num [abs_of_pos]
    · norm_num [abs_of_pos]
    · norm_num [abs_lt]
  rw [h2]
  norm_num

/-- The quotient and the product of the growth rate of one population pair. -/
theorem doubleGrowthRate_step (s e m₁ e₁ m₂ e₂ : Int) (hs : |s| < 2 ^ 53)
    (hd : toLongLong (e - s) = e - s) (hd' : |e - s| < 2 ^ 53)
    (he₁ : -1022 ≤ e₁) (he₂ : -1022 ≤ e₂)
    (h1 : 2 ^ e₁ ≤ |((e - s : Int) : ℚ) / (s : ℚ)|)
    (h2 : |((e - s : Int) : ℚ) / (s : ℚ)| < 2 ^ (e₁ + 1))
    (h3 : |((e - s : Int) : ℚ) / (s : ℚ) / 2 ^ (e₁ - 52) - m₁| < 1 / 2)
    (h4 : 2 ^ e₂ ≤ |(m₁ : ℚ) * 2 ^ (e₁ - 52) * 100|)
    (h5 : |(m₁ : ℚ) * 2 ^ (e₁ - 52) * 100| < 2 ^ (e₂ + 1))
    (h6 : |(m₁ : ℚ) * 2 ^ (e₁ - 52) * 100 / 2 ^ (e₂ - 52) - m₂| < 1 / 2) :
    doubleGrowthRate s e = (m₂ : ℚ) * 2 ^ (e₂ - 52) := by
  unfold doubleGrowthRate
  rw [hd, roundToDouble_intCast _ hd', roundToDouble_intCast _ hs,
    roundToDouble_eq_of _ e₁ m₁ he₁ h1 h2 h3, roundToDouble_eq_of _ e₂ m₂ he₂ h4 h5 h6]

/-- Two population pairs with different exact growth rates whose `double` growth
rates are the same: rounding creates ties. -/
theorem doubleGrowthRate_tie :
    doubleGrowthRate 577092741 594405523 = doubleGrowthRate 1380004385 1421404516
    ∧ ((594405523 - 577092741 : ℚ) / 577092741 * 100
        < (1421404516 - 1380004385 : ℚ) / 1380004385 * 100) := by
  constructor
  · rw [doubleGrowthRate_step 577092741 594405523 8646911169677292 (-6) 6755399351310384 1
        (by decide) (by decide) (by decide) (by decide) (by decide)
        (by norm_num [abs_of_pos]) (by norm_num [abs_of_pos]) (by norm_num [abs_lt])
        (by norm_num [abs_of_pos]) (by norm_num [abs_of_pos]) (by norm_num [abs_lt]),
      doubleGrowthRate_step 1380004385 1421404516 8646911169677292 (-6) 6755399351310384 1
        (by decide) (by decide) (by decide) (by decide) (by decide)
        (by norm_num [abs_of_pos]) (by norm_num [abs_of_pos]) (by norm_num [abs_lt])
        (by norm_num [abs_of_pos]) (by norm_num [abs_of_pos]) (by norm_num [abs_lt])]
  · norm_num

/-- A `double` of the normal range differs from the number it rounds by at most
`2^-53` of that number. -/
theorem roundToDouble_rel_error (x : ℚ) (h : 2 ^ (-1022 : Int) ≤ |x|) :
    |roundToDouble x - x| ≤ 2 ^ (-53 : Int) * |x| := by
  have hpos : 0 < |x| := lt_of_lt_of_le (two_zpow_pos _) h
  have hx : x ≠ 0 := abs_pos.1 hpos
  rw [roundToDouble_of_ne x hx]
  have hL := le_log_two x (-1022) h
  have h2 := two_zpow_log_le x hx
  generalize Int.log 2 |x| = L at hL h2
  rw [max_eq_left hL]
  have hq := two_zpow_pos (L - 52)
  have hm := roundHalfEven_abs_sub_le (x / 2 ^ (L - 52))
  have h3 : (roundHalfEven (x / 2 ^ (L - 52)) : ℚ) * 2 ^ (L - 52) - x
      = ((roundHalfEven (x / 2 ^ (L - 52)) : ℚ) - x / 2 ^ (L - 52)) * 2 ^ (L - 52) := by
    field_simp
  rw [h3, abs_mul, abs_of_pos hq]
  have hpow : (2 : ℚ) ^ (L - 52) = 2 * (2 ^ (-53 : Int) * 2 ^ L) := by
    have : L - 52 = 1 + (-53 + L) := by omega
    rw [this, zpow_add₀ (by norm_num : (2 : ℚ) ≠ 0), zpow_add₀ (by norm_num : (2 : ℚ) ≠ 0),
      zpow_one]
  calc |(roundHalfEven (x / 2 ^ (L - 52)) : ℚ) - x / 2 ^ (L - 52)| * 2 ^ (L - 52)
      ≤ 1 / 2 * 2 ^ (L - 52) := mul_le_mul_of_nonneg_right hm (le_of_lt hq)
    _ = 2 ^ (-53 : Int) * 2 ^ L := by rw [hpow]; ring
    _ ≤ 2 ^ (-53 : Int) * |x| := mul_le_mul_of_nonneg_left h2 (le_of_lt (two_zpow_pos _))

/-- The error of a quotient of two rounded numbers. -/
theorem quotient_error (A B d s u : ℚ) (hs : 0 < s) (hu0 : 0 ≤ u) (hu1 : u < 1)
    (hA : |A - d| ≤ u * |d|) (hB : |B - s| ≤ u * s) :
    |A / B - d / s| ≤ 2 * u / (1 - u) * |d / s| := by
  have hBlo : (1 - u) * s ≤ B := by
    have := (abs_le.1 hB).1
    linarith
  have h1u : 0 < 1 - u := by linarith
  have hBpos : 0 < B := lt_of_lt_of_le (mul_pos h1u hs) hBlo
  have hdiff : A / B - d / s = ((A - d) * s - d * (B - s)) / (B * s) := by
    field_simp
    ring
  have hnum : |(A - d) * s - d * (B - s)| ≤ 2 * u * |d| * s := by
    calc |(A - d) * s - d * (B - s)| ≤ |(A - d) * s| + |d * (B - s)| := abs_sub _ _
      _ = |A - d| * s + |d| * |B - s| := by rw [abs_mul, abs_mul, abs_of_pos hs]
      _ ≤ u * |d| * s + |d| * (u * s) := by
        apply add_le_add
        · exact mul_le_mul_of_nonneg_right hA (le_of_lt hs)
        · exact mul_le_mul_of_nonneg_left hB (abs_nonneg d)
      _ = 2 * u * |d| * s := by ring
  rw [hdiff, abs_div, abs_of_pos (mul_pos hBpos hs), abs_div, abs_of_pos hs,
    div_le_iff₀ (mul_pos hBpos hs)]
  calc |(A - d) * s - d * (B - s)| ≤ 2 * u * |d| * s := hnum
    _ = 2 * u / (1 - u) * (|d| / s) * ((1 - u) * s * s) := by
      field_simp
      ring
    _ ≤ 2 * u / (1 - u) * (|d| / s) * (B * s) := by
      apply mul_le_mul_of_nonneg_left
      · exact mul_le_mul_of_nonneg_right hBlo (le_of_lt hs)
      · apply mul_nonneg
        · exact div_nonneg (by linarith) (le_of_lt h1u)
        · exact div_nonneg (abs_nonneg d) (le_of_lt hs)

/-- The quotient of the converted difference and the converted divisor of a growth
rate lies in the normal range of `double`. -/
theorem growth_quotient_ge (s d : Int) (hs0 : 0 < s) (hs1 : s < 2 ^ 63) (hd : d ≠ 0) :
    (2 : ℚ) ^ (-63 : Int) ≤ |roundToDouble (d : ℚ) / roundToDouble (s : ℚ)| := by
  have hA : (2 : ℚ) ^ (0 : Int) ≤ |roundToDouble (d : ℚ)| := by
    apply roundToDouble_abs_ge _ 0 (by decide)
    have : (1 : Int) ≤ |d| := Int.one_le_abs hd
    rw [zpow_zero, ← Int.cast_abs]
    exact_mod_cast this
  have hB1 : (2 : ℚ) ^ (0 : Int) ≤ |roundToDouble (s : ℚ)| := by
    apply roundToDouble_abs_ge _ 0 (by decide)
    have : (1 : Int) ≤ |s| := Int.one_le_abs (by omega)
    rw [zpow_zero, ← Int.cast_abs]
    exact_mod_cast this
  have hB2 : |roundToDouble (s : ℚ)| ≤ (2 : ℚ) ^ (63 : Int) := by
    apply roundToDouble_abs_le _ 63 (by decide)
    have : |s| ≤ 2 ^ 63 := by rw [abs_of_pos hs0]; omega
    have h3 : ((|s| : Int) : ℚ) ≤ ((2 ^ 63 : Int) : ℚ) := by exact_mod_cast this
    rw [Int.cast_abs] at h3
    norm_num at h3 ⊢
    exact h3
  rw [zpow_zero] at hA hB1
  have hBpos : 0 < |roundToDouble (s : ℚ)| := lt_of_lt_of_le one_pos hB1
  rw [abs_div, le_div_iff₀ hBpos]
  calc (2 : ℚ) ^ (-63 : Int) * |roundToDouble (s : ℚ)|
      ≤ 2 ^ (-63 : Int) * 2 ^ (63 : Int) :=
        mul_le_mul_of_nonneg_left hB2 (le_of_lt (two_zpow_pos _))
    _ = 1 := by norm_num
    _ ≤ _ := hA

/-- For populations in the range of `long long`, the first one positive, the growth
rate is zero exactly when the two populations are the same. -/
theorem doubleGrowthRate_eq_zero_iff (s e : Int) (hs0 : 0 < s) (hs1 : s < 2 ^ 63)
    (he0 : 0 ≤ e) (he1 : e < 2 ^ 63) : doubleGrowthRate s e = 0 ↔ e = s := by
  have hd : toLongLong (e - s) = e - s := toLongLong_of_range _ (by omega) (by omega)
  unfold doubleGrowthRate
  rw [hd]
  constructor
  · intro h
    by_contra hne
    have hQ := growth_quotient_ge s (e - s) hs0 hs1 (by omega)
    have hQ' := roundToDouble_abs_ge _ (-63) (by decide) hQ
    have hP : (2 : ℚ) ^ (-63 : Int)
        ≤ |roundToDouble (roundToDouble ((e - s : Int) : ℚ) / roundToDouble (s : ℚ)) * 100| := by
      rw [abs_mul]
      have h100 : |(100 : ℚ)| = 100 := abs_of_pos (by norm_num)
      rw [h100]
      nlinarith [two_zpow_pos (-63)]
    have hR := roundToDouble_abs_ge _ (-63) (by decide) hP
    rw [h, abs_zero] at hR
    exact absurd (two_zpow_pos (-63)) (not_lt.2 hR)
  · intro h
    rw [h, sub_self, Int.cast_zero, roundToDouble_zero, zero_div, roundToDouble_zero, zero_mul,
      roundToDouble_zero]

/-- For populations in the range of `long long`, the first one positive, the growth
rate differs from the exact value of `(end - start) / start * 100` by at most
`2^-50` of that value. -/
theorem doubleGrowthRate_accurate (s e : Int) (hs0 : 0 < s) (hs1 : s < 2 ^ 63)
    (he0 : 0 ≤ e) (he1 : e < 2 ^ 63) :
    |doubleGrowthRate s e - ((e - s : Int) : ℚ) / (s : ℚ) * 100|
      ≤ 2 ^ (-50 : Int) * |((e - s : Int) : ℚ) / (s : ℚ) * 100| := by
  by_cases hes : e = s
  · rw [(doubleGrowthRate_eq_zero_iff s e hs0 hs1 he0 he1).2 hes, hes]
    simp
  have hd : toLongLong (e - s) = e - s := toLongLong_of_range _ (by omega) (by omega)
  have hd0 : e - s ≠ 0 := by omega
  unfold doubleGrowthRate
  rw [hd]
  generalize hdef : e - s = d at hd0
  have hsq : (0 : ℚ) < (s : ℚ) := by exact_mod_cast hs0
  have hnorm : ∀ n : Int, n ≠ 0 → (2 : ℚ) ^ (-1022 : Int) ≤ |(n : ℚ)| := by
    intro n hn
    have h1 : (1 : Int) ≤ |n| := Int.one_le_abs hn
    have h2 : (1 : ℚ) ≤ |(n : ℚ)| := by
      rw [← Int.cast_abs]
      exact_mod_cast h1
    have h3 : (2 : ℚ) ^ (-1022 : Int) ≤ 1 := by
      rw [zpow_neg]
      apply inv_le_one_of_one_le₀
      norm_num
    exact le_trans h3 h2
  have hsmall : (2 : ℚ) ^ (-1022 : Int) ≤ 2 ^ (-63 : Int) :=
    zpow_le_zpow_right₀ (by norm_num) (by decide)
  have hA := roundToDouble_rel_error (d : ℚ) (hnorm d hd0)
  have hB := roundToDouble_rel_error (s : ℚ) (hnorm s (by omega))
  rw [abs_of_pos hsq] at hB
  have hquot := quotient_error _ _ (d : ℚ) (s : ℚ) (2 ^ (-53 : Int)) hsq
    (le_of_lt (two_zpow_pos _)) (by norm_num) hA hB
  have hQge := growth_quotient_ge s d hs0 hs1 hd0
  have hQ := roundToDouble_rel_error _ (le_trans hsmall hQge)
  have hQ' := roundToDouble_abs_ge _ (-63) (by decide) hQge
  generalize roundToDouble (d : ℚ) / roundToDouble (s : ℚ) = q at hquot hQ hQ' hQge
  generalize hX : (d : ℚ) / (s : ℚ) = X at hquot
  have hP : (2 : ℚ) ^ (-1022 : Int) ≤ |roundToDouble q * 100| := by
    rw [abs_mul]
    have h100 : |(100 : ℚ)| = 100 := abs_of_pos (by norm_num)
    rw [h100]
    nlinarith [two_zpow_pos (-63), two_zpow_pos (-1022)]
  have hR := roundToDouble_rel_error _ hP
  generalize roundToDouble q = Q at hQ hP hR
  generalize roundToDouble (Q * 100) = R at hR
  -- the three error bounds combined
  have hu : (2 : ℚ) ^ (-53 : Int) = 1 / 9007199254740992 := by norm_num
  have h50 : (2 : ℚ) ^ (-50 : Int) = 1 / 1125899906842624 := by norm_num
  rw [hu] at hquot hQ hR
  rw [h50]
  have hXn := abs_nonneg X
  have hq1 : |q| ≤ |X| + 2 * (1 / 9007199254740992) / (1 - 1 / 9007199254740992) * |X| := by
    have := abs_sub_abs_le_abs_sub q X
    linarith
  have hQX : |Q - X| ≤ |Q - q| + |q - X| := abs_sub_le Q q X
  have hQ1 : |Q| ≤ |X| + |Q - X| := by
    have := abs_sub_abs_le_abs_sub Q X
    linarith
  have hRX : |R - X * 100| ≤ |R - Q * 100| + |Q * 100 - X * 100| := abs_sub_le _ _ _
  have h100 : |Q * 100 - X * 100| = 100 * |Q - X| := by
    rw [← sub_mul, abs_mul]
    have : |(100 : ℚ)| = 100 := abs_of_pos (by norm_num)
    rw [this]
    ring
  have hQ100 : |Q * 100| = 100 * |Q| := by
    rw [abs_mul]
    have : |(100 : ℚ)| = 100 := abs_of_pos (by norm_num)
    rw [this]
    ring
  have hX100 : |X * 100| = 100 * |X| := by
    rw [abs_mul]
    have : |(100 : ℚ)| = 100 := abs_of_pos (by norm_num)
    rw [this]
    ring
  rw [hQ100] at hR
  rw [h100] at hRX
  rw [hX100]
  norm_num at hquot hq1 hQ hR ⊢
  nlinarith [abs_nonneg (Q - q), abs_nonneg (q - X), abs_nonneg (R - Q * 100)]

/-- C29 (as amended). `calculateGlobalPopulationGrowth(startYear, endYear)` computes,
on the serial path and on the `std::thread` parallel path for every
`W ≥ 1`, the same two sums, taken independently: `S` (positive start-year
populations) and `E` (positive end-year populations), each reduced to 64
bits. While both sums are below `2^63` it returns `0.0` when `S = 0` and the
`double` value of `(E - S) / S * 100` otherwise, which lies within `2^-50` of
the exact value, relatively; so it returns `0.0` exactly when `S = 0` or
`E = S`. -/
theorem calculateGlobalPopulationGrowth_spec (cd : CountryData) (startYear endYear : Int)
    (useParallel : Bool) (W : Nat) (hW : 1 ≤ W) :
    globalPopulationSums cd startYear endYear true W
        = globalPopulationSums cd startYear endYear false W
    ∧ globalPopulationSums cd startYear endYear useParallel W
        = some (toLongLong (specTotalPopulation cd startYear),
            toLongLong (specTotalPopulation cd endYear))
    ∧ (specTotalPopulation cd startYear < 2 ^ 63 → specTotalPopulation cd endYear < 2 ^ 63 →
        globalPopulationSums cd startYear endYear useParallel W
            = some (specTotalPopulation cd startYear, specTotalPopulation cd endYear)
        ∧ calculateGlobalPopulationGrowth cd startYear endYear useParallel W
            = some (if specTotalPopulation cd startYear = 0 then 0
                else doubleGrowthRate (specTotalPopulation cd startYear)
                  (specTotalPopulation cd endYear))
        ∧ (calculateGlobalPopulationGrowth cd startYear endYear useParallel W = some 0
            ↔ specTotalPopulation cd startYear = 0
              ∨ specTotalPopulation cd endYear = specTotalPopulation cd startYear)
        ∧ (specTotalPopulation cd startYear ≠ 0 →
            ∃ r : ℚ, calculateGlobalPopulationGrowth cd startYear endYear useParallel W = some r
              ∧ |r - ((specTotalPopulation cd endYear - specTotalPopulation cd startYear : Int) : ℚ)
                      / (specTotalPopulation cd startYear : ℚ) * 100|
                  ≤ 2 ^ (-50 : Int)
                    * |((specTotalPopulation cd endYear - specTotalPopulation cd startYear : Int) : ℚ)
                        / (specTotalPopulation cd startYear : ℚ) * 100|)) := by
  have hsums := globalPopulationSums_eq cd startYear endYear useParallel W hW
  refine ⟨?_, hsums, ?_⟩
  · rw [globalPopulationSums_eq cd startYear endYear true W hW,
      globalPopulationSums_eq cd startYear endYear false W hW]
  intro hS1 hE1
  have hS0 := specTotalPopulation_nonneg cd startYear
  have hE0 := specTotalPopulation_nonneg cd endYear
  have hfS := toLongLong_of_range (specTotalPopulation cd startYear) (by omega) hS1
  have hfE := toLongLong_of_range (specTotalPopulation cd endYear) (by omega) hE1
  rw [hfS, hfE] at hsums
  have hres : calculateGlobalPopulationGrowth cd startYear endYear useParallel W
      = some (if specTotalPopulation cd startYear = 0 then 0
          else doubleGrowthRate (specTotalPopulation cd startYear)
            (specTotalPopulation cd endYear)) := by
    unfold calculateGlobalPopulationGrowth
    rw [hsums]
    simp only
    by_cases hS : specTotalPopulation cd startYear = 0
    · rw [if_pos hS, if_pos hS]
    · rw [if_neg hS, if_neg hS]
      unfold growthPercent
      rw [if_neg hS]
  refine ⟨hsums, hres, ?_, ?_⟩
  · rw [hres]
    by_cases hS : specTotalPopulation cd startYear = 0
    · rw [if_pos hS]
      exact ⟨fun _ => Or.inl hS, fun _ => rfl⟩
    · rw [if_neg hS]
      have hz := doubleGrowthRate_eq_zero_iff (specTotalPopulation cd startYear)
        (specTotalPopulation cd endYear) (by omega) hS1 hE0 hE1
      constructor
      · intro h
        injection h with h
        exact Or.inr (hz.1 h)
      · rintro (h | h)
        · exact absurd h hS
        · rw [hz.2 h]
  · intro hS
    rw [hres, if_neg hS]
    exact ⟨_, rfl, doubleGrowthRate_accurate _ _ (by omega) hS1 hE0 hE1⟩

/-- Witness for C29 (as amended): the USA/CHN table on the parallel path with three
workers. -/
theorem calculateGlobalPopulationGrowth_spec_witness :
    specTotalPopulation usaChnTable 2000 < 2 ^ 63
    ∧ specTotalPopulation usaChnTable 2020 < 2 ^ 63
    ∧ globalPopulationSums usaChnTable 2000 2020 true 3
        = some (specTotalPopulation usaChnTable 2000, specTotalPopulation usaChnTable 2020)
    ∧ calculateGlobalPopulationGrowth usaChnTable 2000 2020 true 3
        = some (if specTotalPopulation usaChnTable 2000 = 0 then 0
            else doubleGrowthRate (specTotalPopulation usaChnTable 2000)
              (specTotalPopulation usaChnTable 2020))
    ∧ (calculateGlobalPopulationGrowth usaChnTable 2000 2020 true 3 = some 0
        ↔ specTotalPopulation usaChnTable 2000 = 0
          ∨ specTotalPopulation usaChnTable 2020 = specTotalPopulation usaChnTable 2000)
    ∧ specTotalPopulation usaChnTable 2000 ≠ 0
    ∧ (∃ r : ℚ, calculateGlobalPopulationGrowth usaChnTable 2000 2020 true 3 = some r
        ∧ |r - ((specTotalPopulation usaChnTable 2020
                  - specTotalPopulation usaChnTable 2000 : Int) : ℚ)
                / (specTotalPopulation usaChnTable 2000 : ℚ) * 100|
            ≤ 2 ^ (-50 : Int)
              * |((specTotalPopulation usaChnTable 2020
                    - specTotalPopulation usaChnTable 2000 : Int) : ℚ)
                  / (specTotalPopulation usaChnTable 2000 : ℚ) * 100|) :=
  have h := (calculateGlobalPopulationGrowth_spec usaChnTable 2000 2020 true 3 (by decide)).2.2
    (by decide) (by decide)
  ⟨by decide, by decide, h.1, h.2.1, h.2.2.1, by decide, h.2.2.2 (by decide)⟩

/-- C29, counterexample. A country with the same population in both years: the
start sum `S` is 100, not 0, and the growth returned is `0.0`. -/
theorem calculateGlobalPopulationGrowth_zero_with_positive_start :
    specTotalPopulation flatTable 2000 = 100
    ∧ specTotalPopulation flatTable 2020 = 100
    ∧ calculateGlobalPopulationGrowth flatTable 2000 2020 false 1 = some 0
    ∧ calculateGlobalPopulationGrowth flatTable 2000 2020 true 1 = some 0 := by
  have hS : specTotalPopulation flatTable 2000 = 100 := by decide
  have hE : specTotalPopulation flatTable 2020 = 100 := by decide
  have hw : toLongLong 100 = 100 := by decide
  have hg : growthPercent 100 100 = some 0 := by
    unfold growthPercent
    rw [if_neg (by decide),
      (doubleGrowthRate_eq_zero_iff 100 100 (by decide) (by decide) (by decide) (by decide)).2
        rfl]
  have h : ∀ b, calculateGlobalPopulationGrowth flatTable 2000 2020 b 1 = some 0 := by
    intro b
    unfold calculateGlobalPopulationGrowth
    rw [globalPopulationSums_eq flatTable 2000 2020 b 1 (by decide), hS, hE, hw]
    simp only
    rw [if_neg (by decide), hg]
  exact ⟨hS, hE, h false, h true⟩

theorem mem_growthEntry (s e : Int) (cd : CountryData) (code : Str) (rate : ℚ) :
    (code, rate) ∈ cd.filterMap (growthEntry doubleGrowthRate s e)
      ↔ ∃ c ∈ cd, ∃ a b : Int, c.1 = code ∧ c.2.lookup s = some a ∧ c.2.lookup e = some b
          ∧ 0 < a ∧ 0 < b ∧ rate = doubleGrowthRate a b := by
  rw [List.mem_filterMap]
  constructor
  · rintro ⟨c, hc, hcx⟩
    unfold growthEntry at hcx
    cases hs : c.2.lookup s with
    | none => simp [hs] at hcx
    | some a =>
      cases he : c.2.lookup e with
      | none => simp [hs, he] at hcx
      | some b =>
        by_cases hpos : a > 0 ∧ b > 0
        · simp only [hs, he, hpos, and_self, if_true, Option.some.injEq, Prod.mk.injEq] at hcx
          exact ⟨c, hc, a, b, hcx.1, hs, he, hpos.1, hpos.2, hcx.2.symm⟩
        · simp [hs, he, hpos] at hcx
  · rintro ⟨c, hc, a, b, h1, hs, he, ha, hb, hr⟩
    refine ⟨c, hc, ?_⟩
    unfold growthEntry
    have hpos : a > 0 ∧ b > 0 := ⟨ha, hb⟩
    simp [hs, he, hpos, h1, hr]

/-- On a table whose stored populations are all positive, the entry the code pushes
for a country is the one the specification describes. -/
theorem growthEntry_eq_specGrowthEntry (cd : CountryData) (hv : validTable cd) (s e : Int)
    (c : Country) (hc : c ∈ cd) :
    growthEntry doubleGrowthRate s e c = specGrowthEntry s e c := by
  unfold growthEntry specGrowthEntry
  cases hs : c.2.lookup s with
  | none => rfl
  | some a =>
    cases he : c.2.lookup e with
    | none => rfl
    | some b =>
      have hb : 0 < b := (hv c hc (e, b) (lookup_some_mem e b c.2 he)).1
      by_cases ha : a > 0
      · simp only [ha, hb, gt_iff_lt, and_self, if_true]
      · simp only [ha, false_and, if_false]

theorem stringToLongLong_lt (str : Str) : stringToLongLong str < 2 ^ 63 := by
  unfold stringToLongLong
  split
  · decide
  · unfold stoll
    cases parseInteger str with
    | none => decide
    | some v =>
      simp only
      by_cases h : -2 ^ 63 ≤ v ∧ v < 2 ^ 63
      · rw [if_pos h]
        exact h.2
      · rw [if_neg h]
        decide

theorem longLongTable_storePopulation (code : Str) (year population : Int) (cd : CountryData)
    (hv : longLongTable cd) (hp : population < 2 ^ 63) :
    longLongTable (storePopulation code year population cd) := by
  intro country hc entry he
  unfold storePopulation at hc
  rcases mem_assign _ _ _ _ hc with h | h
  · rw [h] at he
    simp only at he
    rcases mem_assign _ _ _ _ he with h' | h'
    · rw [h']
      exact hp
    · cases hl : cd.lookup code with
      | none =>
        rw [hl] at h'
        simp at h'
      | some m =>
        rw [hl] at h'
        exact hv (code, m) (lookup_some_mem code m cd hl) entry h'
  · exact hv country h entry he

theorem longLongTable_foldl_storeYear (code : Str) (fields : List Str) :
    ∀ (cols : List Nat) (cd : CountryData), longLongTable cd →
      longLongTable (cols.foldl (storeYear code fields) cd) := by
  intro cols
  induction cols with
  | nil => intro cd hv; exact hv
  | cons i rest ih =>
    intro cd hv
    rw [List.foldl_cons]
    apply ih
    unfold storeYear
    by_cases hp : stringToLongLong (fields.getD i []) > 0
    · rw [if_pos hp]
      exact longLongTable_storePopulation code _ _ cd hv (stringToLongLong_lt _)
    · rw [if_neg hp]
      exact hv

theorem longLongTable_processLine (table : Table) (line : Str)
    (hv : longLongTable table.countryData) :
    longLongTable (processLine table line).countryData := by
  unfold processLine
  split
  · exact hv
  · split
    · exact hv
    · simp only
      split
      · exact hv
      · split
        · exact hv
        · exact longLongTable_foldl_storeYear _ _ _ _ hv

/-- The populations that `loadFromCSV` stores lie below `2^63`. -/
theorem longLongTable_loadFromCSV (lines : List Str) :
    ∀ table : Table, longLongTable table.countryData →
      longLongTable (loadFromCSV table lines).countryData := by
  induction lines with
  | nil => intro table hv; exact hv
  | cons line rest ih =>
    intro table hv
    exact ih _ (longLongTable_processLine table line hv)

/-- C6. On a table that satisfies the invariant of the loader (every stored
population is positive), the serial path of
`calculateCountryGrowthRates(startYear, endYear)` returns exactly one pair
`(countryCode, rate)`, the rate being the `double` value of
`(end - start) / start * 100`, for each country for which both year lookups
are present and the start-year population is positive, and no other pairs,
ordered by rate descending; the rate lies within `2^-50` of the exact value,
relatively, the populations being `long long` values; for the table
`{USA: {2000: 100, 2020: 150}, CHN: {2000: 200, 2020: 180}}` and the years
`(2000, 2020)` the result is `[(USA, 50), (CHN, -10)]`. -/
theorem calculateCountryGrowthRates_serial_spec (cd : CountryData) (startYear endYear : Int)
    (W : Nat) (order : List Nat) (hv : validTable cd) :
    (∃ result : List (Str × ℚ),
      calculateCountryGrowthRates doubleGrowthRate cd startYear endYear false W order
        = some result
      ∧ result.Perm (cd.filterMap (specGrowthEntry startYear endYear))
      ∧ result.Sorted (fun a b => a.2 ≥ b.2)
      ∧ (∀ code rate, (code, rate) ∈ result
          ↔ ∃ c ∈ cd, ∃ a b : Int, c.1 = code ∧ c.2.lookup startYear = some a
              ∧ c.2.lookup endYear = some b ∧ 0 < a ∧ rate = doubleGrowthRate a b)
      ∧ (longLongTable cd → ∀ code rate, (code, rate) ∈ result →
          ∃ c ∈ cd, ∃ a b : Int, c.1 = code ∧ c.2.lookup startYear = some a
            ∧ c.2.lookup endYear = some b
            ∧ |rate - ((b - a : Int) : ℚ) / (a : ℚ) * 100|
                ≤ 2 ^ (-50 : Int) * |((b - a : Int) : ℚ) / (a : ℚ) * 100|))
    ∧ calculateCountryGrowthRates doubleGrowthRate usaChnTable 2000 2020 false W order
        = some [("USA".toList, 50), ("CHN".toList, -10)] := by
  have hfm : cd.filterMap (growthEntry doubleGrowthRate startYear endYear)
      = cd.filterMap (specGrowthEntry startYear endYear) := by
    have h : ∀ l : CountryData, (∀ c ∈ l, c ∈ cd) →
        l.filterMap (growthEntry doubleGrowthRate startYear endYear)
          = l.filterMap (specGrowthEntry startYear endYear) := by
      intro l
      induction l with
      | nil => intro _; rfl
      | cons c l ih =>
        intro hl
        rw [List.filterMap_cons, List.filterMap_cons,
          growthEntry_eq_specGrowthEntry cd hv startYear endYear c
            (hl c (List.mem_cons_self _ _)),
          ih (fun x hx => hl x (List.mem_cons_of_mem _ hx))]
    exact h cd (fun _ hc => hc)
  have hmem : ∀ code rate,
      (code, rate) ∈ stdSort bySecondDesc
          (cd.foldl (pushGrowthRate doubleGrowthRate startYear endYear) [])
        ↔ ∃ c ∈ cd, ∃ a b : Int, c.1 = code ∧ c.2.lookup startYear = some a
            ∧ c.2.lookup endYear = some b ∧ 0 < a ∧ 0 < b ∧ rate = doubleGrowthRate a b := by
    intro code rate
    rw [foldl_push _ _ (pushGrowthRate_eq doubleGrowthRate startYear endYear), List.nil_append,
      (stdSort_perm _ _).mem_iff, mem_growthEntry]
  refine ⟨⟨_, rfl, ?_, stdSort_sorted _, ?_, ?_⟩, ?_⟩
  · rw [foldl_push _ _ (pushGrowthRate_eq doubleGrowthRate startYear endYear), List.nil_append,
      ← hfm]
    exact stdSort_perm _ _
  · intro code rate
    rw [hmem]
    constructor
    · rintro ⟨c, hc, a, b, h1, hs, he, ha, _, hr⟩
      exact ⟨c, hc, a, b, h1, hs, he, ha, hr⟩
    · rintro ⟨c, hc, a, b, h1, hs, he, ha, hr⟩
      exact ⟨c, hc, a, b, h1, hs, he, ha,
        (hv c hc (endYear, b) (lookup_some_mem endYear b c.2 he)).1, hr⟩
  · intro hr code rate hin
    obtain ⟨c, hc, a, b, h1, hs, he, ha, hb, hrate⟩ := (hmem code rate).1 hin
    refine ⟨c, hc, a, b, h1, hs, he, ?_⟩
    rw [hrate]
    exact doubleGrowthRate_accurate a b ha
      (hr c hc (startYear, a) (lookup_some_mem startYear a c.2 hs)) (le_of_lt hb)
      (hr c hc (endYear, b) (lookup_some_mem endYear b c.2 he))
  · have h1 : usaChnTable.foldl (pushGrowthRate doubleGrowthRate 2000 2020) []
        = [("USA".toList, doubleGrowthRate 100 150), ("CHN".toList, doubleGrowthRate 200 180)] :=
      rfl
    simp only [calculateCountryGrowthRates, Bool.false_eq_true, if_false]
    rw [h1, doubleGrowthRate_100_150, doubleGrowthRate_200_180]
    simp [stdSort, List.insertionSort, List.orderedInsert, bySecondDesc]
    norm_num

/-- Witness for C6: the USA/CHN table, which satisfies the invariant of the
loader and holds `long long` values. -/
theorem calculateCountryGrowthRates_serial_spec_witness :
    validTable usaChnTable ∧ longLongTable usaChnTable
    ∧ (∃ result : List (Str × ℚ),
      calculateCountryGrowthRates doubleGrowthRate usaChnTable 2000 2020 false 1 [0]
        = some result
      ∧ result.Perm (usaChnTable.filterMap (specGrowthEntry 2000 2020))
      ∧ result.Sorted (fun a b => a.2 ≥ b.2)
      ∧ (∀ code rate, (code, rate) ∈ result
          ↔ ∃ c ∈ usaChnTable, ∃ a b : Int, c.1 = code ∧ c.2.lookup 2000 = some a
              ∧ c.2.lookup 2020 = some b ∧ 0 < a ∧ rate = doubleGrowthRate a b)
      ∧ (∀ code rate, (code, rate) ∈ result →
          ∃ c ∈ usaChnTable, ∃ a b : Int, c.1 = code ∧ c.2.lookup 2000 = some a
            ∧ c.2.lookup 2020 = some b
            ∧ |rate - ((b - a : Int) : ℚ) / (a : ℚ) * 100|
                ≤ 2 ^ (-50 : Int) * |((b - a : Int) : ℚ) / (a : ℚ) * 100|))
    ∧ calculateCountryGrowthRates doubleGrowthRate usaChnTable 2000 2020 false 1 [0]
        = some [("USA".toList, 50), ("CHN".toList, -10)] := by
  refine ⟨by decide, by decide, ?_,
    (calculateCountryGrowthRates_serial_spec usaChnTable 2000 2020 1 [0] (by decide)).2⟩
  obtain ⟨result, h1, h2, h3, h4, h5⟩ :=
    (calculateCountryGrowthRates_serial_spec usaChnTable 2000 2020 1 [0] (by decide)).1
  exact ⟨result, h1, h2, h3, h4, h5 (by decide)⟩

/-- For a non-empty table the parallel path of the pthread variant of
`calculateTotalWorldPopulation` returns the total of the serial path: the sum
of the positive populations of the year, reduced to 64 bits. -/
theorem pthreadCalculateTotalWorldPopulation_eq (cd : CountryData) (year : Int)
    (order : List Nat) (hne : cd ≠ [])
    (ho : order.Perm (List.range (pthreadNumThreads cd.length))) :
    pthreadCalculateTotalWorldPopulation cd year true order
      = some (toLongLong (specTotalPopulation cd year)) := by
  have hlen : 1 ≤ cd.length := List.length_pos.2 hne
  have hw : 1 ≤ pthreadNumThreads cd.length := by
    rw [pthreadNumThreads_eq_min]
    omega
  have h := runWorldPopulationWorkers_eq cd year _ order 0
    (fun t ht => List.mem_range.1 (ho.mem_iff.1 ht))
  rw [toLongLong_zero, zero_add] at h
  unfold pthreadCalculateTotalWorldPopulation
  rw [if_pos rfl, if_neg (by omega), h, specTotalPopulation_eq,
    ((chunks_perm cd _ hw order ho).map (positivePopulation year)).sum_eq]

/-- C21, the code at the failing input. On the empty table the pthread variant
clamps the worker count to 0, so `countryVector.size() / numThreads` divides
by zero in every parallel query; the serial paths return the identity
result. -/
theorem pthread_empty_table_divides_by_zero :
    pthreadNumThreads ([] : CountryData).length = 0
    ∧ pthreadCalculateTotalWorldPopulation [] 2020 true [] = none
    ∧ pthreadCalculateGlobalPopulationGrowth [] 1960 2020 true [] = none
    ∧ pthreadGetTopCountriesByPopulation [] 2020 10 true [] = none
    ∧ pthreadFindCountriesWithPopulationAbove [] 100 2020 true [] = none
    ∧ pthreadCalculateCountryGrowthRates doubleGrowthRate [] 1960 2020 true [] = none
    ∧ pthreadCalculateTotalWorldPopulation [] 2020 false [] = some 0
    ∧ pthreadGetTopCountriesByPopulation [] 2020 10 false [] = some []
    ∧ calculateTotalWorldPopulation [] 2020 true 4 = some 0 := by
  refine ⟨rfl, rfl, rfl, rfl, rfl, rfl, rfl, rfl, by decide⟩

end PopulationData
